import Mathlib

/-!
s3fuse: object metadata, request pipeline, object cache and bucket listing.

A shallow embedding of `object.cc`, `request.cc`, `object_cache.hh` and
`fs/bucket_reader.cc`, followed by theorems about the embedded functions.

Conventions of the embedding
* `std::string` is a list of characters (`Str`); `c_str()` views are taken
  where the source takes them.
* `std::map` is an association list kept in key order by `map_set`.
* Machine integers are `Nat`/`Int`; conversions between C types are the
  explicit functions `to_u32`, `as_int`, `wrap_long`, `clamp_long`.
* `time(NULL)` is passed in as the clock reading `now`.
* Exceptions are results `(error, state)`: the state is what the members
  hold at the `throw`.
-/

namespace s3

/-! ## Strings and errno values -/

abbrev Str := List Char

def EINVAL : Int := 22
def ENOENT : Int := 2
def EIO : Int := 5

/-- Byte-wise lexicographic order of `std::string` (`std::less<std::string>`). -/
def str_lt : Str → Str → Bool
  | [], [] => false
  | [], _ :: _ => true
  | _ :: _, [] => false
  | a :: as, b :: bs =>
    if a.toNat < b.toNat then true
    else if b.toNat < a.toNat then false
    else str_lt as bs

/-- The test `strncmp(s, p, strlen(p)) == 0` for a constant `p` without NUL:
the first `strlen(p)` characters of `s` are exactly `p`. -/
def starts_with (p s : Str) : Bool := p.isPrefixOf s

/-! ## `std::map` -/

/-- Lookup, `m.find(k)`: the value of the first entry with key `k`. -/
def map_find {K V : Type} [DecidableEq K] (k : K) : List (K × V) → Option V
  | [] => none
  | (k1, v1) :: m => if k = k1 then some v1 else map_find k m

/-- Assignment `m[k] = v` into a map ordered by `lt`. -/
def map_set {K V : Type} [DecidableEq K] (lt : K → K → Bool) (k : K) (v : V) :
    List (K × V) → List (K × V)
  | [] => [(k, v)]
  | (k1, v1) :: m =>
    if k = k1 then (k, v) :: m
    else if lt k k1 then (k, v) :: (k1, v1) :: m
    else (k1, v1) :: map_set lt k v m

/-- Removal `m.erase(k)`. -/
def map_erase {K V : Type} [DecidableEq K] (k : K) (m : List (K × V)) : List (K × V) :=
  m.filter (fun e => decide (e.1 ≠ k))

/-- Map from strings to strings (`meta_map`, `header_map`). -/
abbrev str_map := List (Str × Str)

/-- Read access `m[k]` on a string map: the value, or the empty string that
`operator[]` default-constructs. -/
def str_map_get (m : str_map) (k : Str) : Str := (map_find k m).getD []

/-- State of the map after the read access `m[k]`: a missing key is inserted
with an empty value. -/
def str_map_touch (m : str_map) (k : Str) : str_map :=
  match map_find k m with
  | some _ => m
  | none => map_set str_lt k [] m

/-- A map whose keys are strictly ascending, as `std::map` keeps them. -/
def map_sorted (m : str_map) : Prop := List.Pairwise (fun a b => str_lt a.1 b.1 = true) m

instance (m : str_map) : Decidable (map_sorted m) :=
  inferInstanceAs
    (Decidable (List.Pairwise (fun a b : Str × Str => str_lt a.1 b.1 = true) m))

/-! ## C library: `strtol`, `snprintf` -/

def LONG_MAX : Int := 9223372036854775807
def LONG_MIN : Int := -9223372036854775808

/-- Saturation of `strtol` at the range of `long`. -/
def clamp_long (x : Int) : Int :=
  if x > LONG_MAX then LONG_MAX else if x < LONG_MIN then LONG_MIN else x

/-- Two-complement wrap of a value into `long` (64 bit). -/
def wrap_long (x : Int) : Int := (x + 9223372036854775808) % 18446744073709551616 - 9223372036854775808

/-- Conversion of a `long` to a 32-bit unsigned (`mode_t`, `uid_t`, `gid_t`). -/
def to_u32 (x : Int) : Nat := (x % 4294967296).toNat

/-- A 32-bit unsigned argument read by `printf` as `int` (`%i`). -/
def as_int (u : Nat) : Int :=
  if u % 4294967296 < 2147483648 then ((u % 4294967296 : Nat) : Int)
  else ((u % 4294967296 : Nat) : Int) - 4294967296

/-- C locale `isspace`. -/
def isspace (c : Char) : Bool := c.toNat = 32 || (9 ≤ c.toNat && c.toNat ≤ 13)

/-- Value of a character as a digit in bases up to 36. -/
def digit_value (c : Char) : Option Nat :=
  let n := c.toNat
  if 48 ≤ n ∧ n ≤ 57 then some (n - 48)
  else if 97 ≤ n ∧ n ≤ 122 then some (n - 87)
  else if 65 ≤ n ∧ n ≤ 90 then some (n - 55)
  else none

def is_digit_in (base : Nat) (c : Char) : Bool :=
  match digit_value c with
  | some d => decide (d < base)
  | none => false

/-- Value of the longest run of base-`base` digits at the start of `s`. -/
def strtol_digits (base : Nat) (s : Str) : Nat :=
  (s.takeWhile (is_digit_in base)).foldl (fun acc c => acc * base + (digit_value c).getD 0) 0

/-- A `0x`/`0X` prefix followed by a hexadecimal digit. -/
def starts_hex : Str → Bool
  | z :: x :: h :: _ => z = '0' && (x = 'x' || x = 'X') && is_digit_in 16 h
  | _ => false

/-- Magnitude parsed by `strtol(_, NULL, 0)` after blanks and sign. -/
def strtol_magnitude (s : Str) : Nat :=
  if starts_hex s then strtol_digits 16 (s.drop 2)
  else if s.head? = some '0' then strtol_digits 8 s
  else strtol_digits 10 s

/-- The call `strtol(s, NULL, 0)`: leading blanks, optional sign, base from the
prefix (`0x` hexadecimal, `0` octal, else decimal), longest digit run,
saturated to `long`; 0 when there is no digit. -/
def strtol (s : Str) : Int :=
  let s1 := s.dropWhile isspace
  match s1 with
  | c :: t =>
    if c = '-' then clamp_long (- (strtol_magnitude t : Int))
    else if c = '+' then clamp_long (strtol_magnitude t)
    else clamp_long (strtol_magnitude s1)
  | [] => 0

def digit_char (d : Nat) : Char := Char.ofNat (48 + d)

/-- Digits of `n` in base `base`, most significant first; `fuel` bounds the
number of digits. -/
def to_digits (base : Nat) : Nat → Nat → Str
  | 0, _ => []
  | fuel + 1, n =>
    if n < base then [digit_char n]
    else to_digits base fuel (n / base) ++ [digit_char (n % base)]

/-- Unsigned conversion; 64 digits cover every 64-bit value in any base. -/
def fmt_unsigned (base n : Nat) : Str := to_digits base 64 n

/-- Conversions `%i` and `%li`. -/
def fmt_signed (x : Int) : Str :=
  if x < 0 then '-' :: fmt_unsigned 10 x.natAbs else fmt_unsigned 10 x.natAbs

/-- Conversion `%#o`: octal with a leading zero, a plain `0` for zero. -/
def fmt_alt_octal (n : Nat) : Str :=
  if n = 0 then ['0'] else '0' :: fmt_unsigned 8 n

/-- Result of `snprintf(buf, size, ...)` read back as a C string: at most
`size - 1` characters of the formatted text. -/
def snprintf (size : Nat) (text : Str) : Str := text.take (size - 1)

/-! ## Collaborators that are not part of the translated sources -/

/-- Helpers of namespace `util` (declared in `util.hh`, which is outside the
translated sources); they are parameters of the development. -/
structure util where
  is_valid_md5 : Str → Bool
  url_encode : Str → Str
  sign : Str → Str → Str

/-- Settings read through `config::` (declared in `config.hh`, outside the
translated sources), and the text `strftime` gives for a clock reading with the
format `%a, %d %b %Y %H:%M:%S GMT`. -/
structure config where
  url_prefix : Str
  aws_key : Str
  aws_secret : Str
  request_timeout_in_s : Int
  http_date : Int → Str

/-- Modelled from the spec: class `open_file` (its header is outside the
translated sources), "reference-counted", with `{init, add_reference, release,
cleanup, get_handle}`. `cleanups` counts the calls of `cleanup()`. -/
structure open_file where
  handle : Nat
  ref_count : Nat
  cleanups : Nat
deriving DecidableEq

/-! ## `object.cc`: data -/

inductive object_type where
  | OT_INVALID
  | OT_FILE
  | OT_DIRECTORY
  | OT_SYMLINK
deriving DecidableEq

open object_type

/-- The members of `struct stat` the sources read or write; `memset` zeroes
them all. -/
structure stat where
  st_mode : Nat
  st_uid : Nat
  st_gid : Nat
  st_size : Int
  st_mtime : Int
  st_nlink : Nat
  st_blocks : Int
deriving DecidableEq

def stat_zero : stat := ⟨0, 0, 0, 0, 0, 0, 0⟩

structure object where
  _path : Str
  _type : object_type
  _url : Str
  _stat : stat
  _content_type : Str
  _etag : Str
  _mtime_etag : Str
  _md5 : Str
  _md5_etag : Str
  _expiry : Int
  _metadata : str_map
  _open_file : Option open_file
deriving DecidableEq

def S_IFMT : Nat := 0o170000
def S_IFREG : Nat := 0o100000
def S_IFDIR : Nat := 0o040000
def S_IFLNK : Nat := 0o120000

/-- The value of `~S_IFMT` in a 32-bit `mode_t`. -/
def NOT_S_IFMT : Nat := 0xFFFF0FFF

def BLOCK_SIZE : Int := 512
def AMZ_META_PREFIX : Str := "x-amz-meta-".toList
def AMZ_META_PREFIX_RESERVED : Str := "s3fuse-".toList
def AMZ_META_PREFIX_LEN : Nat := ( AMZ_META_PREFIX).length
def SYMLINK_CONTENT_TYPE : Str := "text/symlink".toList

def g_default_uid : Nat := 1000
def g_default_gid : Nat := 1000
def g_default_mode : Nat := 0o755
def g_expiry_in_s : Int := 3 * 60
def g_default_content_type : Str := "binary/octet-stream".toList
def g_bucket : Str := "test-0".toList
def g_bucket_url (u : util) : Str := '/' :: u.url_encode g_bucket

/-! ## `request.cc`: data -/

/-- The method selector of `request::init`. `request.hh`, which declares the
enumeration, is outside the translated sources; `HTTP_OTHER` stands for every
value that is none of the five `init` compares with. -/
inductive http_method where
  | HTTP_DELETE
  | HTTP_GET
  | HTTP_HEAD
  | HTTP_POST
  | HTTP_PUT
  | HTTP_OTHER (value : Nat)
deriving DecidableEq

open http_method

/-- Options held by the curl handle that the request sets. -/
structure curl_options where
  url : Str
  custom_request : Option Str
  upload : Bool
  nobody : Bool
  post : Bool
  infilesize : Option Nat
  postfieldsize : Option Nat
  http_header : List Str
deriving DecidableEq

/-- Members of `request`. The two run-time accumulators (`double`) are left
out; nothing below reads them. The target object is held by value: the
request is the only writer while it runs. -/
structure request where
  _curl : curl_options
  _curl_error : Str
  _method : Str
  _url : Str
  _headers : str_map
  _response_headers : str_map
  _output_data : Str
  _response_code : Int
  _last_modified : Int
  _target_object : Option object
  _input_data : Str
  _input_fd : Int
  _input_offset : Int
  _input_size : Nat
  _output_fd : Int
  _output_offset : Int
  _canceled : Bool
  _timeout : Int
  _run_count : Nat
deriving DecidableEq

/-! ## `object.cc`: functions -/

def get_mode_by_type (type : object_type) : Nat :=
  if type = OT_FILE then S_IFREG
  else if type = OT_DIRECTORY then S_IFDIR
  else if type = OT_SYMLINK then S_IFLNK
  else 0

def build_url (u : util) (path : Str) (type : object_type) : Str :=
  g_bucket_url u ++ "/".toList ++ u.url_encode path ++
    (if type = OT_DIRECTORY then "/".toList else [])

/-- Function `object::set_defaults`; both `time(NULL)` calls read `now`. -/
def set_defaults (u : util) (now : Int) (o : object) (type : object_type) : object :=
  { o with
    _stat := { stat_zero with
      st_uid := g_default_uid
      st_gid := g_default_gid
      st_mode := g_default_mode ||| get_mode_by_type type
      st_nlink := 1
      st_mtime := now }
    _type := type
    _content_type := if type = OT_SYMLINK then SYMLINK_CONTENT_TYPE else g_default_content_type
    _etag := []
    _mtime_etag := []
    _md5 := []
    _md5_etag := []
    _expiry := now + g_expiry_in_s
    _metadata := []
    _url := build_url u o._path type }

/-- Function `object::set_metadata`: the return value and the object. -/
def set_metadata (o : object) (key value : Str) : Int × object :=
  if starts_with AMZ_META_PREFIX_RESERVED key then (- EINVAL, o)
  else (0, { o with _metadata := map_set str_lt key value o._metadata })

/-- Function `object::set_mode`; `mode` is a 32-bit `mode_t`. -/
def set_mode (o : object) (mode : Nat) : object :=
  let mode1 := (mode % 4294967296) &&& NOT_S_IFMT
  let mode2 := if mode1 = 0 then g_default_mode else mode1
  { o with _stat := { o._stat with st_mode := (o._stat.st_mode &&& S_IFMT) ||| mode2 } }

def request_init (o : object) : object :=
  { o with
    _stat := stat_zero
    _type := OT_INVALID
    _content_type := []
    _etag := []
    _mtime_etag := []
    _md5 := []
    _md5_etag := []
    _expiry := 0
    _metadata := []
    _url := [] }

def HDR_CONTENT_TYPE : Str := "Content-Type".toList
def HDR_ETAG : Str := "ETag".toList
def HDR_CONTENT_LENGTH : Str := "Content-Length".toList
def HDR_MODE : Str := "x-amz-meta-s3fuse-mode".toList
def HDR_UID : Str := "x-amz-meta-s3fuse-uid".toList
def HDR_GID : Str := "x-amz-meta-s3fuse-gid".toList
def HDR_MTIME : Str := "x-amz-meta-s3fuse-mtime".toList
def HDR_MTIME_ETAG : Str := "x-amz-meta-s3fuse-mtime-etag".toList
def HDR_MD5 : Str := "x-amz-meta-s3fuse-md5".toList
def HDR_MD5_ETAG : Str := "x-amz-meta-s3fuse-md5-etag".toList

def request_process_header (o : object) (key value : Str) : object :=
  let long_value := strtol value
  if key = HDR_CONTENT_TYPE then { o with _content_type := value }
  else if key = HDR_ETAG then { o with _etag := value }
  else if key = HDR_CONTENT_LENGTH then { o with _stat := { o._stat with st_size := long_value } }
  else if key = HDR_MODE then
    { o with _stat := { o._stat with st_mode := to_u32 long_value &&& NOT_S_IFMT } }
  else if key = HDR_UID then { o with _stat := { o._stat with st_uid := to_u32 long_value } }
  else if key = HDR_GID then { o with _stat := { o._stat with st_gid := to_u32 long_value } }
  else if key = HDR_MTIME then { o with _stat := { o._stat with st_mtime := long_value } }
  else if key = HDR_MTIME_ETAG then { o with _mtime_etag := value }
  else if key = HDR_MD5 then { o with _md5 := value }
  else if key = HDR_MD5_ETAG then { o with _md5_etag := value }
  else if starts_with AMZ_META_PREFIX key &&
      !(starts_with AMZ_META_PREFIX_RESERVED (key.drop AMZ_META_PREFIX_LEN)) then
    { o with _metadata := map_set str_lt (key.drop AMZ_META_PREFIX_LEN) value o._metadata }
  else o

/-- Function `object::request_process_response`; it reads the URL, the response
code and the last-modified time of `req`, and the clock. -/
def request_process_response (u : util) (now : Int) (o : object) (req : request) : object :=
  let url := req._url
  if url = [] ∨ req._response_code ≠ 200 then o
  else
    let type :=
      if url.getLast? = some '/' then OT_DIRECTORY
      else if o._content_type = SYMLINK_CONTENT_TYPE then OT_SYMLINK
      else OT_FILE
    let mode := (if o._stat.st_mode = 0 then g_default_mode else o._stat.st_mode) |||
      get_mode_by_type type
    let uid := if o._stat.st_uid = 0 then g_default_uid else o._stat.st_uid
    let gid := if o._stat.st_gid = 0 then g_default_gid else o._stat.st_gid
    let mtime :=
      if o._mtime_etag ≠ o._etag ∧ req._last_modified > o._stat.st_mtime then req._last_modified
      else o._stat.st_mtime
    let md5a := if u.is_valid_md5 o._md5 then o._md5 else []
    let md5b :=
      if (o._md5_etag ≠ o._etag ∨ md5a = []) ∧ u.is_valid_md5 o._etag = true then o._etag
      else md5a
    let blocks :=
      if type = OT_FILE then Int.tdiv (wrap_long (o._stat.st_size + BLOCK_SIZE - 1)) BLOCK_SIZE
      else o._stat.st_blocks
    { o with
      _type := type
      _url := build_url u o._path type
      _stat := { o._stat with
        st_mode := mode
        st_uid := uid
        st_gid := gid
        st_nlink := 1
        st_mtime := mtime
        st_blocks := blocks }
      _mtime_etag := o._etag
      _md5 := md5b
      _md5_etag := o._etag
      _expiry := now + g_expiry_in_s }

/-- Modelled from the spec: `request::set_header` (defined in `request.hh`,
outside the translated sources), "populates headers": `_headers[name] = value`. -/
def set_header (r : request) (name value : Str) : request :=
  { r with _headers := map_set str_lt name value r._headers }

/-- Function `object::request_set_meta_headers`: the request after the calls. -/
def request_set_meta_headers (o : object) (req : request) : request :=
  let r0 := o._metadata.foldl (fun r e => set_header r ( AMZ_META_PREFIX ++ e.1) e.2) req
  let r1 := set_header r0 HDR_MODE (snprintf 16 (fmt_alt_octal (o._stat.st_mode &&& NOT_S_IFMT)))
  let r2 := set_header r1 HDR_UID (snprintf 16 (fmt_signed (as_int o._stat.st_uid)))
  let r3 := set_header r2 HDR_GID (snprintf 16 (fmt_signed (as_int o._stat.st_gid)))
  let r4 := set_header r3 HDR_MTIME (snprintf 16 (fmt_signed o._stat.st_mtime))
  let r5 := set_header r4 HDR_MTIME_ETAG o._mtime_etag
  let r6 := set_header r5 HDR_MD5 o._md5
  let r7 := set_header r6 HDR_MD5_ETAG o._md5_etag
  set_header r7 HDR_CONTENT_TYPE o._content_type

/-- Modelled from the spec: the member `object::is_valid()` that the cache
tests (`object.hh` is outside the translated sources); an entry is stale when
"`expiry <= now`". -/
def is_valid (now : Int) (o : object) : Bool := decide (¬ (o._expiry ≤ now))

/-! ## `request.cc`: functions

Every `curl_easy_setopt` on the handle succeeds (`TEST_OK` does not throw).
A function that can throw returns the message of the exception, if any, and
the members as they are when it returns or throws. -/

def AMZ_HEADER_PREFIX : Str := "x-amz-".toList

/-- Function `request::set_input_fd(fd, size, offset)`. -/
def set_input_fd (r : request) (fd : Int) (size : Nat) (offset : Int) : Option Str × request :=
  if fd = -1 ∧ (size ≠ 0 ∨ offset ≠ 0) then
    (some "offset and size must be zero if an invalid fd is specified.".toList, r)
  else
    let r1 := { r with _input_data := [], _input_fd := fd, _input_offset := offset,
                       _input_size := size }
    if r1._method = "PUT".toList then
      (none, { r1 with _curl := { r1._curl with infilesize := some size } })
    else if r1._method = "POST".toList then
      (none, { r1 with _curl := { r1._curl with postfieldsize := some size } })
    else if size ≠ 0 then
      (some "can't set input fd for non-POST/non-PUT request.".toList, r1)
    else (none, r1)

/-- Function `request::set_output_fd(fd, offset)`. -/
def set_output_fd (r : request) (fd : Int) (offset : Int) : Option Str × request :=
  if fd = -1 ∧ offset ≠ 0 then
    (some "offset must be zero if an invalid fd is specified.".toList, r)
  else (none, { r with _output_fd := fd, _output_offset := offset })

/-- Function `request::set_input_data(s)`. -/
def set_input_data (r : request) (s : Str) : Option Str × request :=
  let r1 := { r with _input_data := s, _input_fd := -1, _input_offset := 0, _input_size := 0 }
  if r1._method = "PUT".toList then
    (none, { r1 with _curl := { r1._curl with infilesize := some s.length } })
  else if r1._method = "POST".toList then
    (none, { r1 with _curl := { r1._curl with postfieldsize := some s.length } })
  else if s ≠ [] then
    (some "can't set input data for non-POST/non-PUT request.".toList, r1)
  else (none, r1)

/-- The method name and the curl options `request::init` selects, or `none` for
a method it does not support. -/
def method_setup (c : curl_options) : http_method → Option (Str × curl_options)
  | HTTP_DELETE =>
    some ("DELETE".toList, { c with custom_request := some "DELETE".toList, nobody := true })
  | HTTP_GET => some ("GET".toList, c)
  | HTTP_HEAD => some ("HEAD".toList, { c with nobody := true })
  | HTTP_POST => some ("POST".toList, { c with post := true })
  | HTTP_PUT => some ("PUT".toList, { c with upload := true })
  | HTTP_OTHER _ => none

/-- Function `request::init(method)`. The closing calls `set_input_fd()` and
`set_output_fd()` take their default arguments, an invalid descriptor with zero
size and offset. -/
def init (r : request) (method : http_method) : Option Str × request :=
  if r._canceled then (some "cannot reuse a canceled request.".toList, r)
  else
    let r1 := { r with
      _curl_error := []
      _url := []
      _output_data := []
      _response_headers := []
      _response_code := 0
      _last_modified := 0
      _headers := []
      _target_object := none
      _curl := { r._curl with custom_request := none, upload := false, nobody := false,
                              post := false } }
    match method_setup r1._curl method with
    | none => (some "unsupported HTTP method.".toList, r1)
    | some (name, c) =>
      let r2 := { r1 with _method := name, _curl := c }
      match set_input_fd r2 (-1) 0 0 with
      | (some e, r3) => (some e, r3)
      | (none, r3) => set_output_fd r3 (-1) 0

/-- Function `request::set_url(url, query_string)`. -/
def set_url (cfg : config) (r : request) (url query_string : Str) : request :=
  let curl_url := cfg.url_prefix ++ url
  let curl_url1 :=
    if query_string ≠ [] then
      curl_url ++ (if '?' ∉ curl_url then "?".toList else "&".toList) ++ query_string
    else curl_url
  { r with _url := url, _curl := { r._curl with url := curl_url1 } }

/-- Modelled from the spec: `request::set_target_object` (defined in
`request.hh`, outside the translated sources): "when set, the request streams
response headers into `obj`". -/
def set_target_object (r : request) (obj : Option object) : request :=
  { r with _target_object := obj }

/-- Function `request::set_meta_headers(object)`. -/
def set_meta_headers (r : request) (obj : object) : request :=
  request_set_meta_headers obj r

/-- The header map after the three read accesses `_headers["Content-MD5"]`,
`_headers["Content-Type"]`, `_headers["Date"]` of `request::build_signature`. -/
def signature_headers (r : request) : str_map :=
  str_map_touch (str_map_touch (str_map_touch r._headers "Content-MD5".toList)
    "Content-Type".toList) "Date".toList

/-- The text `to_sign` that `request::build_signature` hands to `util::sign`. -/
def string_to_sign (r : request) : Str :=
  let to_sign := r._method ++ "\n".toList ++ str_map_get r._headers "Content-MD5".toList ++
    "\n".toList ++ str_map_get r._headers "Content-Type".toList ++ "\n".toList ++
    str_map_get r._headers "Date".toList ++ "\n".toList
  let to_sign1 := (signature_headers r).foldl
    (fun acc e =>
      if e.2 ≠ [] ∧ e.1.take ( AMZ_HEADER_PREFIX).length = AMZ_HEADER_PREFIX then
        acc ++ (e.1 ++ ":".toList ++ e.2 ++ "\n".toList)
      else acc) to_sign
  to_sign1 ++ r._url

/-- The C string at the start of a buffer: the characters before the first NUL. -/
def c_str (s : Str) : Str := s.takeWhile (fun c => c ≠ Char.ofNat 0)

/-- The C string left after `*strchr(s, c) = 0`, when `c` occurs; `s` itself
otherwise. -/
def cut_at (c : Char) (s : Str) : Str := s.takeWhile (fun x => x ≠ c)

/-- Callback `request::process_header`. `data` holds the `size * items` bytes of
the line and `terminated` tells whether `data[size]` is NUL. The result is the
return value and the request. -/
def process_header (req : request) (data : Str) (terminated : Bool) : Nat × request :=
  let size := data.length
  if req._canceled then (0, req)
  else if !terminated then (size, req)
  else
    let line := cut_at '\r' (cut_at '\n' (c_str data))
    if ':' ∉ line then (size, req)
    else
      let key := cut_at ':' line
      let pos := (line.dropWhile (fun x => x ≠ ':')).drop 1
      let value := if pos.head? = some ' ' then pos.drop 1 else pos
      match req._target_object with
      | some obj =>
        (size, { req with _target_object := some (request_process_header obj key value) })
      | none =>
        (size, { req with _response_headers := map_set str_lt key value req._response_headers })

/-- Callback `request::process_input`; `rc` is what `pread` returns when an input
descriptor is set. The result is the return value, the bytes copied from the
in-memory body, and the request. The subtraction is in `size_t`. -/
def process_input (req : request) (size : Nat) (rc : Int) : Nat × Str × request :=
  if req._canceled then (0, [], req)
  else if req._input_fd ≠ -1 then
    if rc = -1 then (0, [], req)
    else
      let left := (((req._input_size : Int) - rc) % 18446744073709551616).toNat
      (rc.toNat, [], { req with _input_offset := req._input_offset + rc, _input_size := left })
  else
    let remaining := (((req._input_data.length : Int) - req._input_offset) %
      18446744073709551616).toNat
    let size1 := if size > remaining then remaining else size
    let copied :=
      if remaining ≠ 0 then (req._input_data.drop req._input_offset.toNat).take size1 else []
    (size1, copied, { req with _input_offset := req._input_offset + size1 })

/-- The test `build_signature` applies to a header before it adds its line. -/
def signed_entry (e : Str × Str) : Bool :=
  decide (e.2 ≠ [] ∧ e.1.take ( AMZ_HEADER_PREFIX).length = AMZ_HEADER_PREFIX)

/-- The canonical string as the specification words it: method, Content-MD5,
Content-Type and Date, one per line, then a line `name:value` for every header
whose name starts with `x-amz-`, in the order of the header map, then the
path. -/
def spec_canonical_string (method : Str) (headers : str_map) (path : Str) : Str :=
  method ++ "\n".toList ++ str_map_get headers "Content-MD5".toList ++ "\n".toList ++
    str_map_get headers "Content-Type".toList ++ "\n".toList ++
    str_map_get headers "Date".toList ++ "\n".toList ++
    ((headers.filter (fun e => starts_with AMZ_HEADER_PREFIX e.1)).map
      (fun e => e.1 ++ ":".toList ++ e.2 ++ "\n".toList)).flatten ++ path

/-! ## `object_cache.hh`

Sequential model: every member function runs to completion before the next
one starts. An `object::ptr` is the address of an object in `heap`, or null
(`none`). The 64-bit counters are naturals: they are incremented once per call
and do not reach their limit. -/

structure object_cache where
  heap : Nat → object
  next_address : Nat
  _cache_map : List (Str × Option Nat)
  _handle_map : List (Nat × Nat)
  _hits : Nat
  _misses : Nat
  _expiries : Nat
  _next_handle : Nat

def nat_lt (a b : Nat) : Bool := decide (a < b)

/-- The object a path is mapped to; `none` when the path has no entry or its
entry holds a null pointer. -/
def cached (c : object_cache) (path : Str) : Option Nat := (map_find path c._cache_map).join

/-- Store into the member `_open_file` of the object at an address. -/
def heap_set_open_file (c : object_cache) (a : Nat) (f : Option open_file) : object_cache :=
  { c with heap := Function.update c.heap a { c.heap a with _open_file := f } }

/-- Function `object_cache::find`. The reference `_cache_map[path]` inserts a
null entry for a missing path. -/
def find (c : object_cache) (now : Int) (path : Str) : Option Nat × object_cache :=
  let c1 :=
    match map_find path c._cache_map with
    | some _ => c
    | none => { c with _cache_map := map_set str_lt path none c._cache_map }
  match cached c1 path with
  | none => (none, { c1 with _misses := c1._misses + 1 })
  | some a =>
    if (c1.heap a)._open_file = none ∧ is_valid now (c1.heap a) = false then
      (none, { c1 with _expiries := c1._expiries + 1,
                       _cache_map := map_set str_lt path none c1._cache_map })
    else (some a, { c1 with _hits := c1._hits + 1 })

/-- Modelled from the spec: `object_cache::__fetch` is declared in
`object_cache.hh` but defined outside the translated sources. "The closure
populates the `Object` and inserts it into the cache"; `fetched` is the object
the requests populated for `path`, or `none` when the store has none. -/
def __fetch (c : object_cache) (path : Str) (fetched : Option object) :
    Option Nat × object_cache :=
  match fetched with
  | none => (none, c)
  | some o =>
    let a := c.next_address
    (some a, { c with
      heap := Function.update c.heap a { o with _path := path, _open_file := none }
      next_address := a + 1
      _cache_map := map_set str_lt path (some a) c._cache_map })

/-- Function `object_cache::get(path, hints)`. -/
def get (c : object_cache) (now : Int) (path : Str) (fetched : Option object) :
    Option Nat × object_cache :=
  match find c now path with
  | (some a, c1) => (some a, c1)
  | (none, c1) => __fetch c1 path fetched

/-- Function `object_cache::remove`; `none` when it dereferences a null
`object::ptr`. -/
def remove (c : object_cache) (path : Str) : Option object_cache :=
  match map_find path c._cache_map with
  | none => some c
  | some none => none
  | some (some a) =>
    let c1 :=
      match (c.heap a)._open_file with
      | some f => { c with _handle_map := map_erase f.handle c._handle_map }
      | none => c
    some { c1 with _cache_map := map_erase path c1._cache_map }

/-- Function `object_cache::get_file`. -/
def get_file (c : object_cache) (handle : Nat) : Option open_file :=
  match map_find handle c._handle_map with
  | none => none
  | some a => (c.heap a)._open_file

/-- Modelled from the spec: `open_file::add_reference`, of the reference-counted
`open_file`: one more reference, and the handle of the file for the caller. -/
def add_reference (f : open_file) : open_file × Nat :=
  ({ f with ref_count := f.ref_count + 1 }, f.handle)

/-- Modelled from the spec: `open_file::release`: one reference less, and whether
"the reference count hit zero". -/
def release (f : open_file) : open_file × Bool :=
  ({ f with ref_count := f.ref_count - 1 }, decide (f.ref_count - 1 = 0))

/-- Modelled from the spec: `open_file::cleanup`, counted. -/
def cleanup (f : open_file) : open_file := { f with cleanups := f.cleanups + 1 }

/-- Function `object_cache::open_handle`: the return value, the handle written
through the out-parameter, and the cache. `init_result` is what
`open_file::init` returns when this call creates the file. -/
def open_handle (c : object_cache) (now : Int) (path : Str) (fetched : Option object)
    (init_result : Int) : Int × Option Nat × object_cache :=
  match get c now path fetched with
  | (none, c1) => (- ENOENT, none, c1)
  | (some a, c1) =>
    match (c1.heap a)._open_file with
    | some file =>
      let res := add_reference file
      (0, some res.2, heap_set_open_file c1 a (some res.1))
    | none =>
      let handle := c1._next_handle
      let file : open_file := { handle := handle, ref_count := 0, cleanups := 0 }
      let c2 := heap_set_open_file { c1 with _next_handle := handle + 1 } a (some file)
      let c3 := { c2 with _handle_map := map_set nat_lt handle a c2._handle_map }
      if init_result ≠ 0 then
        let c4 := heap_set_open_file c3 a none
        (init_result, none, { c4 with _handle_map := map_erase handle c4._handle_map })
      else
        let res := add_reference file
        (0, some res.2, heap_set_open_file c3 a (some res.1))

/-- Function `object_cache::release_handle`: the return value and the cache;
`none` when it dereferences a null `open_file::ptr`. -/
def release_handle (c : object_cache) (handle : Nat) : Option (Int × object_cache) :=
  match map_find handle c._handle_map with
  | none => some (- EINVAL, c)
  | some a =>
    match (c.heap a)._open_file with
    | none => none
    | some file =>
      let res := release file
      let c1 := heap_set_open_file c a (some res.1)
      if res.2 then
        let c2 := { c1 with _handle_map := map_erase handle c1._handle_map }
        let c3 := heap_set_open_file c2 a (some (cleanup res.1))
        some (0, { c3 with _cache_map := map_erase (c3.heap a)._path c3._cache_map })
      else some (0, c1)

/-- Successive `open_handle(path)` calls, one per entry of `calls` (clock
reading, fetch outcome, result of `open_file::init`): the results in call
order and the cache. -/
def open_handles (path : Str) :
    List (Int × Option object × Int) → object_cache → List (Int × Option Nat) × object_cache
  | [], c => ([], c)
  | (now, fetched, init_result) :: rest, c =>
    let r := open_handle c now path fetched init_result
    let rs := open_handles path rest r.2.2
    ((r.1, r.2.1) :: rs.1, rs.2)

/-- Successive `release_handle(handle)` calls: the cache after `n` of them, when
each returned 0. -/
def release_handles (handle : Nat) : Nat → object_cache → Option object_cache
  | 0, c => some c
  | n + 1, c =>
    match release_handle c handle with
    | some (ret, c1) => if ret = 0 then release_handles handle n c1 else none
    | none => none

/-! ## `fs/bucket_reader.cc`

The calls `req->init`, `req->set_url` and `req->run` are represented by their
outcome: the response the store gives to the query string that `read` composes
and hands to `set_url`. -/

/-- Conversion of a `size_t` to the `int` that `read` returns. -/
def to_int (n : Nat) : Int := ((n : Int) + 2147483648) % 4294967296 - 2147483648

/-- Modelled from the spec: the XML adapter (`xml::parse`, `xml::find`, outside
the translated sources), "`find(document, xpath, out)` filling either a single
string or an ordered list of strings". A parsed listing is what the four XPath
queries of `read` find in it: the text of a single element, or `none` when that
query fails; for a list query the texts it appends and whether it succeeded. -/
structure xml_document where
  is_truncated : Option Str
  prefixes : List Str × Bool
  keys : List Str × Bool
  next_marker : Option Str

/-- What `req` holds after `run`: the response code, and the body as
`xml::parse` sees it (`none` when it does not parse). -/
structure listing_response where
  code : Int
  doc : Option xml_document

structure bucket_reader where
  _truncated : Bool
  _prefix : Str
  _group_common_prefixes : Bool
  _max_keys : Int
  _marker : Str
deriving DecidableEq

/-- The constructor `bucket_reader(prefix, group_common_prefixes, max_keys)`. -/
def bucket_reader_new (pfx : Str) (group_common_prefixes : Bool) (max_keys : Int) :
    bucket_reader :=
  { _truncated := true
    _prefix := pfx
    _group_common_prefixes := group_common_prefixes
    _max_keys := max_keys
    _marker := [] }

/-- The query string `read` builds for the current state of the reader: the
prefix goes through `url_encode`, the marker is appended as it is. -/
def query_string (u : util) (b : bucket_reader) : Str :=
  "prefix=".toList ++ u.url_encode ( bucket_reader._prefix b) ++ "&marker=".toList ++
    b._marker ++
    (if b._group_common_prefixes then "&delimiter=/".toList else []) ++
    (if b._max_keys > 0 then "&max-keys=".toList ++ fmt_signed b._max_keys else [])

/-- What a call of `read` leaves: the return value, the reader, and the two
lists of the caller. -/
structure read_result where
  ret : Int
  reader : bucket_reader
  keys : Option (List Str)
  prefixes : Option (List Str)

/-- Function `bucket_reader::read`. `keys` and `prefixes` are the lists behind
the two pointers (`none` for a null pointer), `next_marker_supported` is
`service::is_next_marker_supported()`, `server` answers the query string. The
result is `none` when `keys->back()` is taken of an empty list. -/
def read (u : util) (next_marker_supported : Bool) (server : Str → listing_response)
    (b : bucket_reader) (keys prefixes : Option (List Str)) : Option read_result :=
  match keys with
  | none => some ⟨- EINVAL, b, keys, prefixes⟩
  | some ks =>
    if !b._truncated then some ⟨0, b, keys, prefixes⟩
    else
      let resp := server (query_string u b)
      if resp.code ≠ 200 then some ⟨- EIO, b, keys, prefixes⟩
      else
        match resp.doc with
        | none => some ⟨- EIO, b, keys, prefixes⟩
        | some doc =>
          match doc.is_truncated with
          | none => some ⟨- EIO, b, keys, prefixes⟩
          | some temp =>
            let b1 := { b with _truncated := decide (temp = "true".toList) }
            let prefixes1 := prefixes.map (fun ps => ps ++ doc.prefixes.1)
            if prefixes.isSome ∧ doc.prefixes.2 = false then
              some ⟨- EIO, b1, keys, prefixes1⟩
            else
              let ks1 := ks ++ doc.keys.1
              if doc.keys.2 = false then some ⟨- EIO, b1, some ks1, prefixes1⟩
              else
                let count := to_int (ks1.length +
                  (match prefixes1 with
                   | some ps => ps.length
                   | none => 0))
                if b1._truncated then
                  if next_marker_supported then
                    match doc.next_marker with
                    | none => some ⟨- EIO, b1, some ks1, prefixes1⟩
                    | some nm => some ⟨count, { b1 with _marker := nm }, some ks1, prefixes1⟩
                  else
                    match ks1.getLast? with
                    | none => none
                    | some last =>
                      some ⟨count, { b1 with _marker := last }, some ks1, prefixes1⟩
                else some ⟨count, b1, some ks1, prefixes1⟩

/-- States an object goes through: `set_defaults`, `set_mode`, `set_metadata`
at any time, and the populate sequence `request_init`, then
`request_process_header` any number of times, then `request_process_response`.
The flag is `true` between `request_init` and `request_process_response`.
`any_type` tells whether `set_defaults` may be called with `OT_INVALID`. -/
inductive object_reach (u : util) (any_type : Bool) : Bool → object → Prop where
  | defaults (now : Int) (o : object) (type : object_type) :
      (any_type = true ∨ type ≠ OT_INVALID) →
      object_reach u any_type false (set_defaults u now o type)
  | init (o : object) : object_reach u any_type true (request_init o)
  | header {o : object} (key value : Str) :
      object_reach u any_type true o →
      object_reach u any_type true (request_process_header o key value)
  | response {o : object} (now : Int) (req : request) :
      object_reach u any_type true o →
      object_reach u any_type false (request_process_response u now o req)
  | mode {b : Bool} {o : object} (m : Nat) :
      object_reach u any_type b o → object_reach u any_type b (set_mode o m)
  | metadata {b : Bool} {o : object} (key value : Str) :
      object_reach u any_type b o → object_reach u any_type b (set_metadata o key value).2

/-- The file-type bits of the mode are those of the object's type, which is
not `OT_INVALID`. -/
def type_bits_match (o : object) : Prop :=
  (o._type = OT_FILE ∧ o._stat.st_mode &&& S_IFMT = S_IFREG) ∨
  (o._type = OT_DIRECTORY ∧ o._stat.st_mode &&& S_IFMT = S_IFDIR) ∨
  (o._type = OT_SYMLINK ∧ o._stat.st_mode &&& S_IFMT = S_IFLNK)

/-! ## Sample values -/

/-- A 34-character quoted digest test standing in for `util::is_valid_md5`,
the identity for `util::url_encode`, and a `util::sign` that returns the text
to sign. -/
def sample_util : util :=
  { is_valid_md5 := fun s => s.length = 34 && s.head? = some '"' && s.getLast? = some '"'
    url_encode := fun s => s
    sign := fun _ data => data }

def sample_config : config :=
  { url_prefix := "https://s3.amazonaws.com".toList
    aws_key := "key".toList
    aws_secret := "secret".toList
    request_timeout_in_s := 30
    http_date := fun _ => "Thu, 17 Mar 2011 00:00:00 GMT".toList }

/-- An object as a constructor leaves it: only the path is set. -/
def sample_object : object :=
  { _path := "x".toList
    _type := OT_INVALID
    _url := []
    _stat := stat_zero
    _content_type := []
    _etag := []
    _mtime_etag := []
    _md5 := []
    _md5_etag := []
    _expiry := 0
    _metadata := []
    _open_file := none }

def sample_curl : curl_options :=
  { url := []
    custom_request := none
    upload := false
    nobody := false
    post := false
    infilesize := none
    postfieldsize := none
    http_header := [] }

/-- A request as the constructor leaves it. -/
def sample_request : request :=
  { _curl := sample_curl
    _curl_error := []
    _method := []
    _url := []
    _headers := []
    _response_headers := []
    _output_data := []
    _response_code := 0
    _last_modified := 0
    _target_object := none
    _input_data := []
    _input_fd := -1
    _input_offset := 0
    _input_size := 0
    _output_fd := -1
    _output_offset := 0
    _canceled := false
    _timeout := 0
    _run_count := 0 }

/-- The populate sequence `request::run` drives on its target object:
`request_init`, one `request_process_header` per header line in wire order,
then `request_process_response`. -/
def populate (u : util) (now : Int) (target : object) (lines : List (Str × Str))
    (req : request) : object :=
  request_process_response u now
    (lines.foldl (fun a e => request_process_header a e.1 e.2) (request_init target)) req

/-- A file owned by root, as `chown` leaves it in a `stat` record. -/
def root_owned_object : object :=
  { sample_object with
    _type := OT_FILE
    _stat := { stat_zero with
      st_mode := 0o100644
      st_uid := 0
      st_gid := 1000
      st_mtime := 1300000000
      st_nlink := 1 }
    _expiry := 1300000180 }

/-- A quoted 32-digit digest, the form of a single-part ETag. -/
def sample_digest : Str := '"' :: ("d41d8cd98f00b204e9800998ecf8427e".toList ++ ['"'])

/-- A file as a populate sequence leaves it. -/
def stored_object : object :=
  { sample_object with
    _type := OT_FILE
    _stat := { stat_zero with
      st_mode := 0o100644
      st_uid := 1000
      st_gid := 1000
      st_mtime := 1300000000
      st_nlink := 1 }
    _etag := sample_digest
    _mtime_etag := sample_digest
    _md5 := sample_digest
    _md5_etag := sample_digest
    _metadata := [("custom".toList, "v".toList)]
    _expiry := 1300000180 }

/-- A request that has run: HEAD of `/test-0/x` answered with 200. -/
def answered_request : request :=
  { sample_request with
    _method := "HEAD".toList
    _url := "/test-0/x".toList
    _response_code := 200
    _last_modified := 1300000100 }

/-- The name of a supported method, as the contract lists them: GET, HEAD, PUT,
POST, DELETE. -/
def http_method_name : http_method → Option Str
  | HTTP_DELETE => some "DELETE".toList
  | HTTP_GET => some "GET".toList
  | HTTP_HEAD => some "HEAD".toList
  | HTTP_POST => some "POST".toList
  | HTTP_PUT => some "PUT".toList
  | HTTP_OTHER _ => none

/-- A request in the middle of its life: a PUT with headers, an upload body, a
buffered response and a target object. -/
def used_request : request :=
  { answered_request with
    _method := "PUT".toList
    _headers := [("Content-Type".toList, "text/plain".toList)]
    _response_headers := [("ETag".toList, sample_digest)]
    _output_data := "body".toList
    _target_object := some stored_object
    _input_data := "payload".toList
    _curl_error := "old error".toList
    _run_count := 3 }

/-- A PUT of the root-owned file (whose md5 is empty), ready to be signed. -/
def put_request : request :=
  set_url sample_config (set_meta_headers (init sample_request HTTP_PUT).2 root_owned_object)
    "/test-0/x".toList []

/-- An empty cache. -/
def empty_cache : object_cache :=
  { heap := fun _ => sample_object
    next_address := 0
    _cache_map := []
    _handle_map := []
    _hits := 0
    _misses := 0
    _expiries := 0
    _next_handle := 0 }

/-- The path is cached at address `a` and open under handle `h` with `n`
references and no `cleanup()` so far. -/
def opened (c : object_cache) (path : Str) (a h n : Nat) : Prop :=
  cached c path = some a ∧
  map_find h c._handle_map = some a ∧
  (c.heap a)._open_file = some { handle := h, ref_count := n, cleanups := 0 } ∧
  (c.heap a)._path = path

/-- Two `open_handle` calls: the first fetches the object, both `init` fine. -/
def two_opens : List (Int × Option object × Int) :=
  [(1300000200, some stored_object, 0), (1300000900, none, 0)]

/-- The value a header list carries for `name`: that of its last line named
`name`, the empty string when no line has the name. -/
def header_value (name : Str) (lines : List (Str × Str)) : Str :=
  lines.foldl (fun acc e => if e.1 = name then e.2 else acc) []

/-- The ETag of a multipart upload: not a 34-character quoted digest. -/
def multipart_etag : Str := '"' :: ("d41d8cd98f00b204e9800998ecf8427e-2".toList ++ ['"'])

/-- Header lines of a multipart upload that s3fuse wrote: the digest travels in
the reserved md5 header, the ETag is not a digest. -/
def multipart_lines : List (Str × Str) :=
  [(HDR_ETAG, multipart_etag), (HDR_MD5, sample_digest), (HDR_MD5_ETAG, multipart_etag)]

/-- A configuration whose URL prefix already carries a query part, as a
request forwarder in front of the store would. -/
def forwarding_config : config :=
  { sample_config with url_prefix := "http://gateway/fetch?target=".toList }

/-- The responses on which `read` fails as the listing contract describes: a
code other than 200, a body that does not parse, or a failing XPath query among
those `read` needs (IsTruncated; Prefix when a prefix list is passed; Key;
NextMarker when the listing is truncated and the service supports it). -/
def listing_failure (next_marker_supported prefixes_requested : Bool)
    (resp : listing_response) : Prop :=
  resp.code ≠ 200 ∨
  match resp.doc with
  | none => True
  | some doc =>
    doc.is_truncated = none ∨
    (prefixes_requested = true ∧ doc.prefixes.2 = false) ∨
    doc.keys.2 = false ∨
    (doc.is_truncated = some "true".toList ∧ next_marker_supported = true ∧
      doc.next_marker = none)

/-- A reader that has listed up to the key `b`. -/
def midway_reader : bucket_reader :=
  { bucket_reader_new [] false 0 with _marker := "b".toList }

/-- A truncated page with two keys whose `NextMarker` element is missing. -/
def page_without_next_marker : listing_response :=
  { code := 200
    doc := some
      { is_truncated := some "true".toList
        prefixes := ([], true)
        keys := (["c".toList, "d".toList], true)
        next_marker := none } }

/-- Successive `process_input` calls, one per entry of `calls` (requested size,
result of `pread`): the return value and the bytes copied of each call, and the
request. -/
def upload_all : List (Nat × Int) → request → List (Nat × Str) × request
  | [], r => ([], r)
  | (size, rc) :: rest, r =>
    let res := process_input r size rc
    let t := upload_all rest res.2.2
    ((res.1, res.2.1) :: t.1, t.2)

/-- The sum of the sizes requested by a sequence of calls. -/
def requested (calls : List (Nat × Int)) : Nat := (calls.map Prod.fst).sum

/-- States of an object as far as its metadata map is concerned: `set_defaults`
and `request_init` from any state, then `set_metadata`, `request_process_header`,
`set_mode` and `request_process_response` in any order, with any arguments. -/
inductive metadata_reach (u : util) : object → Prop where
  | defaults (now : Int) (o : object) (type : object_type) :
      metadata_reach u (set_defaults u now o type)
  | init (o : object) : metadata_reach u (request_init o)
  | metadata {o : object} (key value : Str) :
      metadata_reach u o → metadata_reach u (set_metadata o key value).2
  | header {o : object} (key value : Str) :
      metadata_reach u o → metadata_reach u (request_process_header o key value)
  | mode {o : object} (m : Nat) : metadata_reach u o → metadata_reach u (set_mode o m)
  | response {o : object} (now : Int) (req : request) :
      metadata_reach u o → metadata_reach u (request_process_response u now o req)

/-- A truncated page of a grouped listing that holds common prefixes only, no
key. -/
def page_of_prefixes : listing_response :=
  { code := 200
    doc := some
      { is_truncated := some "true".toList
        prefixes := (["photos/".toList, "videos/".toList], true)
        keys := ([], true)
        next_marker := none } }

/-- A last page (`IsTruncated` false) whose key query fails after one key. -/
def broken_last_page : listing_response :=
  { code := 200
    doc := some
      { is_truncated := some "false".toList
        prefixes := ([], true)
        keys := (["c".toList], false)
        next_marker := none } }

/-- Cache states of the sequential model: a cache with empty maps, then `find`,
`get`, `remove`, `open_handle` (whatever `open_file::init` returns) and
`release_handle`, each run to completion. -/
inductive cache_reach : object_cache → Prop where
  | start (c : object_cache) : c._cache_map = [] → c._handle_map = [] → cache_reach c
  | find {c : object_cache} (now : Int) (path : Str) :
      cache_reach c → cache_reach (find c now path).2
  | get {c : object_cache} (now : Int) (path : Str) (fetched : Option object) :
      cache_reach c → cache_reach (get c now path fetched).2
  | remove {c : object_cache} (path : Str) (c1 : object_cache) :
      cache_reach c → remove c path = some c1 → cache_reach c1
  | open_handle {c : object_cache} (now : Int) (path : Str) (fetched : Option object)
      (init_result : Int) :
      cache_reach c → cache_reach (open_handle c now path fetched init_result).2.2
  | release_handle {c : object_cache} (handle : Nat) (ret : Int) (c1 : object_cache) :
      cache_reach c → release_handle c handle = some (ret, c1) → cache_reach c1

/-- The two maps agree: an object in `cache_map` whose `open_file` is set with
handle `h` is `handle_map[h]`, and an entry `handle_map[h] = o` has `o` in
`cache_map` under its own path with an `open_file` that carries `h`. -/
def maps_consistent (c : object_cache) : Prop :=
  (∀ path a f, cached c path = some a → (c.heap a)._open_file = some f →
    map_find f.handle c._handle_map = some a) ∧
  (∀ h a, map_find h c._handle_map = some a →
    cached c (c.heap a)._path = some a ∧
    ∃ f, (c.heap a)._open_file = some f ∧ f.handle = h)

/-- The invariant of the cache that carries `maps_consistent`: objects are
cached under their own path at addresses already handed out, and handles in
use are below the next one. -/
def cache_inv (c : object_cache) : Prop :=
  (∀ path a, cached c path = some a → (c.heap a)._path = path ∧ a < c.next_address) ∧
  (∀ path a f, cached c path = some a → (c.heap a)._open_file = some f →
    map_find f.handle c._handle_map = some a) ∧
  (∀ h a, map_find h c._handle_map = some a →
    h < c._next_handle ∧ cached c (c.heap a)._path = some a ∧
    ∃ f, (c.heap a)._open_file = some f ∧ f.handle = h)

/-- The cache after one `open_handle("x")` on an empty cache: the object is
fetched and `init` succeeds. -/
def opened_cache : object_cache :=
  (open_handle empty_cache 1300000200 "x".toList (some stored_object) 0).2.2

/-! # Theorems -/

/-! ## Maps -/

theorem map_find_set_self {K V : Type} [DecidableEq K] (lt : K → K → Bool) (k : K) (v : V)
    (m : List (K × V)) : map_find k (map_set lt k v m) = some v := by
  induction m with
  | nil => simp [map_set, map_find]
  | cons e m ih =>
    obtain ⟨k1, v1⟩ := e
    by_cases h1 : k = k1
    · simp [map_set, map_find, h1]
    · by_cases h2 : lt k k1 = true
      · simp [map_set, map_find, h1, h2]
      · simp [map_set, map_find, h1, h2, ih]

theorem map_find_set_other {K V : Type} [DecidableEq K] (lt : K → K → Bool) (k k2 : K) (v : V)
    (m : List (K × V)) (hne : k2 ≠ k) : map_find k2 (map_set lt k v m) = map_find k2 m := by
  induction m with
  | nil => simp [map_set, map_find, hne]
  | cons e m ih =>
    obtain ⟨k1, v1⟩ := e
    by_cases h1 : k = k1
    · subst h1; simp [map_set, map_find, hne]
    · by_cases h2 : lt k k1 = true
      · simp [map_set, map_find, h1, h2, hne]
      · simp [map_set, map_find, h1, h2, ih]

theorem map_find_erase_self {K V : Type} [DecidableEq K] (k : K) (m : List (K × V)) :
    map_find k (map_erase k m) = none := by
  induction m with
  | nil => simp [map_erase, map_find]
  | cons e m ih =>
    obtain ⟨k1, v1⟩ := e
    by_cases h1 : k1 = k
    · simpa [map_erase, h1] using ih
    · have h1b : ¬ k = k1 := fun h => h1 h.symm
      simpa [map_erase, h1, map_find, h1b] using ih

theorem map_find_erase_other {K V : Type} [DecidableEq K] (k k2 : K) (m : List (K × V))
    (hne : k2 ≠ k) : map_find k2 (map_erase k m) = map_find k2 m := by
  induction m with
  | nil => simp [map_erase, map_find]
  | cons e m ih =>
    obtain ⟨k1, v1⟩ := e
    by_cases h1 : k1 = k
    · subst h1
      simpa [map_erase, map_find, hne] using ih
    · by_cases h3 : k2 = k1
      · simp [map_erase, h1, map_find, h3]
      · simpa [map_erase, h1, map_find, h3] using ih

/-! ## Claim C3 -/

/-- C3: `set_metadata` on a key that begins with the reserved prefix `s3fuse-`
returns `-EINVAL` and leaves the object, so its metadata map, unchanged; on any
other key it returns 0, and afterwards the map gives the value for that key and
what it gave before for every other key. -/
theorem set_metadata_reserved_rejection (o : object) (key value : Str) :
    ("s3fuse-".toList <+: key →
      (set_metadata o key value).1 = - EINVAL ∧ (set_metadata o key value).2 = o) ∧
    (¬ "s3fuse-".toList <+: key →
      (set_metadata o key value).1 = 0 ∧
      map_find key (set_metadata o key value).2._metadata = some value ∧
      ∀ k, k ≠ key →
        map_find k (set_metadata o key value).2._metadata = map_find k o._metadata) := by
  have hp : starts_with AMZ_META_PREFIX_RESERVED key = true ↔ "s3fuse-".toList <+: key := by
    simp [starts_with, AMZ_META_PREFIX_RESERVED]
  constructor
  · intro h
    simp [set_metadata, hp.mpr h]
  · intro h
    have h2 : starts_with AMZ_META_PREFIX_RESERVED key = false := by
      cases hs : starts_with AMZ_META_PREFIX_RESERVED key
      · rfl
      · exact absurd (hp.mp hs) h
    refine ⟨by simp [set_metadata, h2], ?_, ?_⟩
    · simp [set_metadata, h2, map_find_set_self]
    · intro k hk
      simp [set_metadata, h2, map_find_set_other _ _ _ _ _ hk]

/-- Witness for C3: the reserved key `s3fuse-mode` is rejected, and the key
`custom` is stored. -/
theorem set_metadata_reserved_rejection_witness :
    ((set_metadata sample_object "s3fuse-mode".toList "0644".toList).1 = - EINVAL ∧
      (set_metadata sample_object "s3fuse-mode".toList "0644".toList).2 = sample_object) ∧
    ((set_metadata sample_object "custom".toList "v".toList).1 = 0 ∧
      map_find "custom".toList
        (set_metadata sample_object "custom".toList "v".toList).2._metadata = some "v".toList ∧
      ∀ k, k ≠ "custom".toList →
        map_find k (set_metadata sample_object "custom".toList "v".toList).2._metadata =
          map_find k sample_object._metadata) :=
  ⟨(set_metadata_reserved_rejection sample_object "s3fuse-mode".toList "0644".toList).1
      (by decide),
   (set_metadata_reserved_rejection sample_object "custom".toList "v".toList).2
      (by decide)⟩

/-! ## Mode bits -/

theorem ite_ind {α : Type} (P : α → Prop) (c : Prop) [Decidable c] (a b : α)
    (ha : P a) (hb : P b) : P (if c then a else b) := by
  split <;> assumption

theorem and_not_ifmt (a : Nat) : (a &&& NOT_S_IFMT) &&& S_IFMT = 0 := by
  rw [Nat.and_assoc]
  have h : NOT_S_IFMT &&& S_IFMT = 0 := by decide
  rw [h, Nat.and_zero]

theorem or_ne_zero_left {a : Nat} (b : Nat) (h : a ≠ 0) : a ||| b ≠ 0 := by
  intro h0
  apply h
  apply Nat.eq_of_testBit_eq
  intro i
  have h1 := congrArg (fun n => Nat.testBit n i) h0
  simp only [Nat.testBit_or, Nat.zero_testBit, Bool.or_eq_false_iff] at h1
  simp [h1.1]

theorem type_bits_of_clean {mode : Nat} (type : object_type) (hm : mode &&& S_IFMT = 0) :
    (mode ||| get_mode_by_type type) &&& S_IFMT = get_mode_by_type type := by
  rw [Nat.and_distrib_right, hm, Nat.zero_or]
  cases type <;> decide

theorem set_mode_type_bits (o : object) (m : Nat) :
    (set_mode o m)._stat.st_mode &&& S_IFMT = o._stat.st_mode &&& S_IFMT := by
  have h2 : (if (m % 4294967296) &&& NOT_S_IFMT = 0 then g_default_mode
      else (m % 4294967296) &&& NOT_S_IFMT) &&& S_IFMT = 0 := by
    split
    · decide
    · exact and_not_ifmt _
  simp only [set_mode]
  rw [Nat.and_distrib_right, h2, Nat.or_zero, Nat.and_assoc, Nat.and_self]

theorem request_process_header_expiry (o : object) (key value : Str) :
    (request_process_header o key value)._expiry = o._expiry := by
  unfold request_process_header
  simp only
  repeat' apply ite_ind (fun x : object => x._expiry = o._expiry)
  all_goals rfl

theorem request_process_header_type_bits (o : object) (key value : Str)
    (h : o._stat.st_mode &&& S_IFMT = 0) :
    (request_process_header o key value)._stat.st_mode &&& S_IFMT = 0 := by
  unfold request_process_header
  simp only
  repeat' apply ite_ind (fun x : object => x._stat.st_mode &&& S_IFMT = 0)
  all_goals first
    | exact h
    | exact and_not_ifmt _

theorem set_metadata_stat (o : object) (key value : Str) :
    (set_metadata o key value).2._stat = o._stat ∧
    (set_metadata o key value).2._type = o._type ∧
    (set_metadata o key value).2._expiry = o._expiry := by
  unfold set_metadata
  split <;> simp

theorem get_mode_by_type_match (type : object_type) (mode : Nat) (ht : type ≠ OT_INVALID)
    (hm : mode &&& S_IFMT = get_mode_by_type type) :
    (type = OT_FILE ∧ mode &&& S_IFMT = S_IFREG) ∨
    (type = OT_DIRECTORY ∧ mode &&& S_IFMT = S_IFDIR) ∨
    (type = OT_SYMLINK ∧ mode &&& S_IFMT = S_IFLNK) := by
  cases type
  · exact absurd rfl ht
  · exact Or.inl ⟨rfl, by simpa [get_mode_by_type] using hm⟩
  · exact Or.inr (Or.inl ⟨rfl, by simpa [get_mode_by_type] using hm⟩)
  · exact Or.inr (Or.inr ⟨rfl, by simpa [get_mode_by_type] using hm⟩)

theorem response_type_ne_invalid (u : util) (now : Int) (o : object) (req : request)
    (h : ¬ (req._url = [] ∨ req._response_code ≠ 200)) :
    (request_process_response u now o req)._type ≠ OT_INVALID ∧
    (request_process_response u now o req)._stat.st_mode =
      (if o._stat.st_mode = 0 then g_default_mode else o._stat.st_mode) |||
        get_mode_by_type (request_process_response u now o req)._type := by
  unfold request_process_response
  simp only [h, if_false]
  constructor
  · split
    · simp
    · split <;> simp
  · trivial

/-- Invariant carried through the life cycle: during a populate sequence the
entry is invalid and the mode has no file-type bit; outside, a valid entry has
the file-type bits of its type. -/
theorem object_reach_inv (u : util) (b : Bool) (o : object)
    (h : object_reach u false b o) :
    (b = true → o._expiry = 0 ∧ o._stat.st_mode &&& S_IFMT = 0) ∧
    (b = false → o._expiry > 0 →
      o._type ≠ OT_INVALID ∧ o._stat.st_mode &&& S_IFMT = get_mode_by_type o._type) := by
  induction h with
  | defaults now o type ht =>
    refine ⟨by simp, fun _ _ => ?_⟩
    have ht2 : type ≠ OT_INVALID := by
      rcases ht with ht | ht
      · exact absurd ht (by simp)
      · exact ht
    refine ⟨ht2, ?_⟩
    simp only [set_defaults]
    exact type_bits_of_clean type (by decide)
  | init o => exact ⟨fun _ => ⟨rfl, by simp [request_init, stat_zero]⟩, by simp⟩
  | header key value _ ih =>
    refine ⟨fun _ => ?_, by simp⟩
    obtain ⟨h1, h2⟩ := ih.1 rfl
    exact ⟨by rw [request_process_header_expiry]; exact h1,
      request_process_header_type_bits _ _ _ h2⟩
  | @response o now req _ ih =>
    refine ⟨by simp, fun _ hexp => ?_⟩
    obtain ⟨h1, h2⟩ := ih.1 rfl
    by_cases hc : req._url = [] ∨ req._response_code ≠ 200
    · have : request_process_response u now o req = o := by
        simp [request_process_response, hc]
      rw [this, h1] at hexp
      exact absurd hexp (by decide)
    · obtain ⟨ht, hm⟩ := response_type_ne_invalid u now o req hc
      refine ⟨ht, ?_⟩
      rw [hm]
      apply type_bits_of_clean
      split
      · decide
      · exact h2
  | @mode b o m _ ih =>
    constructor
    · intro hb
      obtain ⟨h1, h2⟩ := ih.1 hb
      exact ⟨h1, by rw [set_mode_type_bits]; exact h2⟩
    · intro hb hexp
      have := ih.2 hb hexp
      exact ⟨this.1, by rw [set_mode_type_bits]; exact this.2⟩
  | @metadata b o key value _ ih =>
    obtain ⟨hs, ht, he⟩ := set_metadata_stat o key value
    rw [hs, ht, he]
    exact ih

/-! ## Claim C2 -/

/-- C2, as amended: in every object state reached through `set_defaults` with a
type other than `OT_INVALID`, `set_mode`, `set_metadata` and the populate
sequence `request_init`, `request_process_header`*, `request_process_response`
(whatever headers were ingested), if `expiry > 0` then the type is file,
directory or symlink and `st_mode & S_IFMT` is `S_IFREG`, `S_IFDIR` or `S_IFLNK`
accordingly. -/
theorem valid_object_type_bits (u : util) (b : Bool) (o : object)
    (h : object_reach u false b o) (hexp : o._expiry > 0) : type_bits_match o := by
  have hinv := object_reach_inv u b o h
  cases b
  · obtain ⟨ht, hm⟩ := hinv.2 rfl hexp
    exact get_mode_by_type_match _ _ ht hm
  · have := (hinv.1 rfl).1
    omega

/-- Witness for C2: a populate sequence that ingests a mode header carrying
file-type bits and ends with a 200 response. -/
theorem valid_object_type_bits_witness :
    type_bits_match
      (request_process_response sample_util 1000
        (request_process_header (request_init sample_object) HDR_MODE "0140644".toList)
        { sample_request with _url := "/test-0/x".toList, _response_code := 200 }) :=
  valid_object_type_bits sample_util false _
    (object_reach.response 1000 _ (object_reach.header _ _ (object_reach.init sample_object)))
    (by decide)

/-- Counterexample to C2 as stated: `set_defaults(OT_INVALID)` is reachable
when `set_defaults` takes any type, and it leaves `expiry > 0` with the type
`OT_INVALID` and no file-type bit in the mode. -/
theorem valid_object_type_bits_counterexample :
    object_reach sample_util true false (set_defaults sample_util 1000 sample_object OT_INVALID) ∧
    (set_defaults sample_util 1000 sample_object OT_INVALID)._expiry > 0 ∧
    (set_defaults sample_util 1000 sample_object OT_INVALID)._type = OT_INVALID ∧
    (set_defaults sample_util 1000 sample_object OT_INVALID)._stat.st_mode &&& S_IFMT = 0 ∧
    ¬ type_bits_match (set_defaults sample_util 1000 sample_object OT_INVALID) :=
  ⟨object_reach.defaults 1000 sample_object OT_INVALID (Or.inl rfl), by decide, by decide,
    by decide, by
      intro h
      rcases h with h | h | h <;> exact absurd h.1 (by decide)⟩

/-! ## Claim C10 -/

theorem default_or_ne_zero (m d t : Nat) (hd : d ≠ 0) : (if m = 0 then d else m) ||| t ≠ 0 := by
  apply or_ne_zero_left
  split
  · exact hd
  · assumption

theorem default_twice (m d : Nat) (hd : d ≠ 0) :
    (if (if m = 0 then d else m) = 0 then d else if m = 0 then d else m) =
      if m = 0 then d else m := by
  by_cases h : m = 0
  · simp [h, hd]
  · simp [h]

theorem md5_reconcile_twice (V : Str → Bool) (e m me : Str) :
    (if (e ≠ e ∨
          (if V (if (me ≠ e ∨ (if V m = true then m else []) = []) ∧ V e = true then e
                else if V m = true then m else []) = true
            then (if (me ≠ e ∨ (if V m = true then m else []) = []) ∧ V e = true then e
                else if V m = true then m else [])
            else []) = []) ∧ V e = true
      then e
      else
        if V (if (me ≠ e ∨ (if V m = true then m else []) = []) ∧ V e = true then e
              else if V m = true then m else []) = true
          then (if (me ≠ e ∨ (if V m = true then m else []) = []) ∧ V e = true then e
              else if V m = true then m else [])
          else []) =
      if (me ≠ e ∨ (if V m = true then m else []) = []) ∧ V e = true then e
      else if V m = true then m else [] := by
  by_cases he : V e = true <;> by_cases hm : V m = true <;> by_cases hme : me = e <;>
    by_cases hm0 : m = [] <;> by_cases he0 : e = [] <;> simp_all

/-- C10: applying `request_process_response` a second time with the same
request (URL, response code, last-modified) at the same clock reading gives
exactly the object the first application gave. -/
theorem request_process_response_idempotent (u : util) (now : Int) (o : object) (req : request) :
    request_process_response u now (request_process_response u now o req) req =
      request_process_response u now o req := by
  by_cases hc : req._url = [] ∨ req._response_code ≠ 200
  · simp [request_process_response, hc]
  · simp only [request_process_response, hc, if_false]
    generalize (if List.getLast? req._url = some '/' then OT_DIRECTORY
      else if o._content_type = SYMLINK_CONTENT_TYPE then OT_SYMLINK else OT_FILE) = T
    congr 1
    · congr 1
      · rw [if_neg (default_or_ne_zero _ _ _ (by decide)), Nat.or_assoc, Nat.or_self]
      · exact default_twice _ _ (by decide)
      · exact default_twice _ _ (by decide)
      · simp
      · split <;> rfl
    · exact md5_reconcile_twice u.is_valid_md5 o._etag o._md5 o._md5_etag

/-! ## `strtol` reads back what `snprintf` wrote -/

theorem digit_value_digit_char (d : Nat) (hd : d < 10) : digit_value (digit_char d) = some d := by
  interval_cases d <;> rfl

theorem digit_char_not_sign (d : Nat) (hd : d < 10) :
    digit_char d ≠ '-' ∧ digit_char d ≠ '+' ∧ digit_char d ≠ 'x' ∧ digit_char d ≠ 'X' ∧
      isspace (digit_char d) = false := by
  interval_cases d <;> decide

theorem digit_char_eq_zero (d : Nat) (hd : d < 10) (h : digit_char d = '0') : d = 0 := by
  interval_cases d <;> first | rfl | exact absurd h (by decide)

theorem is_digit_in_digit_char (base d : Nat) (hb : base ≤ 10) (hd : d < base) :
    is_digit_in base (digit_char d) = true := by
  simp [is_digit_in, digit_value_digit_char d (by omega), hd]

theorem to_digits_all_digits (base : Nat) (hb : base ≤ 10) (hb2 : 2 ≤ base) (fuel n : Nat) :
    ∀ c ∈ to_digits base fuel n, is_digit_in base c = true := by
  induction fuel generalizing n with
  | zero => simp [to_digits]
  | succ f ih =>
    intro c hc
    simp only [to_digits] at hc
    split at hc
    · simp only [List.mem_singleton] at hc
      rw [hc]
      exact is_digit_in_digit_char base n hb (by assumption)
    · rw [List.mem_append] at hc
      rcases hc with hc | hc
      · exact ih _ c hc
      · simp only [List.mem_singleton] at hc
        rw [hc]
        exact is_digit_in_digit_char base _ hb (Nat.mod_lt _ (by omega))

theorem to_digits_fold (base : Nat) (hb : base ≤ 10) (hb2 : 2 ≤ base) (fuel n : Nat)
    (hn : n < base ^ fuel) :
    (to_digits base fuel n).foldl (fun acc c => acc * base + (digit_value c).getD 0) 0 = n := by
  induction fuel generalizing n with
  | zero => simp at hn; simp [to_digits, hn]
  | succ f ih =>
    simp only [to_digits]
    split
    · simp [digit_value_digit_char n (by omega)]
    · rename_i hge
      have hdiv : n / base < base ^ f := by
        apply Nat.div_lt_of_lt_mul
        rw [pow_succ] at hn
        rw [Nat.mul_comm]
        exact hn
      rw [List.foldl_append, ih _ hdiv]
      simp only [List.foldl_cons, List.foldl_nil]
      rw [digit_value_digit_char _ (by have := Nat.mod_lt n (show base > 0 by omega); omega)]
      simp only [Option.getD_some]
      rw [Nat.mul_comm]
      exact Nat.div_add_mod n base

theorem to_digits_length (base : Nat) (fuel n k : Nat) (hk : 1 ≤ k)
    (hn : n < base ^ k) : (to_digits base fuel n).length ≤ k := by
  induction fuel generalizing n k with
  | zero => simp [to_digits]
  | succ f ih =>
    simp only [to_digits]
    split
    · simpa using hk
    · rename_i hge
      have hk2 : 2 ≤ k := by
        by_contra hlt
        have : k = 1 := by omega
        rw [this, pow_one] at hn
        exact hge hn
      have hdiv : n / base < base ^ (k - 1) := by
        apply Nat.div_lt_of_lt_mul
        have : base ^ k = base * base ^ (k - 1) := by
          rw [← pow_succ']
          congr 1
          omega
        rw [← this]
        exact hn
      have := ih (n / base) (k - 1) (by omega) hdiv
      simp only [List.length_append, List.length_singleton]
      omega

/-- The first character written for a non-zero number is not `0`, and some
character is written. -/
theorem to_digits_head (base : Nat) (hb : base ≤ 10) (hb2 : 2 ≤ base) (fuel n : Nat)
    (hn : n < base ^ (fuel + 1)) (hpos : 0 < n) :
    ∃ d t, to_digits base (fuel + 1) n = digit_char d :: t ∧ 0 < d ∧ d < base := by
  induction fuel generalizing n with
  | zero =>
    simp only [zero_add, pow_one] at hn
    exact ⟨n, [], by simp [to_digits, hn], hpos, hn⟩
  | succ f ih =>
    by_cases hlt : n < base
    · exact ⟨n, [], by simp [to_digits, hlt], hpos, hlt⟩
    · have hdiv : n / base < base ^ (f + 1) := by
        apply Nat.div_lt_of_lt_mul
        rw [pow_succ] at hn
        rw [Nat.mul_comm]
        exact hn
      have hdpos : 0 < n / base := Nat.div_pos (by omega) (by omega)
      obtain ⟨d, t, ht, hd0, hdb⟩ := ih (n / base) hdiv hdpos
      refine ⟨d, t ++ [digit_char (n % base)], ?_, hd0, hdb⟩
      rw [to_digits, if_neg hlt, ht]
      rfl

theorem strtol_digits_to_digits (base : Nat) (hb : base ≤ 10) (hb2 : 2 ≤ base) (fuel n : Nat)
    (hn : n < base ^ fuel) : strtol_digits base (to_digits base fuel n) = n := by
  unfold strtol_digits
  rw [List.takeWhile_eq_self_iff.mpr (to_digits_all_digits base hb hb2 fuel n)]
  exact to_digits_fold base hb hb2 fuel n hn

theorem starts_hex_of_head (c : Char) (t : Str) (hc : c ≠ '0') :
    starts_hex (c :: t) = false := by
  rcases t with _ | ⟨x, _ | ⟨h, t⟩⟩ <;> simp [starts_hex, hc]

theorem starts_hex_of_second (z c : Char) (t : Str) (hx : c ≠ 'x') (hX : c ≠ 'X') :
    starts_hex (z :: c :: t) = false := by
  rcases t with _ | ⟨h, t⟩ <;> simp [starts_hex, hx, hX]

theorem strtol_magnitude_decimal (n : Nat) (hn : n < 10 ^ 64) :
    strtol_magnitude (fmt_unsigned 10 n) = n := by
  rcases Nat.eq_zero_or_pos n with h0 | hpos
  · subst h0; decide
  · obtain ⟨d, t, ht, hd0, hdb⟩ := to_digits_head 10 (by omega) (by omega) 63 n hn hpos
    have hne : digit_char d ≠ '0' := fun h => by
      have := digit_char_eq_zero d hdb h
      omega
    have hval := strtol_digits_to_digits 10 (by omega) (by omega) 64 n hn
    unfold strtol_magnitude fmt_unsigned
    rw [ht] at hval ⊢
    rw [starts_hex_of_head _ _ hne]
    simp only [Bool.false_eq_true, if_false, List.head?_cons, Option.some.injEq, hne]
    exact hval

theorem strtol_magnitude_alt_octal (n : Nat) (hn : n < 8 ^ 64) :
    strtol_magnitude (fmt_alt_octal n) = n := by
  rcases Nat.eq_zero_or_pos n with h0 | hpos
  · subst h0; decide
  · obtain ⟨d, t, ht, hd0, hdb⟩ := to_digits_head 8 (by omega) (by omega) 63 n hn hpos
    have hs := digit_char_not_sign d (by omega)
    have hval := strtol_digits_to_digits 8 (by omega) (by omega) 64 n hn
    have hall := to_digits_all_digits 8 (by omega) (by omega) 64 n
    unfold strtol_magnitude fmt_alt_octal fmt_unsigned
    rw [if_neg (show ¬ n = 0 by omega), ht, starts_hex_of_second _ _ _ hs.2.2.1 hs.2.2.2.1]
    simp only [Bool.false_eq_true, if_false, List.head?_cons, if_true]
    rw [← ht]
    unfold strtol_digits at hval ⊢
    have h0 : is_digit_in 8 '0' = true := by decide
    rw [List.takeWhile_cons, if_pos h0, List.foldl_cons]
    have h1 : (0 * 8 + (digit_value '0').getD 0) = 0 := by decide
    rw [h1]
    exact hval

theorem fmt_unsigned_head (n : Nat) (hn : n < 10 ^ 64) :
    ∃ d t, fmt_unsigned 10 n = digit_char d :: t ∧ d < 10 := by
  rcases Nat.eq_zero_or_pos n with h0 | hpos
  · subst h0; exact ⟨0, [], by decide, by omega⟩
  · obtain ⟨d, t, ht, _, hdb⟩ := to_digits_head 10 (by omega) (by omega) 63 n hn hpos
    exact ⟨d, t, ht, hdb⟩

theorem clamp_long_of_range (x : Int) (h1 : LONG_MIN ≤ x) (h2 : x ≤ LONG_MAX) :
    clamp_long x = x := by
  unfold clamp_long
  rw [if_neg (by omega), if_neg (by omega)]

/-- Reading `%i`/`%li` output back with `strtol` gives the number printed. -/
theorem strtol_fmt_signed (x : Int) (h1 : LONG_MIN ≤ x) (h2 : x ≤ LONG_MAX) :
    strtol (fmt_signed x) = x := by
  have habs : x.natAbs < 10 ^ 64 := by
    have : (x.natAbs : Int) < 10 ^ 64 := by
      simp only [LONG_MIN, LONG_MAX] at h1 h2
      omega
    exact_mod_cast this
  obtain ⟨d, t, ht, hd⟩ := fmt_unsigned_head x.natAbs habs
  have hs := digit_char_not_sign d hd
  have hmag := strtol_magnitude_decimal x.natAbs habs
  unfold fmt_signed strtol
  by_cases hneg : x < 0
  · rw [if_pos hneg]
    have : List.dropWhile isspace ('-' :: fmt_unsigned 10 x.natAbs) =
        '-' :: fmt_unsigned 10 x.natAbs := by
      rw [List.dropWhile_cons_of_neg (by decide)]
    simp only [this, if_true, hmag]
    rw [clamp_long_of_range _ (by omega) (by omega)]
    omega
  · rw [if_neg hneg, ht]
    have : List.dropWhile isspace (digit_char d :: t) = digit_char d :: t := by
      rw [List.dropWhile_cons_of_neg (by simp [hs.2.2.2.2])]
    simp only [this, hs.1, hs.2.1, if_false]
    rw [← ht, hmag, clamp_long_of_range _ (by omega) (by omega)]
    omega

/-- Reading `%#o` output back with `strtol` gives the number printed. -/
theorem strtol_fmt_alt_octal (n : Nat) (hn : n < 2 ^ 63) : strtol (fmt_alt_octal n) = n := by
  have hmag := strtol_magnitude_alt_octal n (by
    calc n < 2 ^ 63 := hn
      _ ≤ 8 ^ 64 := by norm_num)
  have hform : ∃ t, fmt_alt_octal n = '0' :: t := by
    unfold fmt_alt_octal
    split
    · exact ⟨[], rfl⟩
    · exact ⟨_, rfl⟩
  obtain ⟨t, ht⟩ := hform
  unfold strtol
  rw [ht]
  have : List.dropWhile isspace ('0' :: t) = '0' :: t := by
    rw [List.dropWhile_cons_of_neg (by decide)]
  simp only [this]
  rw [if_neg (by decide), if_neg (by decide), ← ht, hmag]
  apply clamp_long_of_range <;> simp only [LONG_MIN, LONG_MAX] <;> omega

theorem snprintf_fmt_alt_octal (n : Nat) (hn : n < 2 ^ 32) :
    snprintf 16 (fmt_alt_octal n) = fmt_alt_octal n := by
  unfold snprintf
  apply List.take_of_length_le
  unfold fmt_alt_octal
  split
  · simp
  · have := to_digits_length 8 64 n 11 (by omega) (by
      calc n < 2 ^ 32 := hn
        _ ≤ 8 ^ 11 := by norm_num)
    simp only [fmt_unsigned, List.length_cons]
    omega

theorem snprintf_fmt_signed (x : Int) (h1 : -(10 ^ 14) < x) (h2 : x < 10 ^ 15) :
    snprintf 16 (fmt_signed x) = fmt_signed x := by
  unfold snprintf
  apply List.take_of_length_le
  unfold fmt_signed fmt_unsigned
  split
  · have hlt : x.natAbs < 10 ^ 14 := by
      have : (x.natAbs : Int) < 10 ^ 14 := by omega
      exact_mod_cast this
    have := to_digits_length 10 64 x.natAbs 14 (by omega) hlt
    simp only [List.length_cons]
    omega
  · have hlt : x.natAbs < 10 ^ 15 := by
      have : (x.natAbs : Int) < 10 ^ 15 := by omega
      exact_mod_cast this
    have := to_digits_length 10 64 x.natAbs 15 (by omega) hlt
    omega

theorem to_u32_as_int (n : Nat) (hn : n < 2 ^ 32) : to_u32 (as_int n) = n := by
  unfold to_u32 as_int
  have h : n % 4294967296 = n := Nat.mod_eq_of_lt (by omega)
  rw [h]
  split <;> omega

theorem as_int_range (n : Nat) : LONG_MIN ≤ as_int n ∧ as_int n ≤ LONG_MAX ∧
    -(10 ^ 14) < as_int n ∧ as_int n < 10 ^ 15 := by
  unfold as_int LONG_MIN LONG_MAX
  split <;> omega

theorem to_u32_natCast (n : Nat) (hn : n < 2 ^ 32) : to_u32 (n : Int) = n := by
  unfold to_u32
  omega

/-! ## Order of `std::string` keys -/

theorem str_lt_irrefl (a : Str) : str_lt a a = false := by
  induction a with
  | nil => rfl
  | cons c t ih => simp [str_lt, ih]

theorem str_lt_trans {a b c : Str} (h1 : str_lt a b = true) (h2 : str_lt b c = true) :
    str_lt a c = true := by
  induction a generalizing b c with
  | nil =>
    cases b with
    | nil => simp [str_lt] at h1
    | cons y bs =>
      cases c with
      | nil => simp [str_lt] at h2
      | cons z cs => simp [str_lt]
  | cons x as ih =>
    cases b with
    | nil => simp [str_lt] at h1
    | cons y bs =>
      cases c with
      | nil => simp [str_lt] at h2
      | cons z cs =>
        simp only [str_lt] at h1 h2 ⊢
        by_cases hxy : x.toNat < y.toNat
        · by_cases hyz : y.toNat < z.toNat
          · rw [if_pos (by omega)]
          · rw [if_neg hyz] at h2
            by_cases hzy : z.toNat < y.toNat
            · simp [hzy] at h2
            · rw [if_pos (by omega)]
        · rw [if_neg hxy] at h1
          by_cases hyx : y.toNat < x.toNat
          · simp [hyx] at h1
          · rw [if_neg hyx] at h1
            by_cases hyz : y.toNat < z.toNat
            · rw [if_pos (by omega)]
            · rw [if_neg hyz] at h2
              by_cases hzy : z.toNat < y.toNat
              · simp [hzy] at h2
              · rw [if_neg hzy] at h2
                rw [if_neg (by omega), if_neg (by omega)]
                exact ih h1 h2

theorem str_lt_total {a b : Str} (hne : a ≠ b) (h : str_lt a b = false) : str_lt b a = true := by
  induction a generalizing b with
  | nil =>
    cases b with
    | nil => exact absurd rfl hne
    | cons y bs => simp [str_lt] at h
  | cons x as ih =>
    cases b with
    | nil => simp [str_lt]
    | cons y bs =>
      simp only [str_lt] at h ⊢
      by_cases hxy : x.toNat < y.toNat
      · simp [hxy] at h
      · rw [if_neg hxy] at h
        by_cases hyx : y.toNat < x.toNat
        · rw [if_pos hyx]
        · rw [if_neg hyx] at h
          rw [if_neg hyx, if_neg hxy]
          have hxeq : x = y := by
            apply Char.ext
            apply UInt32.ext
            have : x.toNat = y.toNat := by omega
            exact this
          subst hxeq
          apply ih _ h
          intro heq
          exact hne (by rw [heq])

theorem map_set_keys (k v : Str) (m : str_map) :
    ∀ e ∈ map_set str_lt k v m, e.1 = k ∨ e ∈ m := by
  induction m with
  | nil => simp [map_set]
  | cons e1 m ih =>
    obtain ⟨k1, v1⟩ := e1
    intro e he
    simp only [map_set] at he
    split at he
    · simp only [List.mem_cons] at he ⊢
      rcases he with he | he
      · left; rw [he]
      · right; right; exact he
    · split at he
      · simp only [List.mem_cons] at he ⊢
        rcases he with he | he | he
        · left; rw [he]
        · right; left; exact he
        · right; right; exact he
      · simp only [List.mem_cons] at he ⊢
        rcases he with he | he
        · right; left; exact he
        · rcases ih e he with h | h
          · left; exact h
          · right; right; exact h

theorem map_set_sorted (k v : Str) (m : str_map) (hm : map_sorted m) :
    map_sorted (map_set str_lt k v m) := by
  induction m with
  | nil => simp [map_set, map_sorted]
  | cons e1 m ih =>
    obtain ⟨k1, v1⟩ := e1
    unfold map_sorted at hm ih ⊢
    rw [List.pairwise_cons] at hm
    simp only [map_set]
    by_cases h1 : k = k1
    · rw [if_pos h1, List.pairwise_cons]
      subst h1
      exact ⟨hm.1, hm.2⟩
    · rw [if_neg h1]
      by_cases h2 : str_lt k k1 = true
      · rw [if_pos h2, List.pairwise_cons, List.pairwise_cons]
        refine ⟨?_, hm.1, hm.2⟩
        intro e he
        rw [List.mem_cons] at he
        rcases he with he | he
        · rw [he]; exact h2
        · exact str_lt_trans h2 (hm.1 e he)
      · rw [if_neg h2, List.pairwise_cons]
        refine ⟨?_, ih hm.2⟩
        intro e he
        rcases map_set_keys k v m e he with h | h
        · rw [h]
          exact str_lt_total h1 (by simpa using h2)
        · exact hm.1 e h

theorem map_sorted_nodup (m : str_map) (hm : map_sorted m) : (m.map Prod.fst).Nodup := by
  unfold map_sorted at hm
  rw [List.Nodup, List.pairwise_map]
  apply hm.imp
  intro a b hab heq
  rw [heq, str_lt_irrefl] at hab
  exact absurd hab (by simp)

theorem map_find_of_mem (m : str_map) (hm : (m.map Prod.fst).Nodup) (k v : Str)
    (h : (k, v) ∈ m) : map_find k m = some v := by
  induction m with
  | nil => simp at h
  | cons e m ih =>
    obtain ⟨k1, v1⟩ := e
    simp only [List.map_cons, List.nodup_cons] at hm
    rw [List.mem_cons] at h
    rcases h with h | h
    · simp only [Prod.mk.injEq] at h
      simp [map_find, h.1, h.2]
    · have hne : k ≠ k1 := by
        intro heq
        apply hm.1
        rw [← heq]
        exact List.mem_map_of_mem Prod.fst h
      simp [map_find, hne, ih hm.2 h]

theorem mem_of_map_find (m : str_map) (k v : Str) (h : map_find k m = some v) : (k, v) ∈ m := by
  induction m with
  | nil => simp [map_find] at h
  | cons e m ih =>
    obtain ⟨k1, v1⟩ := e
    simp only [map_find] at h
    split at h
    · rename_i heq
      simp only [Option.some.injEq] at h
      rw [heq, h]
      exact List.mem_cons_self _ _
    · exact List.mem_cons_of_mem _ (ih h)

/-! ## Header ingestion, field by field -/

theorem ite_cases {α : Type} (P : α → Prop) (c : Prop) [Decidable c] (a b : α)
    (ha : c → P a) (hb : ¬ c → P b) : P (if c then a else b) := by
  split
  · exact ha (by assumption)
  · exact hb (by assumption)

/-- Ingestion of a list of header lines in wire order. -/
theorem ingest_keep {β : Type} (g : object → β) (K : Str)
    (hkeep : ∀ o k v, k ≠ K → g (request_process_header o k v) = g o)
    (hs : List (Str × Str)) (o : object) (hK : K ∉ hs.map Prod.fst) :
    g (hs.foldl (fun a e => request_process_header a e.1 e.2) o) = g o := by
  induction hs generalizing o with
  | nil => rfl
  | cons e t ih =>
    simp only [List.map_cons, List.mem_cons, not_or] at hK
    rw [List.foldl_cons, ih _ hK.2]
    exact hkeep o e.1 e.2 (fun h => hK.1 h.symm)

theorem ingest_field {β : Type} (g : object → β) (K : Str) (f : Str → β)
    (hset : ∀ o v, g (request_process_header o K v) = f v)
    (hkeep : ∀ o k v, k ≠ K → g (request_process_header o k v) = g o)
    (hs : List (Str × Str)) (o : object) (v : Str) (hmem : (K, v) ∈ hs)
    (hnd : (hs.map Prod.fst).Nodup) :
    g (hs.foldl (fun a e => request_process_header a e.1 e.2) o) = f v := by
  induction hs generalizing o with
  | nil => simp at hmem
  | cons e t ih =>
    simp only [List.map_cons, List.nodup_cons] at hnd
    rw [List.mem_cons] at hmem
    rw [List.foldl_cons]
    rcases hmem with hmem | hmem
    · rw [← hmem] at hnd ⊢
      rw [ingest_keep g K hkeep t _ hnd.1]
      exact hset o v
    · exact ih _ hmem hnd.2

theorem header_set_mode (o : object) (v : Str) :
    (request_process_header o HDR_MODE v)._stat.st_mode = to_u32 (strtol v) &&& NOT_S_IFMT := by
  unfold request_process_header
  simp only
  rw [if_neg (by decide), if_neg (by decide), if_neg (by decide), if_pos trivial]

theorem header_keep_mode (o : object) (k v : Str) (hk : k ≠ HDR_MODE) :
    (request_process_header o k v)._stat.st_mode = o._stat.st_mode := by
  unfold request_process_header
  simp only
  repeat' (apply ite_cases (fun x : object => x._stat.st_mode = o._stat.st_mode) <;> intro _)
  all_goals first
    | rfl
    | contradiction

theorem header_set_uid (o : object) (v : Str) :
    (request_process_header o HDR_UID v)._stat.st_uid = to_u32 (strtol v) := by
  unfold request_process_header
  simp only
  rw [if_neg (by decide), if_neg (by decide), if_neg (by decide), if_neg (by decide), if_pos trivial]

theorem header_keep_uid (o : object) (k v : Str) (hk : k ≠ HDR_UID) :
    (request_process_header o k v)._stat.st_uid = o._stat.st_uid := by
  unfold request_process_header
  simp only
  repeat' (apply ite_cases (fun x : object => x._stat.st_uid = o._stat.st_uid) <;> intro _)
  all_goals first
    | rfl
    | contradiction

theorem header_set_gid (o : object) (v : Str) :
    (request_process_header o HDR_GID v)._stat.st_gid = to_u32 (strtol v) := by
  unfold request_process_header
  simp only
  rw [if_neg (by decide), if_neg (by decide), if_neg (by decide), if_neg (by decide),
    if_neg (by decide), if_pos trivial]

theorem header_keep_gid (o : object) (k v : Str) (hk : k ≠ HDR_GID) :
    (request_process_header o k v)._stat.st_gid = o._stat.st_gid := by
  unfold request_process_header
  simp only
  repeat' (apply ite_cases (fun x : object => x._stat.st_gid = o._stat.st_gid) <;> intro _)
  all_goals first
    | rfl
    | contradiction

theorem header_set_mtime (o : object) (v : Str) :
    (request_process_header o HDR_MTIME v)._stat.st_mtime = strtol v := by
  unfold request_process_header
  simp only
  rw [if_neg (by decide), if_neg (by decide), if_neg (by decide), if_neg (by decide),
    if_neg (by decide), if_neg (by decide), if_pos trivial]

theorem header_keep_mtime (o : object) (k v : Str) (hk : k ≠ HDR_MTIME) :
    (request_process_header o k v)._stat.st_mtime = o._stat.st_mtime := by
  unfold request_process_header
  simp only
  repeat' (apply ite_cases (fun x : object => x._stat.st_mtime = o._stat.st_mtime) <;> intro _)
  all_goals first
    | rfl
    | contradiction

theorem header_set_etag (o : object) (v : Str) :
    (request_process_header o HDR_ETAG v)._etag = v := by
  unfold request_process_header
  simp only
  rw [if_neg (by decide), if_pos trivial]

theorem header_keep_etag (o : object) (k v : Str) (hk : k ≠ HDR_ETAG) :
    (request_process_header o k v)._etag = o._etag := by
  unfold request_process_header
  simp only
  repeat' (apply ite_cases (fun x : object => x._etag = o._etag) <;> intro _)
  all_goals first
    | rfl
    | contradiction

theorem header_set_mtime_etag (o : object) (v : Str) :
    (request_process_header o HDR_MTIME_ETAG v)._mtime_etag = v := by
  unfold request_process_header
  simp only
  rw [if_neg (by decide), if_neg (by decide), if_neg (by decide), if_neg (by decide),
    if_neg (by decide), if_neg (by decide), if_neg (by decide), if_pos trivial]

theorem header_keep_mtime_etag (o : object) (k v : Str) (hk : k ≠ HDR_MTIME_ETAG) :
    (request_process_header o k v)._mtime_etag = o._mtime_etag := by
  unfold request_process_header
  simp only
  repeat' (apply ite_cases (fun x : object => x._mtime_etag = o._mtime_etag) <;> intro _)
  all_goals first
    | rfl
    | contradiction

theorem header_set_md5 (o : object) (v : Str) :
    (request_process_header o HDR_MD5 v)._md5 = v := by
  unfold request_process_header
  simp only
  rw [if_neg (by decide), if_neg (by decide), if_neg (by decide), if_neg (by decide),
    if_neg (by decide), if_neg (by decide), if_neg (by decide), if_neg (by decide), if_pos trivial]

theorem header_keep_md5 (o : object) (k v : Str) (hk : k ≠ HDR_MD5) :
    (request_process_header o k v)._md5 = o._md5 := by
  unfold request_process_header
  simp only
  repeat' (apply ite_cases (fun x : object => x._md5 = o._md5) <;> intro _)
  all_goals first
    | rfl
    | contradiction

theorem header_set_md5_etag (o : object) (v : Str) :
    (request_process_header o HDR_MD5_ETAG v)._md5_etag = v := by
  unfold request_process_header
  simp only
  rw [if_neg (by decide), if_neg (by decide), if_neg (by decide), if_neg (by decide),
    if_neg (by decide), if_neg (by decide), if_neg (by decide), if_neg (by decide),
    if_neg (by decide), if_pos trivial]

theorem header_keep_md5_etag (o : object) (k v : Str) (hk : k ≠ HDR_MD5_ETAG) :
    (request_process_header o k v)._md5_etag = o._md5_etag := by
  unfold request_process_header
  simp only
  repeat' (apply ite_cases (fun x : object => x._md5_etag = o._md5_etag) <;> intro _)
  all_goals first
    | rfl
    | contradiction

/-! ## Headers emitted by `request_set_meta_headers` -/

theorem set_header_headers (r : request) (k v : Str) :
    (set_header r k v)._headers = map_set str_lt k v r._headers := rfl

theorem meta_fold_headers (md : str_map) (r : request) :
    (md.foldl (fun r e => set_header r ( AMZ_META_PREFIX ++ e.1) e.2) r)._headers =
      md.foldl (fun m e => map_set str_lt ( AMZ_META_PREFIX ++ e.1) e.2 m) r._headers := by
  induction md generalizing r with
  | nil => rfl
  | cons e t ih => rw [List.foldl_cons, ih, List.foldl_cons, set_header_headers]

theorem meta_fold_sorted (md : str_map) (m : str_map) (hm : map_sorted m) :
    map_sorted (md.foldl (fun m e => map_set str_lt ( AMZ_META_PREFIX ++ e.1) e.2 m) m) := by
  induction md generalizing m with
  | nil => exact hm
  | cons e t ih =>
    rw [List.foldl_cons]
    exact ih _ (map_set_sorted _ _ _ hm)

theorem meta_fold_find_other (md : str_map) (m : str_map) (k : Str)
    (hk : starts_with AMZ_META_PREFIX k = false) :
    map_find k (md.foldl (fun m e => map_set str_lt ( AMZ_META_PREFIX ++ e.1) e.2 m) m) =
      map_find k m := by
  induction md generalizing m with
  | nil => rfl
  | cons e t ih =>
    rw [List.foldl_cons, ih]
    apply map_find_set_other
    intro heq
    rw [heq] at hk
    have hp : starts_with AMZ_META_PREFIX ( AMZ_META_PREFIX ++ e.1) = true := by
      unfold starts_with
      rw [List.isPrefixOf_iff_prefix]
      exact List.prefix_append _ _
    rw [hp] at hk
    exact absurd hk (by simp)

theorem map_find_none_not_key (m : str_map) (k : Str) (h : map_find k m = none) :
    k ∉ m.map Prod.fst := by
  induction m with
  | nil => simp
  | cons e t ih =>
    obtain ⟨k1, v1⟩ := e
    simp only [map_find] at h
    split at h
    · simp at h
    · rename_i hne
      simp only [List.map_cons, List.mem_cons, not_or]
      exact ⟨hne, ih h⟩

/-- What `request_set_meta_headers` leaves in the header map of a request
that had no header: the map is in key order, it has no `ETag` entry, and the
reserved entries carry the formatted stat members and the digests. -/
theorem emitted_headers (o : object) (r0 : request) (h0 : r0._headers = []) :
    map_sorted (request_set_meta_headers o r0)._headers ∧
    map_find HDR_ETAG (request_set_meta_headers o r0)._headers = none ∧
    map_find HDR_MODE (request_set_meta_headers o r0)._headers =
      some (snprintf 16 (fmt_alt_octal (o._stat.st_mode &&& NOT_S_IFMT))) ∧
    map_find HDR_UID (request_set_meta_headers o r0)._headers =
      some (snprintf 16 (fmt_signed (as_int o._stat.st_uid))) ∧
    map_find HDR_GID (request_set_meta_headers o r0)._headers =
      some (snprintf 16 (fmt_signed (as_int o._stat.st_gid))) ∧
    map_find HDR_MTIME (request_set_meta_headers o r0)._headers =
      some (snprintf 16 (fmt_signed o._stat.st_mtime)) ∧
    map_find HDR_MTIME_ETAG (request_set_meta_headers o r0)._headers = some o._mtime_etag ∧
    map_find HDR_MD5 (request_set_meta_headers o r0)._headers = some o._md5 ∧
    map_find HDR_MD5_ETAG (request_set_meta_headers o r0)._headers = some o._md5_etag := by
  simp only [request_set_meta_headers, set_header_headers, meta_fold_headers, h0]
  refine ⟨?_, ?_, ?_, ?_, ?_, ?_, ?_, ?_, ?_⟩
  · repeat' apply map_set_sorted
    apply meta_fold_sorted
    exact List.Pairwise.nil
  · repeat rw [map_find_set_other _ _ _ _ _ (by decide)]
    rw [meta_fold_find_other _ _ _ (by decide)]
    rfl
  · repeat rw [map_find_set_other _ _ HDR_MODE _ _ (by decide)]
    rw [map_find_set_self]
  · repeat rw [map_find_set_other _ _ HDR_UID _ _ (by decide)]
    rw [map_find_set_self]
  · repeat rw [map_find_set_other _ _ HDR_GID _ _ (by decide)]
    rw [map_find_set_self]
  · repeat rw [map_find_set_other _ _ HDR_MTIME _ _ (by decide)]
    rw [map_find_set_self]
  · repeat rw [map_find_set_other _ _ HDR_MTIME_ETAG _ _ (by decide)]
    rw [map_find_set_self]
  · repeat rw [map_find_set_other _ _ HDR_MD5 _ _ (by decide)]
    rw [map_find_set_self]
  · repeat rw [map_find_set_other _ _ HDR_MD5_ETAG _ _ (by decide)]
    rw [map_find_set_self]

/-! ## Claim C1 -/

theorem response_fields (u : util) (now : Int) (p : object) (req : request)
    (hurl : req._url ≠ []) (hcode : req._response_code = 200) :
    (request_process_response u now p req)._stat.st_uid =
      (if p._stat.st_uid = 0 then g_default_uid else p._stat.st_uid) ∧
    (request_process_response u now p req)._stat.st_gid =
      (if p._stat.st_gid = 0 then g_default_gid else p._stat.st_gid) ∧
    (request_process_response u now p req)._stat.st_mtime =
      (if p._mtime_etag ≠ p._etag ∧ req._last_modified > p._stat.st_mtime
        then req._last_modified else p._stat.st_mtime) ∧
    (request_process_response u now p req)._md5 =
      (if (p._md5_etag ≠ p._etag ∨ (if u.is_valid_md5 p._md5 then p._md5 else []) = []) ∧
          u.is_valid_md5 p._etag = true
        then p._etag else if u.is_valid_md5 p._md5 then p._md5 else []) ∧
    (request_process_response u now p req)._mtime_etag = p._etag ∧
    (request_process_response u now p req)._md5_etag = p._etag := by
  have hc : ¬ (req._url = [] ∨ req._response_code ≠ 200) := by
    simp [hurl, hcode]
  simp only [request_process_response, hc, if_false, and_self]

theorem type_bits_and_not (type : object_type) : get_mode_by_type type &&& NOT_S_IFMT = 0 := by
  cases type <;> decide

theorem and_not_twice (a : Nat) : (a &&& NOT_S_IFMT) &&& NOT_S_IFMT = a &&& NOT_S_IFMT := by
  rw [Nat.and_assoc, Nat.and_self]

/-- C1, as amended: let an object have permission bits `m`, uid `u`, gid `g`, all
non-zero 32-bit values, an mtime `t` that `%li` prints in at most 15
characters, an md5 `d` that is a non-empty valid MD5 (or is empty while the ETag
is not a valid MD5), and `mtime_etag = md5_etag = e`. Feed the headers that
`request_set_meta_headers` puts into a fresh request, together with `ETag: e`,
in any order, through `request_init`, `request_process_header` and
`request_process_response` (code 200, non-empty URL). The populated object has
permission bits, uid, gid, mtime and md5 exactly `(m, u, g, t, d)`. -/
theorem metadata_round_trip (u : util) (now : Int) (o target : object) (r0 req : request)
    (e : Str) (lines : List (Str × Str))
    (h0 : r0._headers = [])
    (hperm : lines.Perm ((HDR_ETAG, e) :: (request_set_meta_headers o r0)._headers))
    (hmt : o._mtime_etag = e) (hmd : o._md5_etag = e)
    (hurl : req._url ≠ []) (hcode : req._response_code = 200)
    (hmode : o._stat.st_mode < 2 ^ 32) (huid : o._stat.st_uid < 2 ^ 32)
    (hgid : o._stat.st_gid < 2 ^ 32)
    (hm0 : o._stat.st_mode &&& NOT_S_IFMT ≠ 0) (hu0 : o._stat.st_uid ≠ 0)
    (hg0 : o._stat.st_gid ≠ 0)
    (ht : -(10 ^ 14) < o._stat.st_mtime ∧ o._stat.st_mtime < 10 ^ 15)
    (hd : (u.is_valid_md5 o._md5 = true ∧ o._md5 ≠ []) ∨
      (o._md5 = [] ∧ u.is_valid_md5 e = false)) :
    (populate u now target lines req)._stat.st_mode &&& NOT_S_IFMT =
      o._stat.st_mode &&& NOT_S_IFMT ∧
    (populate u now target lines req)._stat.st_uid = o._stat.st_uid ∧
    (populate u now target lines req)._stat.st_gid = o._stat.st_gid ∧
    (populate u now target lines req)._stat.st_mtime = o._stat.st_mtime ∧
    (populate u now target lines req)._md5 = o._md5 := by
  obtain ⟨hsorted, hetag, hfmode, hfuid, hfgid, hfmtime, hfmte, hfmd5, hfmd5e⟩ :=
    emitted_headers o r0 h0
  -- the header lines carry distinct names
  have hnd : (lines.map Prod.fst).Nodup := by
    rw [(hperm.map Prod.fst).nodup_iff]
    simp only [List.map_cons, List.nodup_cons]
    exact ⟨map_find_none_not_key _ _ hetag, map_sorted_nodup _ hsorted⟩
  have hmem : ∀ k v, map_find k (request_set_meta_headers o r0)._headers = some v →
      (k, v) ∈ lines := by
    intro k v hf
    rw [hperm.mem_iff]
    exact List.mem_cons_of_mem _ (mem_of_map_find _ _ _ hf)
  have hmem_etag : (HDR_ETAG, e) ∈ lines := by
    rw [hperm.mem_iff]
    exact List.mem_cons_self _ _
  -- the object before finalisation
  have pmode := ingest_field (fun x => x._stat.st_mode) HDR_MODE _ header_set_mode
    header_keep_mode lines (request_init target) _ (hmem _ _ hfmode) hnd
  have puid := ingest_field (fun x => x._stat.st_uid) HDR_UID _ header_set_uid
    header_keep_uid lines (request_init target) _ (hmem _ _ hfuid) hnd
  have pgid := ingest_field (fun x => x._stat.st_gid) HDR_GID _ header_set_gid
    header_keep_gid lines (request_init target) _ (hmem _ _ hfgid) hnd
  have pmtime := ingest_field (fun x => x._stat.st_mtime) HDR_MTIME _ header_set_mtime
    header_keep_mtime lines (request_init target) _ (hmem _ _ hfmtime) hnd
  have petag := ingest_field (fun x => x._etag) HDR_ETAG _ header_set_etag
    header_keep_etag lines (request_init target) _ hmem_etag hnd
  have pmte := ingest_field (fun x => x._mtime_etag) HDR_MTIME_ETAG _ header_set_mtime_etag
    header_keep_mtime_etag lines (request_init target) _ (hmem _ _ hfmte) hnd
  have pmd5 := ingest_field (fun x => x._md5) HDR_MD5 _ header_set_md5
    header_keep_md5 lines (request_init target) _ (hmem _ _ hfmd5) hnd
  have pmd5e := ingest_field (fun x => x._md5_etag) HDR_MD5_ETAG _ header_set_md5_etag
    header_keep_md5_etag lines (request_init target) _ (hmem _ _ hfmd5e) hnd
  simp only at pmode puid pgid pmtime petag pmte pmd5 pmd5e
  -- what the formatted numbers read back as
  have hperm32 : o._stat.st_mode &&& NOT_S_IFMT < 2 ^ 32 :=
    Nat.lt_of_le_of_lt Nat.and_le_left hmode
  rw [snprintf_fmt_alt_octal _ hperm32,
    strtol_fmt_alt_octal _ (Nat.lt_trans hperm32 (by norm_num)),
    to_u32_natCast _ hperm32, and_not_twice] at pmode
  have hru := as_int_range o._stat.st_uid
  have hrg := as_int_range o._stat.st_gid
  rw [snprintf_fmt_signed _ hru.2.2.1 hru.2.2.2, strtol_fmt_signed _ hru.1 hru.2.1,
    to_u32_as_int _ huid] at puid
  rw [snprintf_fmt_signed _ hrg.2.2.1 hrg.2.2.2, strtol_fmt_signed _ hrg.1 hrg.2.1,
    to_u32_as_int _ hgid] at pgid
  rw [snprintf_fmt_signed _ ht.1 ht.2, strtol_fmt_signed _
    (by simp only [LONG_MIN]; omega) (by simp only [LONG_MAX]; omega)] at pmtime
  -- finalisation
  obtain ⟨fuid, fgid, fmtime, fmd5, _, _⟩ := response_fields u now
    (lines.foldl (fun a e => request_process_header a e.1 e.2) (request_init target)) req
    hurl hcode
  obtain ⟨_, fmode⟩ := response_type_ne_invalid u now
    (lines.foldl (fun a e => request_process_header a e.1 e.2) (request_init target)) req
    (by simp [hurl, hcode])
  unfold populate
  refine ⟨?_, ?_, ?_, ?_, ?_⟩
  · rw [fmode, pmode, if_neg hm0, Nat.and_distrib_right, type_bits_and_not, Nat.or_zero,
      and_not_twice]
  · rw [fuid, puid, if_neg hu0]
  · rw [fgid, pgid, if_neg hg0]
  · rw [fmtime, pmte, petag, pmtime, hmt]
    simp
  · rw [fmd5, pmd5, pmd5e, petag, hmd]
    rcases hd with ⟨hd, hne⟩ | ⟨hd1, hd2⟩
    · simp [hd, hne]
    · simp [hd1, hd2]

/-- The text of an mtime of 16 digits does not fit the 16-byte buffer of
`request_set_meta_headers`: the header carries 15 digits, and they read back as
a different time. -/
theorem mtime_text_cut :
    snprintf 16 (fmt_signed 1000000000000000) = "100000000000000".toList ∧
    strtol (snprintf 16 (fmt_signed 1000000000000000)) = 100000000000000 := by
  decide

/-- Witness for C1: a stored file with a custom metadata entry. -/
theorem metadata_round_trip_witness :
    (populate sample_util 1300000200 sample_object
      ((HDR_ETAG, sample_digest) :: (request_set_meta_headers stored_object sample_request)._headers)
      answered_request)._stat.st_mode &&& NOT_S_IFMT = 0o644 ∧
    (populate sample_util 1300000200 sample_object
      ((HDR_ETAG, sample_digest) :: (request_set_meta_headers stored_object sample_request)._headers)
      answered_request)._stat.st_uid = 1000 ∧
    (populate sample_util 1300000200 sample_object
      ((HDR_ETAG, sample_digest) :: (request_set_meta_headers stored_object sample_request)._headers)
      answered_request)._stat.st_gid = 1000 ∧
    (populate sample_util 1300000200 sample_object
      ((HDR_ETAG, sample_digest) :: (request_set_meta_headers stored_object sample_request)._headers)
      answered_request)._stat.st_mtime = 1300000000 ∧
    (populate sample_util 1300000200 sample_object
      ((HDR_ETAG, sample_digest) :: (request_set_meta_headers stored_object sample_request)._headers)
      answered_request)._md5 = sample_digest :=
  metadata_round_trip sample_util 1300000200 stored_object sample_object sample_request
    answered_request sample_digest _ rfl (List.Perm.refl _) rfl rfl (by decide) rfl
    (by decide) (by decide) (by decide) (by decide) (by decide) (by decide)
    ⟨by decide, by decide⟩ (Or.inl ⟨by decide, by decide⟩)

/-- Counterexample to C1 as stated: a file owned by root (uid 0), with its
ETag unchanged, reads back with the default uid 1000. -/
theorem metadata_round_trip_counterexample :
    root_owned_object._stat.st_uid = 0 ∧
    root_owned_object._mtime_etag = root_owned_object._etag ∧
    root_owned_object._md5_etag = root_owned_object._etag ∧
    (populate sample_util 1300000200 sample_object
      ((HDR_ETAG, root_owned_object._etag) ::
        (request_set_meta_headers root_owned_object sample_request)._headers)
      answered_request)._stat.st_uid = 1000 := by
  decide

/-! ## Claim C8 -/

theorem init_supported (r : request) (m : http_method) (name : Str)
    (hc : r._canceled = false) (hm : http_method_name m = some name) :
    (init r m).1 = none ∧
    (init r m).2._url = [] ∧
    (init r m).2._headers = [] ∧
    (init r m).2._response_headers = [] ∧
    (init r m).2._output_data = [] ∧
    (init r m).2._response_code = 0 ∧
    (init r m).2._last_modified = 0 ∧
    (init r m).2._target_object = none ∧
    (init r m).2._method = name := by
  cases m <;> simp only [http_method_name, Option.some.injEq, reduceCtorEq] at hm
  all_goals subst hm
  all_goals simp [init, hc, method_setup, set_input_fd, set_output_fd]

theorem init_unsupported (r : request) (value : Nat) : (init r (HTTP_OTHER value)).1 ≠ none := by
  unfold init
  split
  · simp
  · simp [method_setup]

/-- C8: on a request that has not been canceled, in any prior state, `init(m)`
for `m` among GET, HEAD, PUT, POST, DELETE succeeds and leaves the URL, the
request headers, the buffered response headers and the response body buffer
empty, the response code and last-modified 0, the target object unset and the
method name that of `m`; `init` with any other method value fails. -/
theorem init_resets (r : request) (m : http_method) :
    (∀ name, r._canceled = false → http_method_name m = some name →
      (init r m).1 = none ∧
      (init r m).2._url = [] ∧
      (init r m).2._headers = [] ∧
      (init r m).2._response_headers = [] ∧
      (init r m).2._output_data = [] ∧
      (init r m).2._response_code = 0 ∧
      (init r m).2._last_modified = 0 ∧
      (init r m).2._target_object = none ∧
      (init r m).2._method = name) ∧
    (http_method_name m = none → (init r m).1 ≠ none) := by
  constructor
  · intro name hc hm
    exact init_supported r m name hc hm
  · intro hm
    cases m <;> simp only [http_method_name, reduceCtorEq] at hm
    exact init_unsupported r _

/-- Witness for C8: reset of a used request for a HEAD, and an unsupported
method value. -/
theorem init_resets_witness :
    ((init used_request HTTP_HEAD).1 = none ∧
      (init used_request HTTP_HEAD).2._url = [] ∧
      (init used_request HTTP_HEAD).2._headers = [] ∧
      (init used_request HTTP_HEAD).2._response_headers = [] ∧
      (init used_request HTTP_HEAD).2._output_data = [] ∧
      (init used_request HTTP_HEAD).2._response_code = 0 ∧
      (init used_request HTTP_HEAD).2._last_modified = 0 ∧
      (init used_request HTTP_HEAD).2._target_object = none ∧
      (init used_request HTTP_HEAD).2._method = "HEAD".toList) ∧
    (init used_request (HTTP_OTHER 7)).1 ≠ none :=
  ⟨(init_resets used_request HTTP_HEAD).1 "HEAD".toList (by decide) (by decide),
   (init_resets used_request (HTTP_OTHER 7)).2 (by decide)⟩

/-! ## Claim C7 -/

theorem str_map_touch_find (m : str_map) (k0 k : Str) :
    map_find k (str_map_touch m k0) =
      match map_find k m with
      | some v => some v
      | none => if k = k0 then some [] else none := by
  unfold str_map_touch
  cases h0 : map_find k0 m with
  | some v0 =>
    cases hk : map_find k m with
    | some v => simp [hk]
    | none =>
      have hne : k ≠ k0 := by
        intro h
        rw [h, h0] at hk
        exact absurd hk (by simp)
      simp [hk, hne]
  | none =>
    by_cases hkk : k = k0
    · subst hkk
      simp [map_find_set_self, h0]
    · rw [map_find_set_other _ _ _ _ _ hkk]
      cases hk : map_find k m <;> simp [hkk]

theorem str_map_touch_sorted (m : str_map) (k0 : Str) (hm : map_sorted m) :
    map_sorted (str_map_touch m k0) := by
  unfold str_map_touch
  split
  · exact hm
  · exact map_set_sorted _ _ _ hm

theorem signature_headers_sorted (r : request) (hm : map_sorted r._headers) :
    map_sorted (signature_headers r) := by
  unfold signature_headers
  exact str_map_touch_sorted _ _ (str_map_touch_sorted _ _ (str_map_touch_sorted _ _ hm))

/-- The read accesses of `build_signature` add entries with empty values only. -/
theorem signature_headers_find (r : request) (k v : Str) (hv : v ≠ []) :
    map_find k (signature_headers r) = some v ↔ map_find k r._headers = some v := by
  unfold signature_headers
  simp only [str_map_touch_find]
  cases h : map_find k r._headers with
  | some w => simp
  | none =>
    simp only []
    constructor
    · intro h1
      exfalso
      split_ifs at h1 <;> simp_all
    · intro h1
      exact absurd h1 (by simp)

theorem fold_lines (cond : Str × Str → Bool) (line : Str × Str → Str) (m : str_map) (acc : Str) :
    m.foldl (fun acc e => if cond e = true then acc ++ line e else acc) acc =
      acc ++ ((m.filter cond).map line).flatten := by
  induction m generalizing acc with
  | nil => simp
  | cons e t ih =>
    rw [List.foldl_cons, ih]
    by_cases hc : cond e = true
    · simp [hc, List.filter_cons]
    · simp [hc, List.filter_cons]

theorem string_to_sign_eq (r : request) :
    string_to_sign r =
      r._method ++ "\n".toList ++ str_map_get r._headers "Content-MD5".toList ++
        "\n".toList ++ str_map_get r._headers "Content-Type".toList ++ "\n".toList ++
        str_map_get r._headers "Date".toList ++ "\n".toList ++
        (((signature_headers r).filter signed_entry).map
          (fun e => e.1 ++ ":".toList ++ e.2 ++ "\n".toList)).flatten ++ r._url := by
  unfold string_to_sign
  simp only
  rw [← fold_lines signed_entry]
  congr 2
  funext acc e
  simp [signed_entry]

theorem signed_entry_iff (k v : Str) :
    signed_entry (k, v) = true ↔ ("x-amz-".toList <+: k ∧ v ≠ []) := by
  unfold signed_entry
  rw [decide_eq_true_iff, List.prefix_iff_eq_take]
  constructor
  · rintro ⟨h1, h2⟩
    exact ⟨h2.symm, h1⟩
  · rintro ⟨h1, h2⟩
    exact ⟨h2, h1.symm⟩

/-- C9, as amended: the string `build_signature` signs for a request whose URL
was given to `set_url` is method, value of Content-MD5, value of Content-Type
and value of Date, each followed by a newline, then one line `name:value` for
every header whose name starts with `x-amz-` and whose value is not empty, in
ascending order of header name, then the path given to `set_url`, without
prefix and query string. -/
theorem canonical_string_to_sign (cfg : config) (r : request) (path query : Str)
    (hs : map_sorted r._headers) :
    ∃ L : List (Str × Str),
      string_to_sign (set_url cfg r path query) =
        r._method ++ "\n".toList ++ str_map_get r._headers "Content-MD5".toList ++
          "\n".toList ++ str_map_get r._headers "Content-Type".toList ++ "\n".toList ++
          str_map_get r._headers "Date".toList ++ "\n".toList ++
          (L.map (fun e => e.1 ++ ":".toList ++ e.2 ++ "\n".toList)).flatten ++ path ∧
      L.Pairwise (fun a b => str_lt a.1 b.1 = true) ∧
      ∀ k v, (k, v) ∈ L ↔
        (map_find k r._headers = some v ∧ "x-amz-".toList <+: k ∧ v ≠ []) := by
  have hsig : signature_headers (set_url cfg r path query) = signature_headers r := rfl
  have hsorted := signature_headers_sorted r hs
  refine ⟨(signature_headers r).filter signed_entry, ?_, ?_, ?_⟩
  · rw [string_to_sign_eq, hsig]
    rfl
  · exact List.Pairwise.sublist (List.filter_sublist _) hsorted
  · intro k v
    rw [List.mem_filter, signed_entry_iff]
    constructor
    · rintro ⟨hmem, hp, hv⟩
      have hf := map_find_of_mem _ (map_sorted_nodup _ hsorted) k v hmem
      exact ⟨(signature_headers_find r k v hv).mp hf, hp, hv⟩
    · rintro ⟨hf, hp, hv⟩
      exact ⟨mem_of_map_find _ _ _ ((signature_headers_find r k v hv).mpr hf), hp, hv⟩

/-- Witness for C9: the signed text of a PUT carrying the metadata headers of a
stored file. -/
theorem canonical_string_to_sign_witness :
    ∃ L : List (Str × Str),
      string_to_sign (set_url sample_config
          (set_meta_headers (init sample_request HTTP_PUT).2 stored_object)
          "/test-0/x".toList "acl".toList) =
        "PUT".toList ++ "\n".toList ++ [] ++ "\n".toList ++ [] ++ "\n".toList ++ [] ++
          "\n".toList ++
          (L.map (fun e => e.1 ++ ":".toList ++ e.2 ++ "\n".toList)).flatten ++
          "/test-0/x".toList ∧
      L.Pairwise (fun a b => str_lt a.1 b.1 = true) ∧
      ∀ k v, (k, v) ∈ L ↔
        (map_find k (set_meta_headers (init sample_request HTTP_PUT).2 stored_object)._headers =
            some v ∧ "x-amz-".toList <+: k ∧ v ≠ []) :=
  canonical_string_to_sign sample_config
    (set_meta_headers (init sample_request HTTP_PUT).2 stored_object)
    "/test-0/x".toList "acl".toList (by decide)

/-- Counterexample to C9 as stated: the header `x-amz-meta-s3fuse-md5` of a
file without md5 has an empty value; its name starts with `x-amz-`, yet the
signed text has no line for it. -/
theorem canonical_string_to_sign_counterexample :
    map_find HDR_MD5 put_request._headers = some [] ∧
    string_to_sign put_request =
      "PUT\n\n\n\nx-amz-meta-s3fuse-gid:1000\nx-amz-meta-s3fuse-mode:0644\nx-amz-meta-s3fuse-mtime:1300000000\nx-amz-meta-s3fuse-uid:0\n/test-0/x".toList ∧
    string_to_sign put_request ≠
      spec_canonical_string put_request._method put_request._headers "/test-0/x".toList := by
  decide

/-! ## Claim C5 -/

theorem cached_none_cases (c : object_cache) (path : Str) (h : cached c path = none) :
    map_find path c._cache_map = none ∨ map_find path c._cache_map = some none := by
  unfold cached at h
  cases hm : map_find path c._cache_map with
  | none => exact Or.inl rfl
  | some s =>
    rw [hm] at h
    cases s with
    | none => exact Or.inr rfl
    | some a => simp at h

theorem cached_some (c : object_cache) (path : Str) (a : Nat) (h : cached c path = some a) :
    map_find path c._cache_map = some (some a) := by
  unfold cached at h
  cases hm : map_find path c._cache_map with
  | none => rw [hm] at h; simp at h
  | some s =>
    rw [hm] at h
    cases s with
    | none => simp at h
    | some b =>
      simp at h
      rw [h]

theorem find_unmapped (c : object_cache) (now : Int) (path : Str) (h : cached c path = none) :
    (find c now path).1 = none ∧
    (find c now path).2._misses = c._misses + 1 ∧
    (find c now path).2._expiries = c._expiries ∧
    (find c now path).2._hits = c._hits := by
  rcases cached_none_cases c path h with hm | hm
  · simp [find, hm, cached, map_find_set_self]
  · simp [find, hm, cached]

/-- C5: `find(path)` adds one to exactly one of the counters misses, expiries,
hits and leaves the other two unchanged. With no object mapped it counts a miss
and returns empty; with an object mapped that has no `open_file` and
`expiry <= now` it counts an expiry, clears the slot and returns empty; in every
other case, in particular whenever the object has an `open_file`, it counts a
hit and returns the mapped object. -/
theorem find_counts (c : object_cache) (now : Int) (path : Str) :
    (cached c path = none →
      (find c now path).1 = none ∧
      (find c now path).2._misses = c._misses + 1 ∧
      (find c now path).2._expiries = c._expiries ∧
      (find c now path).2._hits = c._hits) ∧
    (∀ a, cached c path = some a →
      (c.heap a)._open_file = none → (c.heap a)._expiry ≤ now →
      (find c now path).1 = none ∧
      (find c now path).2._expiries = c._expiries + 1 ∧
      (find c now path).2._misses = c._misses ∧
      (find c now path).2._hits = c._hits ∧
      map_find path (find c now path).2._cache_map = some none) ∧
    (∀ a, cached c path = some a →
      ((c.heap a)._open_file ≠ none ∨ now < (c.heap a)._expiry) →
      (find c now path).1 = some a ∧
      (find c now path).2._hits = c._hits + 1 ∧
      (find c now path).2._misses = c._misses ∧
      (find c now path).2._expiries = c._expiries ∧
      cached (find c now path).2 path = some a) := by
  refine ⟨find_unmapped c now path, ?_, ?_⟩
  · intro a h hof hexp
    have hm := cached_some c path a h
    have hv : is_valid now (c.heap a) = false := by simp [is_valid, hexp]
    simp [find, hm, cached, hof, hv, map_find_set_self]
  · intro a h hor
    have hm := cached_some c path a h
    have hcond : ¬ ((c.heap a)._open_file = none ∧ is_valid now (c.heap a) = false) := by
      rintro ⟨h1, h2⟩
      rcases hor with hor | hor
      · exact hor h1
      · simp [is_valid] at h2
        omega
    simp [find, hm, cached, hcond]

/-- Witness for C5: a miss on an empty cache, an expiry of a stale entry, and a
hit on the same entry while it has an open file. -/
theorem find_counts_witness :
    ((find empty_cache 5 "x".toList).1 = none ∧
      (find empty_cache 5 "x".toList).2._misses = 0 + 1 ∧
      (find empty_cache 5 "x".toList).2._expiries = 0 ∧
      (find empty_cache 5 "x".toList).2._hits = 0) ∧
    ((find (get empty_cache 5 "x".toList (some stored_object)).2 1400000000 "x".toList).1 = none ∧
      (find (get empty_cache 5 "x".toList (some stored_object)).2 1400000000
        "x".toList).2._expiries = 0 + 1) ∧
    ((find (open_handle empty_cache 5 "x".toList (some stored_object) 0).2.2 1400000000
        "x".toList).1 = some 0 ∧
      (find (open_handle empty_cache 5 "x".toList (some stored_object) 0).2.2 1400000000
        "x".toList).2._hits = 0 + 1) :=
  ⟨(find_counts empty_cache 5 "x".toList).1 (by decide),
   ⟨((find_counts (get empty_cache 5 "x".toList (some stored_object)).2 1400000000
      "x".toList).2.1 0 (by decide) (by decide) (by decide)).1,
    ((find_counts (get empty_cache 5 "x".toList (some stored_object)).2 1400000000
      "x".toList).2.1 0 (by decide) (by decide) (by decide)).2.1⟩,
   ⟨((find_counts (open_handle empty_cache 5 "x".toList (some stored_object) 0).2.2 1400000000
      "x".toList).2.2 0 (by decide) (Or.inl (by decide))).1,
    ((find_counts (open_handle empty_cache 5 "x".toList (some stored_object) 0).2.2 1400000000
      "x".toList).2.2 0 (by decide) (Or.inl (by decide))).2.1⟩⟩

/-! ## Claim C4 -/

theorem open_handle_again (c : object_cache) (now : Int) (path : Str) (fetched : Option object)
    (init_result : Int) (a h n : Nat) (hinv : opened c path a h n) :
    (open_handle c now path fetched init_result).1 = 0 ∧
    (open_handle c now path fetched init_result).2.1 = some h ∧
    opened (open_handle c now path fetched init_result).2.2 path a h (n + 1) := by
  obtain ⟨h1, h2, h3, h4⟩ := hinv
  have hm := cached_some c path a h1
  have hfind : find c now path = (some a, { c with _hits := c._hits + 1 }) := by
    simp [find, hm, cached, h3]
  simp only [open_handle, get, hfind, h3, add_reference, heap_set_open_file, opened, cached]
  simp [hm, h2, h4]

theorem fetch_then_open (c : object_cache) (path : Str) (o : object) :
    let c1 := (__fetch c path (some o)).2
    (__fetch c path (some o)).1 = some c.next_address ∧
    cached c1 path = some c.next_address ∧
    (c1.heap c.next_address)._open_file = none ∧
    (c1.heap c.next_address)._path = path := by
  simp [__fetch, cached, map_find_set_self]

/-- After `get` returned an object without open file that is stored under
`path`, the rest of `open_handle` installs an `open_file` with one reference. -/
theorem open_handle_install (c1 : object_cache) (path : Str) (a : Nat)
    (hc : cached c1 path = some a) (hp : (c1.heap a)._path = path) :
    let c2 := heap_set_open_file { c1 with _next_handle := c1._next_handle + 1 } a
      (some { handle := c1._next_handle, ref_count := 0, cleanups := 0 })
    let c3 := { c2 with _handle_map := map_set nat_lt c1._next_handle a c2._handle_map }
    opened (heap_set_open_file c3 a
      (some (add_reference { handle := c1._next_handle, ref_count := 0, cleanups := 0 }).1))
      path a c1._next_handle 1 := by
  have hm := cached_some c1 path a hc
  simp [opened, heap_set_open_file, cached, hm, map_find_set_self, add_reference, hp]

theorem get_resolves (c : object_cache) (now : Int) (path : Str) (fetched : Option object)
    (a : Nat)
    (hclean : ∀ a, cached c path = some a →
      (c.heap a)._path = path ∧ (c.heap a)._open_file = none)
    (hget : (get c now path fetched).1 = some a) :
    cached (get c now path fetched).2 path = some a ∧
    ((get c now path fetched).2.heap a)._open_file = none ∧
    ((get c now path fetched).2.heap a)._path = path := by
  cases hc : cached c path with
  | none =>
    have hfind : (find c now path).1 = none := (find_unmapped c now path hc).1
    cases hf : find c now path with
    | mk r c1 =>
      rw [hf] at hfind
      simp only at hfind
      subst hfind
      cases fetched with
      | none => simp [get, hf, __fetch] at hget
      | some o =>
        simp only [get, hf] at hget ⊢
        have := fetch_then_open c1 path o
        simp only at this
        rw [this.1] at hget
        simp only [Option.some.injEq] at hget
        subst hget
        exact ⟨this.2.1, this.2.2.1, this.2.2.2⟩
  | some b =>
    obtain ⟨hp, hof⟩ := hclean b hc
    have hm := cached_some c path b hc
    by_cases hv : is_valid now (c.heap b) = false
    · have hfind : find c now path = (none, { c with
          _expiries := c._expiries + 1,
          _cache_map := map_set str_lt path none c._cache_map }) := by
        simp [find, hm, cached, hof, hv]
      cases fetched with
      | none => simp [get, hfind, __fetch] at hget
      | some o =>
        simp only [get, hfind] at hget ⊢
        have := fetch_then_open { c with
          _expiries := c._expiries + 1,
          _cache_map := map_set str_lt path none c._cache_map } path o
        simp only at this
        rw [this.1] at hget
        simp only [Option.some.injEq] at hget
        subst hget
        exact ⟨this.2.1, this.2.2.1, this.2.2.2⟩
    · have hfind : find c now path = (some b, { c with _hits := c._hits + 1 }) := by
        simp [find, hm, cached, hv]
      simp only [get, hfind, Option.some.injEq] at hget ⊢
      subst hget
      exact ⟨by simp [cached, hm], hof, hp⟩

theorem open_handle_first (c : object_cache) (now : Int) (path : Str) (fetched : Option object)
    (init_result : Int)
    (hclean : ∀ a, cached c path = some a →
      (c.heap a)._path = path ∧ (c.heap a)._open_file = none)
    (hret : (open_handle c now path fetched init_result).1 = 0) :
    ∃ a h, (open_handle c now path fetched init_result).2.1 = some h ∧
      opened (open_handle c now path fetched init_result).2.2 path a h 1 := by
  cases hg : get c now path fetched with
  | mk r c1 =>
    cases r with
    | none =>
      simp [open_handle, hg, ENOENT] at hret
    | some a =>
      have hres := get_resolves c now path fetched a hclean (by rw [hg])
      rw [hg] at hres
      simp only at hres
      obtain ⟨hc1, hof, hp⟩ := hres
      by_cases hi : init_result = 0
      · refine ⟨a, c1._next_handle, ?_, ?_⟩
        · simp [open_handle, hg, hof, hi, add_reference]
        · have := open_handle_install c1 path a hc1 hp
          simp only at this
          simpa [open_handle, hg, hof, hi] using this
      · simp [open_handle, hg, hof, hi] at hret

theorem open_handles_again (path : Str) (calls : List (Int × Option object × Int))
    (c : object_cache) (a h n : Nat) (hinv : opened c path a h n) :
    (open_handles path calls c).1 = List.replicate calls.length (0, some h) ∧
    opened (open_handles path calls c).2 path a h (n + calls.length) := by
  induction calls generalizing c n with
  | nil => exact ⟨rfl, hinv⟩
  | cons call rest ih =>
    obtain ⟨now, fetched, init_result⟩ := call
    obtain ⟨h1, h2, h3⟩ := open_handle_again c now path fetched init_result a h n hinv
    obtain ⟨ih1, ih2⟩ := ih _ (n + 1) h3
    simp only [open_handles, List.length_cons, List.replicate_succ]
    refine ⟨?_, ?_⟩
    · rw [ih1, h1, h2]
    · have : n + (rest.length + 1) = n + 1 + rest.length := by omega
      rw [this]
      exact ih2

theorem release_handle_shared (c : object_cache) (path : Str) (a h n : Nat)
    (hinv : opened c path a h (n + 2)) :
    ∃ c1, release_handle c h = some (0, c1) ∧ opened c1 path a h (n + 1) := by
  obtain ⟨h1, h2, h3, h4⟩ := hinv
  have hm := cached_some c path a h1
  refine ⟨heap_set_open_file c a (some { handle := h, ref_count := n + 1, cleanups := 0 }), ?_, ?_⟩
  · simp [release_handle, h2, h3, release]
  · simp [opened, heap_set_open_file, cached, hm, h2, h4]

theorem release_handle_last (c : object_cache) (path : Str) (a h : Nat)
    (hinv : opened c path a h 1) :
    ∃ c1, release_handle c h = some (0, c1) ∧
      map_find path c1._cache_map = none ∧
      map_find h c1._handle_map = none ∧
      (c1.heap a)._open_file = some { handle := h, ref_count := 0, cleanups := 1 } := by
  obtain ⟨h1, h2, h3, h4⟩ := hinv
  simp only [release_handle, h2, h3, release, Nat.sub_self, decide_True, if_true]
  refine ⟨_, rfl, ?_, ?_, ?_⟩
  · simp [heap_set_open_file, h4, map_find_erase_self]
  · simp [heap_set_open_file, map_find_erase_self]
  · simp [heap_set_open_file, cleanup]

theorem release_handles_shared (path : Str) (a h j : Nat) (c : object_cache) (n : Nat)
    (hinv : opened c path a h (n + 1 + j)) :
    ∃ c1, release_handles h j c = some c1 ∧ opened c1 path a h (n + 1) := by
  induction j generalizing c with
  | zero => exact ⟨c, rfl, hinv⟩
  | succ j ih =>
    have hinv2 : opened c path a h (n + j + 2) := by
      have : n + 1 + (j + 1) = n + j + 2 := by omega
      rw [this] at hinv
      exact hinv
    obtain ⟨c1, hr, ho⟩ := release_handle_shared c path a h (n + j) hinv2
    have ho2 : opened c1 path a h (n + 1 + j) := by
      have : n + j + 1 = n + 1 + j := by omega
      rw [this] at ho
      exact ho
    obtain ⟨c2, hr2, ho3⟩ := ih c1 ho2
    refine ⟨c2, ?_, ho3⟩
    simp [release_handles, hr, hr2]

theorem release_handles_append (h j k : Nat) (c c1 c2 : object_cache)
    (h1 : release_handles h j c = some c1) (h2 : release_handles h k c1 = some c2) :
    release_handles h (j + k) c = some c2 := by
  induction j generalizing c with
  | zero =>
    simp only [release_handles, Option.some.injEq] at h1
    subst h1
    simpa using h2
  | succ j ih =>
    have hjk : j + 1 + k = (j + k) + 1 := by omega
    rw [hjk]
    simp only [release_handles] at h1 ⊢
    cases hr : release_handle c h with
    | none => rw [hr] at h1; simp at h1
    | some res =>
      obtain ⟨ret, c3⟩ := res
      rw [hr] at h1
      simp only at h1 ⊢
      by_cases hz : ret = 0
      · rw [if_pos hz] at h1 ⊢
        exact ih c3 h1
      · rw [if_neg hz] at h1
        simp at h1

/-- C4 (sequential model, `open_file` a reference counter whose `release()`
reports reaching zero): start from a cache in which `path` has no open file (a
cached object for it is stored under its own path). After `k >= 1` successful
`open_handle(path)` calls every opener got the same handle `h`, the path is in
`cache_map` and `h` in `handle_map`, both leading to one object whose
`open_file` has `k` references. After fewer than `k` calls of
`release_handle(h)` the object is still in both maps and `cleanup()` has not
run; after exactly `k` calls `cleanup()` has run once and the path is absent
from `cache_map` and `h` from `handle_map`. -/
theorem open_release_lifecycle (c : object_cache) (path : Str)
    (calls : List (Int × Option object × Int))
    (hk : 1 ≤ calls.length)
    (hclean : ∀ a, cached c path = some a →
      (c.heap a)._path = path ∧ (c.heap a)._open_file = none)
    (hok : ∀ r ∈ (open_handles path calls c).1, r.1 = 0) :
    ∃ a h,
      (open_handles path calls c).1 = List.replicate calls.length (0, some h) ∧
      opened (open_handles path calls c).2 path a h calls.length ∧
      (∀ j, j < calls.length →
        ∃ cj, release_handles h j (open_handles path calls c).2 = some cj ∧
          opened cj path a h (calls.length - j)) ∧
      (∃ cz, release_handles h calls.length (open_handles path calls c).2 = some cz ∧
        map_find path cz._cache_map = none ∧
        map_find h cz._handle_map = none ∧
        (cz.heap a)._open_file = some { handle := h, ref_count := 0, cleanups := 1 }) := by
  cases calls with
  | nil => simp at hk
  | cons call rest =>
    obtain ⟨now, fetched, init_result⟩ := call
    have hret : (open_handle c now path fetched init_result).1 = 0 := by
      apply hok ((open_handle c now path fetched init_result).1,
        (open_handle c now path fetched init_result).2.1)
      simp [open_handles]
    obtain ⟨a, h, hh, hinv⟩ := open_handle_first c now path fetched init_result hclean hret
    obtain ⟨hrs, hopen⟩ := open_handles_again path rest _ a h 1 hinv
    have hstate : (open_handles path ((now, fetched, init_result) :: rest) c).2 =
        (open_handles path rest (open_handle c now path fetched init_result).2.2).2 := rfl
    have hlen : ((now, fetched, init_result) :: rest).length = 1 + rest.length := by
      simp [Nat.add_comm]
    refine ⟨a, h, ?_, ?_, ?_, ?_⟩
    · simp only [open_handles, List.length_cons, List.replicate_succ]
      rw [hrs, hret, hh]
    · rw [hstate, hlen]
      exact hopen
    · intro j hj
      rw [hstate, hlen] at *
      have hsplit : 1 + rest.length = (rest.length - j) + 1 + j := by omega
      have hopen2 := hopen
      rw [hsplit] at hopen2
      obtain ⟨cj, hr, ho⟩ := release_handles_shared path a h j _ (rest.length - j) hopen2
      refine ⟨cj, hr, ?_⟩
      have : 1 + rest.length - j = rest.length - j + 1 := by omega
      rw [this]
      exact ho
    · rw [hstate, hlen]
      have hsplit : 1 + rest.length = 0 + 1 + rest.length := by omega
      have hopen2 := hopen
      rw [hsplit] at hopen2
      obtain ⟨cj, hr, ho⟩ := release_handles_shared path a h rest.length _ 0 hopen2
      obtain ⟨cz, hz, hz1, hz2, hz3⟩ := release_handle_last cj path a h ho
      refine ⟨cz, ?_, hz1, hz2, hz3⟩
      rw [Nat.add_comm 1 rest.length]
      exact release_handles_append h rest.length 1 _ cj cz hr (by simp [release_handles, hz])

/-- Witness for C4: two opens of `x` on an empty cache, then two releases. -/
theorem open_release_lifecycle_witness :
    ∃ a h,
      (open_handles "x".toList two_opens empty_cache).1 =
        List.replicate two_opens.length (0, some h) ∧
      opened (open_handles "x".toList two_opens empty_cache).2 "x".toList a h two_opens.length ∧
      (∀ j, j < two_opens.length →
        ∃ cj, release_handles h j (open_handles "x".toList two_opens empty_cache).2 = some cj ∧
          opened cj "x".toList a h (two_opens.length - j)) ∧
      (∃ cz, release_handles h two_opens.length
          (open_handles "x".toList two_opens empty_cache).2 = some cz ∧
        map_find "x".toList cz._cache_map = none ∧
        map_find h cz._handle_map = none ∧
        (cz.heap a)._open_file = some { handle := h, ref_count := 0, cleanups := 1 }) :=
  open_release_lifecycle empty_cache "x".toList two_opens (by decide)
    (fun a h => absurd ((show cached empty_cache "x".toList = none by decide).symm.trans h)
      (by simp))
    (by decide)

/-! ## Claim C6 -/

theorem response_etag (u : util) (now : Int) (p : object) (req : request) :
    (request_process_response u now p req)._etag = p._etag := by
  unfold request_process_response
  simp only
  split <;> rfl

/-- A field that one header sets and every other header keeps holds, after the
header lines are ingested, the value of the last line with that name. -/
theorem ingest_last (g : object → Str) (K : Str)
    (hset : ∀ o v, g (request_process_header o K v) = v)
    (hkeep : ∀ o k v, k ≠ K → g (request_process_header o k v) = g o)
    (hs : List (Str × Str)) (o : object) :
    g (hs.foldl (fun a e => request_process_header a e.1 e.2) o) =
      hs.foldl (fun acc e => if e.1 = K then e.2 else acc) (g o) := by
  induction hs generalizing o with
  | nil => rfl
  | cons e t ih =>
    rw [List.foldl_cons, List.foldl_cons, ih]
    by_cases h : e.1 = K
    · subst h
      rw [if_pos rfl, hset]
    · rw [if_neg h, hkeep o e.1 e.2 h]

/-- The md5 ingested by a populate sequence is the value of its last
`x-amz-meta-s3fuse-md5` line. -/
theorem ingested_md5 (target : object) (lines : List (Str × Str)) :
    (lines.foldl (fun a e => request_process_header a e.1 e.2) (request_init target))._md5 =
      header_value HDR_MD5 lines :=
  ingest_last (fun o => o._md5) HDR_MD5 header_set_md5 header_keep_md5 lines
    (request_init target)

/-- The ETag ingested by a populate sequence is the value of its last `ETag`
line. -/
theorem ingested_etag (target : object) (lines : List (Str × Str)) :
    (lines.foldl (fun a e => request_process_header a e.1 e.2) (request_init target))._etag =
      header_value HDR_ETAG lines :=
  ingest_last (fun o => o._etag) HDR_ETAG header_set_etag header_keep_etag lines
    (request_init target)

/-- C11, as amended: in every populate sequence (`request_init`,
`request_process_header`*, `request_process_response` with code 200 and a
non-empty URL) whose `ETag` header value is not a valid MD5, the md5 after
finalisation is the value of the `x-amz-meta-s3fuse-md5` header when that is a
valid MD5, and empty otherwise; the ETag of the object is the header value, and
the md5 is never adopted from it: a non-empty md5 differs from the ETag. -/
theorem multipart_etag_md5 (u : util) (now : Int) (target : object)
    (lines : List (Str × Str)) (req : request)
    (hurl : req._url ≠ []) (hcode : req._response_code = 200)
    (hetag : u.is_valid_md5 (header_value HDR_ETAG lines) = false) :
    (populate u now target lines req)._md5 =
      (if u.is_valid_md5 (header_value HDR_MD5 lines) = true
        then header_value HDR_MD5 lines else []) ∧
    (populate u now target lines req)._etag = header_value HDR_ETAG lines ∧
    ((populate u now target lines req)._md5 ≠ [] →
      (populate u now target lines req)._md5 ≠ header_value HDR_ETAG lines) := by
  have hm := ingested_md5 target lines
  have he := ingested_etag target lines
  generalize hp : lines.foldl (fun a e => request_process_header a e.1 e.2)
    (request_init target) = p at hm he
  have hmd5 := (response_fields u now p req hurl hcode).2.2.2.1
  have he2 := response_etag u now p req
  unfold populate
  rw [hp, hmd5, he2, he, hm]
  simp only [hetag, Bool.false_eq_true, and_false, if_false]
  refine ⟨trivial, trivial, ?_⟩
  by_cases hv : u.is_valid_md5 (header_value HDR_MD5 lines) = true
  · simp only [hv, if_true]
    intro _ heq
    rw [heq, hetag] at hv
    exact absurd hv (by simp)
  · simp [hv]

/-- Witness for C11: the header lines of a multipart upload, whose ETag is not a
digest and whose `x-amz-meta-s3fuse-md5` line carries one: the md5 after
finalisation is the digest of that line; and with the ETag line alone the md5 is
empty. -/
theorem multipart_etag_md5_witness :
    header_value HDR_MD5 multipart_lines = sample_digest ∧
    (populate sample_util 1300000200 sample_object multipart_lines answered_request)._md5 =
      sample_digest ∧
    (populate sample_util 1300000200 sample_object [(HDR_ETAG, multipart_etag)]
      answered_request)._md5 = [] :=
  ⟨by decide,
   ((multipart_etag_md5 sample_util 1300000200 sample_object multipart_lines
      answered_request (by decide) (by decide) (by decide)).1).trans (by decide),
   ((multipart_etag_md5 sample_util 1300000200 sample_object [(HDR_ETAG, multipart_etag)]
      answered_request (by decide) (by decide) (by decide)).1).trans (by decide)⟩

/-- Counterexample to C11 as stated: the ETag of a multipart upload is not a
valid MD5, the reserved md5 header carries a valid one, and the md5 after
finalisation is that digest, not the empty string. -/
theorem multipart_etag_md5_counterexample :
    sample_util.is_valid_md5 multipart_etag = false ∧
    (populate sample_util 1300000200 sample_object multipart_lines answered_request)._etag =
      multipart_etag ∧
    (populate sample_util 1300000200 sample_object multipart_lines answered_request)._md5 =
      sample_digest ∧
    (populate sample_util 1300000200 sample_object multipart_lines answered_request)._md5 ≠ [] := by
  decide

/-- C12: whatever the prior object state and whatever header lines are ingested,
after `request_process_response` has run on a 200 response with a non-empty URL
the md5 is the empty string or a string `is_valid_md5` accepts, and `md5_etag`
equals `etag`. -/
theorem md5_well_formed (u : util) (now : Int) (o : object) (lines : List (Str × Str))
    (req : request) (hurl : req._url ≠ []) (hcode : req._response_code = 200) :
    ((request_process_response u now
        (lines.foldl (fun a e => request_process_header a e.1 e.2) o) req)._md5 = [] ∨
      u.is_valid_md5 (request_process_response u now
        (lines.foldl (fun a e => request_process_header a e.1 e.2) o) req)._md5 = true) ∧
    (request_process_response u now
        (lines.foldl (fun a e => request_process_header a e.1 e.2) o) req)._md5_etag =
      (request_process_response u now
        (lines.foldl (fun a e => request_process_header a e.1 e.2) o) req)._etag := by
  generalize lines.foldl (fun a e => request_process_header a e.1 e.2) o = p
  obtain ⟨_, _, _, hmd5, _, hme⟩ := response_fields u now p req hurl hcode
  rw [hmd5, hme, response_etag]
  refine ⟨?_, rfl⟩
  by_cases he : u.is_valid_md5 p._etag = true <;> by_cases hm : u.is_valid_md5 p._md5 = true <;>
    by_cases hme2 : p._md5_etag = p._etag <;> by_cases h0 : p._md5 = [] <;> simp_all

/-- Witness for C12: an md5 header that is not a digest is dropped, and the
digest of the ETag is adopted. -/
theorem md5_well_formed_witness :
    ((request_process_response sample_util 1300000200
        ([(HDR_MD5, "junk".toList), (HDR_ETAG, sample_digest)].foldl
          (fun a e => request_process_header a e.1 e.2) stored_object) answered_request)._md5 = [] ∨
      sample_util.is_valid_md5 (request_process_response sample_util 1300000200
        ([(HDR_MD5, "junk".toList), (HDR_ETAG, sample_digest)].foldl
          (fun a e => request_process_header a e.1 e.2) stored_object) answered_request)._md5 =
        true) ∧
    (request_process_response sample_util 1300000200
        ([(HDR_MD5, "junk".toList), (HDR_ETAG, sample_digest)].foldl
          (fun a e => request_process_header a e.1 e.2) stored_object) answered_request)._md5_etag =
      (request_process_response sample_util 1300000200
        ([(HDR_MD5, "junk".toList), (HDR_ETAG, sample_digest)].foldl
          (fun a e => request_process_header a e.1 e.2) stored_object) answered_request)._etag :=
  md5_well_formed sample_util 1300000200 stored_object
    [(HDR_MD5, "junk".toList), (HDR_ETAG, sample_digest)] answered_request
    (by decide) (by decide)

/-- C19: at finalisation (200 response, non-empty URL) of an object with stored
mtime `t`, stored `mtime_etag` `e1`, ETag `e` and server last-modified `L`, the
resulting mtime is `L` when `e1 ≠ e` and `L > t`, and `t` otherwise; in both
cases `mtime_etag` afterwards equals `e`. -/
theorem mtime_reconciliation (u : util) (now : Int) (p : object) (req : request)
    (hurl : req._url ≠ []) (hcode : req._response_code = 200) :
    ((p._mtime_etag ≠ p._etag ∧ req._last_modified > p._stat.st_mtime) →
      (request_process_response u now p req)._stat.st_mtime = req._last_modified) ∧
    (¬ (p._mtime_etag ≠ p._etag ∧ req._last_modified > p._stat.st_mtime) →
      (request_process_response u now p req)._stat.st_mtime = p._stat.st_mtime) ∧
    (request_process_response u now p req)._mtime_etag = p._etag ∧
    (request_process_response u now p req)._mtime_etag =
      (request_process_response u now p req)._etag := by
  obtain ⟨_, _, hmt, _, hme, _⟩ := response_fields u now p req hurl hcode
  rw [hmt, hme, response_etag]
  refine ⟨fun h => by rw [if_pos h], fun h => by rw [if_neg h], rfl, rfl⟩

/-- Witness for C19: an object changed by someone else (new ETag, newer
last-modified) takes the server time; with the ETag unchanged it keeps its
own. -/
theorem mtime_reconciliation_witness :
    (request_process_response sample_util 1300000200
      { stored_object with _etag := multipart_etag } answered_request)._stat.st_mtime =
        1300000100 ∧
    (request_process_response sample_util 1300000200 stored_object
      answered_request)._stat.st_mtime = 1300000000 :=
  ⟨(mtime_reconciliation sample_util 1300000200 { stored_object with _etag := multipart_etag }
      answered_request (by decide) (by decide)).1 (by decide),
   (mtime_reconciliation sample_util 1300000200 stored_object answered_request
      (by decide) (by decide)).2.1 (by decide)⟩

/-! ## Claims C15, C16 -/

theorem init_method (r : request) (m : http_method) (name : Str)
    (hc : r._canceled = false) (hm : http_method_name m = some name) :
    (init r m).2._method = name :=
  (init_supported r m name hc hm).2.2.2.2.2.2.2.2

theorem set_input_data_fails_iff (r : request) (s : Str) :
    (set_input_data r s).1 ≠ none ↔
      (r._method ≠ "PUT".toList ∧ r._method ≠ "POST".toList ∧ s ≠ []) := by
  unfold set_input_data
  simp only
  by_cases h1 : r._method = "PUT".toList
  · rw [if_pos h1]
    simp [h1]
  · rw [if_neg h1]
    by_cases h2 : r._method = "POST".toList
    · rw [if_pos h2]
      simp [h2]
    · rw [if_neg h2]
      by_cases h3 : s = []
      · rw [if_neg (by simpa using h3)]
        simp [h3]
      · rw [if_pos h3]
        simp only [ne_eq, reduceCtorEq, not_false_eq_true, true_iff]
        exact ⟨h1, h2, h3⟩

theorem set_input_fd_fails_iff (r : request) (fd : Int) (size : Nat) (offset : Int)
    (hfd : fd ≠ -1) :
    (set_input_fd r fd size offset).1 ≠ none ↔
      (r._method ≠ "PUT".toList ∧ r._method ≠ "POST".toList ∧ size ≠ 0) := by
  unfold set_input_fd
  simp only [hfd, false_and, if_false]
  by_cases h1 : r._method = "PUT".toList
  · rw [if_pos h1]
    simp [h1]
  · rw [if_neg h1]
    by_cases h2 : r._method = "POST".toList
    · rw [if_pos h2]
      simp [h2]
    · rw [if_neg h2]
      by_cases h3 : size = 0
      · rw [if_neg (by simpa using h3)]
        simp [h3]
      · rw [if_pos h3]
        simp only [ne_eq, reduceCtorEq, not_false_eq_true, true_iff]
        exact ⟨h1, h2, h3⟩

/-- C15: on a request initialised with method `m`, `set_input_data(s)` throws
exactly when `m` is neither PUT nor POST and `s` is not empty, and for a valid
descriptor `set_input_fd(fd, size, offset)` throws exactly when `m` is neither
PUT nor POST and `size` is not zero; an empty body is accepted on every
method. -/
theorem upload_legality (r : request) (m : http_method) (name : Str)
    (hc : r._canceled = false) (hm : http_method_name m = some name) :
    (∀ s, (set_input_data (init r m).2 s).1 ≠ none ↔
      (m ≠ HTTP_PUT ∧ m ≠ HTTP_POST ∧ s ≠ [])) ∧
    (∀ fd size offset, fd ≠ -1 →
      ((set_input_fd (init r m).2 fd size offset).1 ≠ none ↔
        (m ≠ HTTP_PUT ∧ m ≠ HTTP_POST ∧ size ≠ 0))) ∧
    (set_input_data (init r m).2 []).1 = none ∧
    (∀ fd offset, fd ≠ -1 → (set_input_fd (init r m).2 fd 0 offset).1 = none) := by
  have hname := init_method r m name hc hm
  have hput : (init r m).2._method ≠ "PUT".toList ↔ m ≠ HTTP_PUT := by
    rw [hname]
    cases m <;> simp only [http_method_name, Option.some.injEq, reduceCtorEq] at hm <;>
      subst hm <;> decide
  have hpost : (init r m).2._method ≠ "POST".toList ↔ m ≠ HTTP_POST := by
    rw [hname]
    cases m <;> simp only [http_method_name, Option.some.injEq, reduceCtorEq] at hm <;>
      subst hm <;> decide
  refine ⟨?_, ?_, ?_, ?_⟩
  · intro s
    rw [set_input_data_fails_iff, hput, hpost]
  · intro fd size offset hfd
    rw [set_input_fd_fails_iff _ _ _ _ hfd, hput, hpost]
  · by_contra h
    exact ((set_input_data_fails_iff _ _).mp h).2.2 rfl
  · intro fd offset hfd
    by_contra h
    exact ((set_input_fd_fails_iff _ _ _ _ hfd).mp h).2.2 rfl

/-- Witness for C15: a body on a GET is refused, the same body on a PUT is
taken. -/
theorem upload_legality_witness :
    (set_input_data (init sample_request HTTP_GET).2 "payload".toList).1 ≠ none ∧
    ¬ ((set_input_data (init sample_request HTTP_PUT).2 "payload".toList).1 ≠ none) ∧
    (set_input_fd (init sample_request HTTP_HEAD).2 3 10 0).1 ≠ none ∧
    (set_input_data (init sample_request HTTP_DELETE).2 []).1 = none :=
  ⟨((upload_legality sample_request HTTP_GET "GET".toList (by decide) (by decide)).1
      "payload".toList).mpr (by decide),
   fun h => absurd (((upload_legality sample_request HTTP_PUT "PUT".toList (by decide)
      (by decide)).1 "payload".toList).mp h).1 (by decide),
   ((upload_legality sample_request HTTP_HEAD "HEAD".toList (by decide) (by decide)).2.1
      3 10 0 (by decide)).mpr (by decide),
   (upload_legality sample_request HTTP_DELETE "DELETE".toList (by decide) (by decide)).2.2.1⟩

/-- C16, as amended: `set_url(path, query)` hands the HTTP client prefix + path
when the query is empty, prefix + path + `?` + query when the query is not
empty and prefix + path contains no `?`, and prefix + path + `&` + query when
the query is not empty and prefix + path contains a `?`; with a prefix that has
no `?` the choice is made by whether the path contains one. The URL the request
keeps for signing is the path alone. -/
theorem url_composition (cfg : config) (r : request) (path query : Str) :
    (query = [] → (set_url cfg r path query)._curl.url = cfg.url_prefix ++ path) ∧
    (query ≠ [] → '?' ∉ cfg.url_prefix ++ path →
      (set_url cfg r path query)._curl.url = cfg.url_prefix ++ path ++ "?".toList ++ query) ∧
    (query ≠ [] → '?' ∈ cfg.url_prefix ++ path →
      (set_url cfg r path query)._curl.url = cfg.url_prefix ++ path ++ "&".toList ++ query) ∧
    ('?' ∉ cfg.url_prefix → ('?' ∈ cfg.url_prefix ++ path ↔ '?' ∈ path)) ∧
    (set_url cfg r path query)._url = path := by
  refine ⟨?_, ?_, ?_, ?_, rfl⟩
  · intro h
    simp [set_url, h]
  · intro h1 h2
    simp only [set_url, ne_eq, h1, not_false_eq_true, if_true, h2]
  · intro h1 h2
    simp only [set_url, ne_eq, h1, not_false_eq_true, if_true, h2, not_true_eq_false, if_false]
  · intro h
    simp [List.mem_append, h]

/-- Witness for C16: a listing query on the bucket URL, and a second
parameter on a path that already has one. -/
theorem url_composition_witness :
    (set_url sample_config sample_request "/test-0".toList "marker=".toList)._curl.url =
      "https://s3.amazonaws.com".toList ++ "/test-0".toList ++ "?".toList ++ "marker=".toList ∧
    (set_url sample_config sample_request "/test-0/x?acl".toList "v=1".toList)._curl.url =
      "https://s3.amazonaws.com".toList ++ "/test-0/x?acl".toList ++ "&".toList ++ "v=1".toList :=
  ⟨(url_composition sample_config sample_request "/test-0".toList "marker=".toList).2.1
      (by decide) (by decide),
   (url_composition sample_config sample_request "/test-0/x?acl".toList "v=1".toList).2.2.1
      (by decide) (by decide)⟩

/-- Counterexample to C16 as stated: the path has no `?` and the query is not
empty, but the prefix has a `?`, and the query is appended with `&`. -/
theorem url_composition_counterexample :
    '?' ∉ "/test-0".toList ∧
    (set_url forwarding_config sample_request "/test-0".toList "marker=".toList)._curl.url =
      "http://gateway/fetch?target=/test-0&marker=".toList ∧
    (set_url forwarding_config sample_request "/test-0".toList "marker=".toList)._curl.url ≠
      forwarding_config.url_prefix ++ "/test-0".toList ++ "?".toList ++ "marker=".toList := by
  decide

/-! ## Claim C13 -/

/-- C13: when the response has a code other than 200, or its XML does not parse,
or a required XPath query fails (IsTruncated, Key, Prefix when requested,
NextMarker when needed), `read` returns `-EIO` and the marker of the reader is
the one it had before the call. -/
theorem read_failure_keeps_marker (u : util) (next_marker_supported : Bool)
    (server : Str → listing_response) (b : bucket_reader) (ks : List Str)
    (prefixes : Option (List Str)) (htr : b._truncated = true)
    (hfail : listing_failure next_marker_supported prefixes.isSome (server (query_string u b))) :
    ∃ res, read u next_marker_supported server b (some ks) prefixes = some res ∧
      res.ret = - EIO ∧ res.reader._marker = b._marker := by
  unfold read
  simp only [htr, Bool.not_true, Bool.false_eq_true, if_false]
  by_cases hcode : (server (query_string u b)).code ≠ 200
  · rw [if_pos hcode]
    exact ⟨_, rfl, rfl, rfl⟩
  · rw [if_neg hcode]
    unfold listing_failure at hfail
    rcases hfail with hfail | hfail
    · exact absurd hfail hcode
    · cases hdoc : (server (query_string u b)).doc with
      | none => exact ⟨_, rfl, rfl, rfl⟩
      | some doc =>
        rw [hdoc] at hfail
        simp only at hfail ⊢
        cases htemp : doc.is_truncated with
        | none => exact ⟨_, rfl, rfl, rfl⟩
        | some temp =>
          simp only
          by_cases hpre : prefixes.isSome = true ∧ doc.prefixes.2 = false
          · rw [if_pos hpre]
            exact ⟨_, rfl, rfl, rfl⟩
          · rw [if_neg hpre]
            by_cases hkeys : doc.keys.2 = false
            · rw [if_pos hkeys]
              exact ⟨_, rfl, rfl, rfl⟩
            · rw [if_neg hkeys]
              rcases hfail with hfail | hfail | hfail | ⟨hft, hfs, hfn⟩
              · rw [htemp] at hfail
                exact absurd hfail (by simp)
              · exact absurd hfail hpre
              · exact absurd hfail hkeys
              · rw [htemp, Option.some.injEq] at hft
                subst hft
                subst hfs
                simp only [decide_True, if_true, hfn]
                exact ⟨_, rfl, rfl, rfl⟩

/-- Witness for C13: a truncated page without the `NextMarker` element, on a
service that supports it. -/
theorem read_failure_keeps_marker_witness :
    ∃ res, read sample_util true (fun _ => page_without_next_marker) midway_reader
        (some []) none = some res ∧
      res.ret = - EIO ∧ res.reader._marker = midway_reader._marker :=
  read_failure_keeps_marker sample_util true (fun _ => page_without_next_marker)
    midway_reader [] none (by decide)
    (Or.inr (Or.inr (Or.inr (Or.inr ⟨by decide, by decide, by decide⟩))))

/-! ## Claim C18 -/

theorem takeWhile_stop {α : Type} (p : α → Bool) (l1 : List α) (c : α) (l2 : List α)
    (h1 : ∀ x ∈ l1, p x = true) (hc : p c = false) : (l1 ++ c :: l2).takeWhile p = l1 := by
  induction l1 with
  | nil => simp [List.takeWhile, hc]
  | cons x t ih =>
    have hx : p x = true := h1 x (List.mem_cons_self _ _)
    simp only [List.cons_append, List.takeWhile_cons, hx, if_true]
    rw [ih (fun y hy => h1 y (List.mem_cons_of_mem _ hy))]

theorem dropWhile_stop {α : Type} (p : α → Bool) (l1 : List α) (c : α) (l2 : List α)
    (h1 : ∀ x ∈ l1, p x = true) (hc : p c = false) : (l1 ++ c :: l2).dropWhile p = c :: l2 := by
  induction l1 with
  | nil => simp [List.dropWhile, hc]
  | cons x t ih =>
    have hx : p x = true := h1 x (List.mem_cons_self _ _)
    simp only [List.cons_append, List.dropWhile_cons, hx, if_true]
    exact ih (fun y hy => h1 y (List.mem_cons_of_mem _ hy))

theorem takeWhile_all {α : Type} (p : α → Bool) (l : List α) (h : ∀ x ∈ l, p x = true) :
    l.takeWhile p = l := List.takeWhile_eq_self_iff.mpr h

/-- The pieces `process_header` cuts a well-formed line into. -/
theorem header_line_pieces (key rest : Str)
    (hkey : ∀ c ∈ key, c ≠ ':' ∧ c ≠ '\r' ∧ c ≠ '\n' ∧ c ≠ Char.ofNat 0)
    (hrest : ∀ c ∈ rest, c ≠ '\r' ∧ c ≠ '\n' ∧ c ≠ Char.ofNat 0) :
    cut_at '\r' (cut_at '\n' (c_str (key ++ ':' :: rest ++ ['\r', '\n']))) = key ++ ':' :: rest ∧
    cut_at ':' (key ++ ':' :: rest) = key ∧
    ((key ++ ':' :: rest).dropWhile (fun x => decide (x ≠ ':'))).drop 1 = rest := by
  have hline : ∀ c ∈ key ++ ':' :: rest, c ≠ '\r' ∧ c ≠ '\n' ∧ c ≠ Char.ofNat 0 := by
    intro c hc
    rw [List.mem_append, List.mem_cons] at hc
    rcases hc with hc | hc | hc
    · exact ⟨(hkey c hc).2.1, (hkey c hc).2.2.1, (hkey c hc).2.2.2⟩
    · rw [hc]; decide
    · exact hrest c hc
  refine ⟨?_, ?_, ?_⟩
  · have h1 : c_str (key ++ ':' :: rest ++ ['\r', '\n']) = key ++ ':' :: rest ++ ['\r', '\n'] := by
      unfold c_str
      apply takeWhile_all
      intro c hc
      rw [List.mem_append] at hc
      rcases hc with hc | hc
      · simpa using (hline c hc).2.2
      · simp only [List.mem_cons, List.mem_singleton, List.not_mem_nil, or_false] at hc
        rcases hc with hc | hc <;> rw [hc] <;> decide
    have h2 : cut_at '\n' (key ++ ':' :: rest ++ ['\r', '\n']) = key ++ ':' :: rest ++ ['\r'] := by
      unfold cut_at
      have : key ++ ':' :: rest ++ ['\r', '\n'] = (key ++ ':' :: rest ++ ['\r']) ++ '\n' :: [] := by
        simp
      rw [this]
      apply takeWhile_stop
      · intro c hc
        rw [List.mem_append] at hc
        rcases hc with hc | hc
        · simpa using (hline c hc).2.1
        · simp only [List.mem_singleton] at hc
          rw [hc]; decide
      · decide
    have h3 : cut_at '\r' (key ++ ':' :: rest ++ ['\r']) = key ++ ':' :: rest := by
      unfold cut_at
      apply takeWhile_stop
      · intro c hc
        simpa using (hline c hc).1
      · decide
    rw [h1, h2, h3]
  · unfold cut_at
    apply takeWhile_stop
    · intro c hc
      simpa using (hkey c hc).1
    · decide
  · rw [dropWhile_stop]
    · rfl
    · intro c hc
      simpa using (hkey c hc).1
    · decide

/-- C18: on a request that is not canceled, a NUL-terminated header line
`key:` + optional single space + `value` + CR LF (key without `:`, CR, LF;
value without CR, LF; neither with an interior NUL, the line being a C string;
the value may be empty) makes the header callback return the full byte count
and hand exactly `(key, value)` to `request_process_header` of the target
object when one is set, and store `response_headers[key] = value` otherwise.
One leading space only is removed: with the space present the value may itself
begin with spaces. A line without `:` changes nothing and returns the full byte
count; on a canceled request the callback returns 0 and changes nothing. -/
theorem header_line_parsing (req : request) (key value : Str) (space : Bool)
    (hkey : ∀ c ∈ key, c ≠ ':' ∧ c ≠ '\r' ∧ c ≠ '\n' ∧ c ≠ Char.ofNat 0)
    (hval : ∀ c ∈ value, c ≠ '\r' ∧ c ≠ '\n' ∧ c ≠ Char.ofNat 0)
    (hsp : space = false → value.head? ≠ some ' ') :
    (req._canceled = false →
      process_header req
          (key ++ ':' :: ((if space then [' '] else []) ++ value) ++ ['\r', '\n']) true =
        ((key ++ ':' :: ((if space then [' '] else []) ++ value) ++ ['\r', '\n']).length,
          match req._target_object with
          | some obj =>
            { req with _target_object := some (request_process_header obj key value) }
          | none =>
            { req with _response_headers := map_set str_lt key value req._response_headers })) ∧
    (∀ data terminated, req._canceled = false → ':' ∉ data →
      process_header req data terminated = (data.length, req)) ∧
    (∀ data terminated, req._canceled = true →
      process_header req data terminated = (0, req)) := by
  refine ⟨?_, ?_, ?_⟩
  · intro hc
    have hrest : ∀ c ∈ (if space then [' '] else []) ++ value,
        c ≠ '\r' ∧ c ≠ '\n' ∧ c ≠ Char.ofNat 0 := by
      intro c hm
      rw [List.mem_append] at hm
      rcases hm with hm | hm
      · cases space
        · simp at hm
        · simp only [if_true, List.mem_singleton] at hm
          rw [hm]; decide
      · exact hval c hm
    obtain ⟨h1, h2, h3⟩ := header_line_pieces key _ hkey hrest
    have hcolon : ':' ∈ key ++ ':' :: ((if space then [' '] else []) ++ value) := by simp
    have hvalue : (if ((if space then [' '] else []) ++ value).head? = some ' '
        then ((if space then [' '] else []) ++ value).drop 1
        else (if space then [' '] else []) ++ value) = value := by
      cases space
      · have := hsp rfl
        simp [this]
      · simp
    unfold process_header
    simp only [hc, Bool.false_eq_true, if_false, Bool.not_true, h1, hcolon, not_true_eq_false,
      h2, h3, hvalue]
    cases req._target_object <;> rfl
  · intro data terminated hc hno
    unfold process_header
    simp only [hc, Bool.false_eq_true, if_false]
    cases terminated
    · simp
    · have hline : ':' ∉ cut_at '\r' (cut_at '\n' (c_str data)) := by
        intro hm
        apply hno
        unfold cut_at c_str at hm
        exact (List.takeWhile_sublist _).subset
          ((List.takeWhile_sublist _).subset ((List.takeWhile_sublist _).subset hm))
      simp [hline]
  · intro data terminated hc
    simp [process_header, hc]

/-- Witness for C18: an ETag line routed to the target object, a line with an
empty value stored in the header map, and a status line without colon. -/
theorem header_line_parsing_witness :
    (process_header used_request
        ("ETag".toList ++ ':' :: ([' '] ++ sample_digest) ++ ['\r', '\n']) true).2._target_object =
      some (request_process_header stored_object "ETag".toList sample_digest) ∧
    (process_header sample_request
        ("x-amz-meta-empty".toList ++ ':' :: ([] ++ []) ++ ['\r', '\n']) true).2._response_headers =
      [("x-amz-meta-empty".toList, [])] ∧
    process_header sample_request "HTTP/1.1 200 OK\r\n".toList true =
      ("HTTP/1.1 200 OK\r\n".toList.length, sample_request) :=
  ⟨congrArg (fun x => x.2._target_object)
      ((header_line_parsing used_request "ETag".toList sample_digest true
        (by decide) (by decide) (by decide)).1 (by decide)),
   congrArg (fun x => x.2._response_headers)
      ((header_line_parsing sample_request "x-amz-meta-empty".toList [] false
        (by decide) (by decide) (by decide)).1 (by decide)),
   (header_line_parsing sample_request [] [] false (by decide) (by decide) (by decide)).2.1
      "HTTP/1.1 200 OK\r\n".toList true (by decide) (by decide)⟩

/-! ## Claim C20 -/

/-- One `process_input` call on an in-memory body with the offset inside it. -/
theorem process_input_memory (r : request) (size : Nat) (rc : Int) (off : Nat)
    (hc : r._canceled = false) (hfd : r._input_fd = -1) (hoff : r._input_offset = off)
    (hle : off ≤ r._input_data.length) (hlen : r._input_data.length < 2 ^ 64) :
    process_input r size rc =
      (min size (r._input_data.length - off),
        (r._input_data.drop off).take (min size (r._input_data.length - off)),
        { r with _input_offset := ((off + min size (r._input_data.length - off) : Nat) : Int) }) := by
  have hrem : (((r._input_data.length : Int) - r._input_offset) % 18446744073709551616).toNat =
      r._input_data.length - off := by
    rw [hoff]
    omega
  have hmin : (if size > r._input_data.length - off then r._input_data.length - off else size) =
      min size (r._input_data.length - off) := by
    split <;> omega
  unfold process_input
  simp only [hc, Bool.false_eq_true, if_false, hfd, ne_eq, not_true_eq_false, hrem, hmin]
  refine Prod.ext rfl (Prod.ext ?_ ?_)
  · simp only
    by_cases h0 : r._input_data.length - off = 0
    · simp [h0]
    · rw [if_pos h0, hoff]
      simp
  · simp only [hoff]
    congr 1

theorem take_min_append {α : Type} (t : List α) (size R : Nat) :
    t.take (min size t.length) ++ (t.drop (min size t.length)).take R = t.take (size + R) := by
  by_cases h : size ≤ t.length
  · rw [Nat.min_eq_left h, List.take_add]
  · have hm : min size t.length = t.length := Nat.min_eq_right (by omega)
    rw [hm, List.take_length, List.drop_length, List.take_nil, List.append_nil,
      List.take_of_length_le (by omega)]

/-- A run of `process_input` calls on an in-memory body, from offset `off`. -/
theorem upload_all_memory (calls : List (Nat × Int)) (r : request) (off : Nat)
    (hc : r._canceled = false) (hfd : r._input_fd = -1) (hoff : r._input_offset = off)
    (hle : off ≤ r._input_data.length) (hlen : r._input_data.length < 2 ^ 64) :
    (upload_all calls r).2._canceled = false ∧
    (upload_all calls r).2._input_fd = -1 ∧
    (upload_all calls r).2._input_data = r._input_data ∧
    (upload_all calls r).2._input_offset =
      ((min (off + requested calls) r._input_data.length : Nat) : Int) ∧
    ((upload_all calls r).1.map Prod.snd).flatten =
      (r._input_data.drop off).take (requested calls) ∧
    (∀ e ∈ (upload_all calls r).1, e.1 = e.2.length) := by
  induction calls generalizing r off with
  | nil =>
    simp only [upload_all, requested, List.map_nil, List.sum_nil, Nat.add_zero, List.flatten_nil,
      List.take_zero, List.not_mem_nil, false_implies, implies_true, and_true]
    refine ⟨hc, hfd, trivial, ?_⟩
    rw [hoff, Nat.min_eq_left hle]
  | cons call rest ih =>
    obtain ⟨size, rc⟩ := call
    have hstep := process_input_memory r size rc off hc hfd hoff hle hlen
    have hreq : requested ((size, rc) :: rest) = size + requested rest := by
      simp [requested]
    obtain ⟨i1, i2, i3, i4, i5, i6⟩ := ih
      { r with _input_offset := ((off + min size (r._input_data.length - off) : Nat) : Int) }
      (off + min size (r._input_data.length - off)) hc hfd rfl
      (by simp only; omega) hlen
    simp only at i1 i2 i3 i4 i5 i6
    simp only [upload_all, hstep, hreq, List.map_cons, List.flatten_cons, List.mem_cons]
    refine ⟨i1, i2, i3, ?_, ?_, ?_⟩
    · rw [i4]
      congr 1
      omega
    · rw [i5]
      have hlen2 : (r._input_data.drop off).length = r._input_data.length - off := by simp
      have := take_min_append (r._input_data.drop off) size (requested rest)
      rw [hlen2, List.drop_drop] at this
      rw [← this]
    · intro e he
      rcases he with he | he
      · rw [he]
        simp only [List.length_take, List.length_drop]
        omega
      · exact i6 e he

theorem set_input_data_state (r : request) (s : Str) :
    (set_input_data r s).2._input_data = s ∧
    (set_input_data r s).2._input_fd = -1 ∧
    (set_input_data r s).2._input_offset = 0 ∧
    (set_input_data r s).2._canceled = r._canceled := by
  unfold set_input_data
  simp only
  split_ifs <;> exact ⟨rfl, rfl, rfl, rfl⟩

theorem process_input_memory_of (r : request) (s : Str) (size : Nat) (rc : Int) (off : Nat)
    (hdata : r._input_data = s)
    (hc : r._canceled = false) (hfd : r._input_fd = -1) (hoff : r._input_offset = off)
    (hle : off ≤ s.length) (hlen : s.length < 2 ^ 64) :
    process_input r size rc =
      (min size (s.length - off), (s.drop off).take (min size (s.length - off)),
        { r with _input_offset := ((off + min size (s.length - off) : Nat) : Int) }) := by
  subst hdata
  exact process_input_memory r size rc off hc hfd hoff hle hlen

/-- C20: after `set_input_data(s)` and any run of `process_input` calls on the
request (not canceled), the offset is `min(total requested, |s|)`, so it never
exceeds `|s|` and `|s| - offset` does not wrap; the next call copies exactly
`min(requested, |s| - offset)` bytes of `s` from the offset and advances the
offset by that amount; the chunks delivered so far, concatenated, are the
prefix of `s` of the total requested length, hence the whole of `s` once the
requested sizes sum to at least `|s|`, and from then on every call returns 0. -/
theorem upload_streaming (r : request) (s : Str) (calls : List (Nat × Int)) (size : Nat)
    (rc : Int) (hc : r._canceled = false) (hlen : s.length < 2 ^ 64) :
    (upload_all calls (set_input_data r s).2).2._input_offset =
      ((min (requested calls) s.length : Nat) : Int) ∧
    (upload_all calls (set_input_data r s).2).2._input_offset ≤ s.length ∧
    process_input (upload_all calls (set_input_data r s).2).2 size rc =
      (min size (s.length - min (requested calls) s.length),
        (s.drop (min (requested calls) s.length)).take
          (min size (s.length - min (requested calls) s.length)),
        { (upload_all calls (set_input_data r s).2).2 with
          _input_offset := ((min (requested calls) s.length +
            min size (s.length - min (requested calls) s.length) : Nat) : Int) }) ∧
    ((upload_all calls (set_input_data r s).2).1.map Prod.snd).flatten =
      s.take (requested calls) ∧
    ((upload_all calls (set_input_data r s).2).1.map Prod.snd).flatten <+: s ∧
    (∀ e ∈ (upload_all calls (set_input_data r s).2).1, e.1 = e.2.length) ∧
    (s.length ≤ requested calls →
      ((upload_all calls (set_input_data r s).2).1.map Prod.snd).flatten = s ∧
      (process_input (upload_all calls (set_input_data r s).2).2 size rc).1 = 0) := by
  obtain ⟨hd, hfd, hoff, hcan⟩ := set_input_data_state r s
  have hoff0 : (set_input_data r s).2._input_offset = ((0 : Nat) : Int) := by rw [hoff]; rfl
  obtain ⟨u1, u2, u3, u4, u5, u6⟩ := upload_all_memory calls (set_input_data r s).2 0
    (by rw [hcan]; exact hc) hfd hoff0 (Nat.zero_le _) (by rw [hd]; exact hlen)
  rw [hd] at u3 u4 u5
  simp only [Nat.zero_add, List.drop_zero] at u4 u5
  have hstep := process_input_memory_of (upload_all calls (set_input_data r s).2).2 s size rc
    (min (requested calls) s.length) u3 u1 u2 u4 (Nat.min_le_right _ _) hlen
  refine ⟨u4, ?_, hstep, u5, ?_, u6, ?_⟩
  · rw [u4]
    have : min (requested calls) s.length ≤ s.length := Nat.min_le_right _ _
    exact_mod_cast this
  · rw [u5]
    exact List.take_prefix _ _
  · intro hall
    refine ⟨?_, ?_⟩
    · rw [u5, List.take_of_length_le hall]
    · rw [hstep]
      simp only
      omega

/-- Witness for C20: a seven-byte body read in pieces of 3, 3 and 5 bytes, and
one more call. -/
theorem upload_streaming_witness :
    ((upload_all [(3, 0), (3, 0), (5, 0)]
        (set_input_data (init sample_request HTTP_PUT).2 "payload".toList).2).1.map
      Prod.snd).flatten = "payload".toList ∧
    (process_input (upload_all [(3, 0), (3, 0), (5, 0)]
        (set_input_data (init sample_request HTTP_PUT).2 "payload".toList).2).2 4 0).1 = 0 :=
  (upload_streaming (init sample_request HTTP_PUT).2 "payload".toList
    [(3, 0), (3, 0), (5, 0)] 4 0 (by decide) (by decide)).2.2.2.2.2.2 (by decide)

/-! ## Claim C14 -/

/-- A lookup that finds nothing mapped leaves the path with a null entry, and
`remove` of a path with a null entry dereferences it. -/
theorem remove_null_entry (c : object_cache) (path : Str)
    (h : map_find path c._cache_map = some none) : remove c path = none := by
  simp [remove, h]

theorem find_leaves_null_entry (c : object_cache) (now : Int) (path : Str)
    (h : cached c path = none) : map_find path (find c now path).2._cache_map = some none := by
  rcases cached_none_cases c path h with hm | hm
  · simp [find, hm, cached, map_find_set_self]
  · simp [find, hm, cached]

/-- C14, the failing input: `get("x")` on an empty cache when the store has no
object `x` (and already the lookup `find("x")` alone) leaves a null entry for
`x` in `cache_map`; `remove("x")` then finds the entry and dereferences the null
pointer in it. -/
theorem remove_after_missed_lookup :
    map_find "x".toList (get empty_cache 1300000200 "x".toList none).2._cache_map = some none ∧
    (remove (get empty_cache 1300000200 "x".toList none).2 "x".toList).isNone = true ∧
    (remove (find empty_cache 1300000200 "x".toList).2 "x".toList).isNone = true := by
  decide

/-! ## Claim C17: an observation in the sequential model -/

/-- A second lookup of a path whose first lookup missed misses again: the null
entry the first one left is not a marker of a fetch under way. -/
theorem find_twice_misses (c : object_cache) (now later : Int) (path : Str)
    (h : cached c path = none) :
    (find c now path).1 = none ∧ (find (find c now path).2 later path).1 = none ∧
    (find (find c now path).2 later path).2._misses = c._misses + 2 := by
  have h1 := find_unmapped c now path h
  have hnull := find_leaves_null_entry c now path h
  have h2 : cached (find c now path).2 path = none := by
    simp [cached, hnull]
  have h3 := find_unmapped (find c now path).2 later path h2
  exact ⟨h1.1, h3.1, by rw [h3.2.1, h1.2.1]⟩

/-! ## Claim C21 -/

theorem header_metadata_keys (o : object) (key value : Str)
    (h : ∀ e ∈ o._metadata, starts_with AMZ_META_PREFIX_RESERVED e.1 = false) :
    ∀ e ∈ (request_process_header o key value)._metadata,
      starts_with AMZ_META_PREFIX_RESERVED e.1 = false := by
  unfold request_process_header
  simp only
  repeat' (apply ite_cases (fun x : object =>
    ∀ e ∈ x._metadata, starts_with AMZ_META_PREFIX_RESERVED e.1 = false) <;> intro _)
  all_goals first
    | exact h
    | skip
  rename_i hcond
  intro e he
  rcases map_set_keys _ _ _ e he with hk | hk
  · rw [hk]
    simp only [Bool.and_eq_true, Bool.not_eq_true'] at hcond
    exact hcond.2
  · exact h e hk

theorem metadata_reach_inv (u : util) (o : object) (h : metadata_reach u o) :
    ∀ e ∈ o._metadata, starts_with AMZ_META_PREFIX_RESERVED e.1 = false := by
  induction h with
  | defaults now o type => simp [set_defaults]
  | init o => simp [request_init]
  | @metadata o key value _ ih =>
    unfold set_metadata
    split
    · exact ih
    · rename_i hres
      intro e he
      rcases map_set_keys _ _ _ e he with hk | hk
      · rw [hk]
        simpa using hres
      · exact ih e hk
  | header key value _ ih => exact header_metadata_keys _ key value ih
  | mode m _ ih => exact ih
  | @response o now req _ ih =>
    unfold request_process_response
    simp only
    split
    · exact ih
    · exact ih

/-- The vendor-prefixed name of a key that is not reserved is none of the
names `request_process_header` treats specially. -/
theorem vendor_name_is_plain (k : Str) (hk : starts_with AMZ_META_PREFIX_RESERVED k = false) :
    (starts_with AMZ_META_PREFIX ( AMZ_META_PREFIX ++ k) &&
      !(starts_with AMZ_META_PREFIX_RESERVED (( AMZ_META_PREFIX ++ k).drop AMZ_META_PREFIX_LEN))) =
      true := by
  have h1 : starts_with AMZ_META_PREFIX ( AMZ_META_PREFIX ++ k) = true := by
    unfold starts_with
    rw [List.isPrefixOf_iff_prefix]
    exact List.prefix_append _ _
  have h2 : ( AMZ_META_PREFIX ++ k).drop AMZ_META_PREFIX_LEN = k := by
    unfold AMZ_META_PREFIX_LEN
    exact List.drop_left _ _
  rw [h1, h2, hk]
  rfl

theorem header_stores_metadata (o : object) (key value : Str)
    (hcond : (starts_with AMZ_META_PREFIX key &&
      !(starts_with AMZ_META_PREFIX_RESERVED (key.drop AMZ_META_PREFIX_LEN))) = true) :
    (request_process_header o key value)._metadata =
      map_set str_lt (key.drop AMZ_META_PREFIX_LEN) value o._metadata := by
  have hne : ∀ name : Str,
      (starts_with AMZ_META_PREFIX name &&
        !(starts_with AMZ_META_PREFIX_RESERVED (name.drop AMZ_META_PREFIX_LEN))) = false →
      ¬ key = name := by
    intro name hn heq
    rw [heq, hn] at hcond
    exact absurd hcond (by simp)
  unfold request_process_header
  simp only
  rw [if_neg (hne HDR_CONTENT_TYPE (by decide)), if_neg (hne HDR_ETAG (by decide)),
    if_neg (hne HDR_CONTENT_LENGTH (by decide)), if_neg (hne HDR_MODE (by decide)),
    if_neg (hne HDR_UID (by decide)), if_neg (hne HDR_GID (by decide)),
    if_neg (hne HDR_MTIME (by decide)), if_neg (hne HDR_MTIME_ETAG (by decide)),
    if_neg (hne HDR_MD5 (by decide)), if_neg (hne HDR_MD5_ETAG (by decide)), if_pos hcond]

/-- C21: in every object state reached through `set_defaults`, `request_init`,
`set_metadata` and `request_process_header` (also `set_mode` and
`request_process_response`) with arbitrary keys and values, no key of the
metadata map begins with the reserved prefix `s3fuse-`; and a header named
`x-amz-meta-` + `k`, with `k` not starting with `s3fuse-`, is stored under the
key `k` with its value. -/
theorem reserved_keys_stay_out (u : util) (o : object) (k v : Str) :
    (metadata_reach u o → ∀ e ∈ o._metadata, ¬ "s3fuse-".toList <+: e.1) ∧
    (¬ "s3fuse-".toList <+: k →
      (request_process_header o ("x-amz-meta-".toList ++ k) v)._metadata =
        map_set str_lt k v o._metadata ∧
      map_find k (request_process_header o ("x-amz-meta-".toList ++ k) v)._metadata = some v) := by
  have hp : ∀ x : Str, starts_with AMZ_META_PREFIX_RESERVED x = false ↔
      ¬ "s3fuse-".toList <+: x := by
    intro x
    have hiff : starts_with AMZ_META_PREFIX_RESERVED x = true ↔ "s3fuse-".toList <+: x := by
      unfold starts_with AMZ_META_PREFIX_RESERVED
      exact List.isPrefixOf_iff_prefix
    rw [← hiff]
    cases starts_with AMZ_META_PREFIX_RESERVED x <;> simp
  constructor
  · intro h e he
    exact (hp e.1).mp (metadata_reach_inv u o h e he)
  · intro hk
    have hcond := vendor_name_is_plain k ((hp k).mpr hk)
    have hstore := header_stores_metadata o ( AMZ_META_PREFIX ++ k) v hcond
    have hdrop : ( AMZ_META_PREFIX ++ k).drop AMZ_META_PREFIX_LEN = k := by
      unfold AMZ_META_PREFIX_LEN
      exact List.drop_left _ _
    rw [hdrop] at hstore
    have hname : "x-amz-meta-".toList ++ k = AMZ_META_PREFIX ++ k := rfl
    rw [hname, hstore]
    exact ⟨rfl, map_find_set_self _ _ _ _⟩

/-- Witness for C21: a populate sequence that ingests a custom header and a
header under the reserved prefix that is none of the known ones. -/
theorem reserved_keys_stay_out_witness :
    (∀ e ∈ (request_process_header
        (request_process_header (request_init sample_object)
          "x-amz-meta-color".toList "red".toList)
        "x-amz-meta-s3fuse-other".toList "1".toList)._metadata,
      ¬ "s3fuse-".toList <+: e.1) ∧
    map_find "color".toList
      (request_process_header sample_object ("x-amz-meta-".toList ++ "color".toList)
        "red".toList)._metadata = some "red".toList :=
  ⟨(reserved_keys_stay_out sample_util
      (request_process_header
        (request_process_header (request_init sample_object)
          "x-amz-meta-color".toList "red".toList)
        "x-amz-meta-s3fuse-other".toList "1".toList) [] []).1
      (metadata_reach.header _ _ (metadata_reach.header _ _ (metadata_reach.init sample_object))),
   ((reserved_keys_stay_out sample_util sample_object "color".toList "red".toList).2
      (by decide)).2⟩

/-! ## Claims C23, C24 -/

/-- C23, the failing input: a reader with `group_common_prefixes`, fresh key and
prefix lists, a service without `NextMarker`, and a 200 response that parses
with `IsTruncated` true, two common prefixes and no key. The prefixes are
appended, the key list stays empty, and `read` takes `keys->back()` of the
empty list. -/
theorem last_key_of_empty_page :
    (read sample_util false (fun _ => page_of_prefixes) (bucket_reader_new [] true 0)
      (some []) (some [])).isNone = true := by
  decide

/-- C24, the failing input: a fresh reader (truncated flag true) and a 200
response with `IsTruncated` false whose key query fails. `read` returns `-EIO`
and leaves the flag false; the next `read` returns 0 whatever the store would
answer, that is without a request. -/
theorem failed_read_clears_truncated :
    (bucket_reader_new [] false 0)._truncated = true ∧
    (read sample_util false (fun _ => broken_last_page) (bucket_reader_new [] false 0)
      (some []) none).map (fun res => (res.ret, res.reader)) =
        some (- EIO, { bucket_reader_new [] false 0 with _truncated := false }) ∧
    (∀ server, (read sample_util false server
        { bucket_reader_new [] false 0 with _truncated := false } (some []) none).map
          (fun res => res.ret) = some 0) :=
  ⟨by decide, by decide, fun server => by simp [read, bucket_reader_new]⟩

/-! ## Claim C22 -/

theorem join_find_set (m : List (Str × Option Nat)) (p q : Str) (v : Option Nat) :
    (map_find q (map_set str_lt p v m)).join = if q = p then v else (map_find q m).join := by
  by_cases h : q = p
  · subst h
    simp [map_find_set_self]
  · rw [map_find_set_other _ _ _ _ _ h, if_neg h]

theorem join_find_erase (m : List (Str × Option Nat)) (p q : Str) :
    (map_find q (map_erase p m)).join = if q = p then none else (map_find q m).join := by
  by_cases h : q = p
  · subst h
    simp [map_find_erase_self]
  · rw [map_find_erase_other _ _ _ h, if_neg h]

/-- The lookup `find` of a path that has no entry in `cache_map`. -/
theorem find_eq_absent (c : object_cache) (now : Int) (path : Str)
    (hm : map_find path c._cache_map = none) :
    find c now path =
      (none, { c with _cache_map := map_set str_lt path none c._cache_map,
                      _misses := c._misses + 1 }) := by
  simp [find, hm, cached, map_find_set_self]

/-- The lookup `find` of a path whose entry in `cache_map` is null. -/
theorem find_eq_null (c : object_cache) (now : Int) (path : Str)
    (hm : map_find path c._cache_map = some none) :
    find c now path = (none, { c with _misses := c._misses + 1 }) := by
  simp [find, hm, cached]

/-- The lookup `find` of a cached object that is not open and no longer valid. -/
theorem find_eq_expired (c : object_cache) (now : Int) (path : Str) (a : Nat)
    (hm : map_find path c._cache_map = some (some a))
    (hexp : (c.heap a)._open_file = none ∧ is_valid now (c.heap a) = false) :
    find c now path =
      (none, { c with _expiries := c._expiries + 1,
                      _cache_map := map_set str_lt path none c._cache_map }) := by
  simp [find, hm, cached, hexp.1, hexp.2]

/-- The lookup `find` of a cached object that is open or still valid. -/
theorem find_eq_hit (c : object_cache) (now : Int) (path : Str) (a : Nat)
    (hm : map_find path c._cache_map = some (some a))
    (hexp : ¬ ((c.heap a)._open_file = none ∧ is_valid now (c.heap a) = false)) :
    find c now path = (some a, { c with _hits := c._hits + 1 }) := by
  simp only [find, hm, cached, Option.join, Option.bind, id, if_neg hexp]

/-- What `find` does to the cache, apart from the counters. -/
theorem find_effect (c : object_cache) (now : Int) (path : Str) :
    (find c now path).2.heap = c.heap ∧
    (find c now path).2._handle_map = c._handle_map ∧
    (find c now path).2.next_address = c.next_address ∧
    (find c now path).2._next_handle = c._next_handle ∧
    (∀ q, q ≠ path → cached (find c now path).2 q = cached c q) ∧
    (cached (find c now path).2 path = cached c path ∨
      (cached (find c now path).2 path = none ∧
        ∀ a, cached c path = some a → (c.heap a)._open_file = none)) ∧
    ((find c now path).1 = none → cached (find c now path).2 path = none) ∧
    (∀ a, (find c now path).1 = some a → cached (find c now path).2 path = some a) := by
  cases hm : map_find path c._cache_map with
  | none =>
    rw [find_eq_absent c now path hm]
    refine ⟨rfl, rfl, rfl, rfl, ?_, Or.inl ?_, fun _ => ?_, ?_⟩
    · intro q hq
      simp only [cached]
      rw [map_find_set_other _ _ _ _ _ hq]
    · simp [cached, hm, map_find_set_self]
    · simp [cached, map_find_set_self]
    · intro a ha
      simp at ha
  | some slot =>
    cases slot with
    | none =>
      rw [find_eq_null c now path hm]
      refine ⟨rfl, rfl, rfl, rfl, fun q _ => rfl, Or.inl rfl, fun _ => ?_, ?_⟩
      · simp [cached, hm]
      · intro a ha
        simp at ha
    | some a =>
      by_cases hexp : (c.heap a)._open_file = none ∧ is_valid now (c.heap a) = false
      · rw [find_eq_expired c now path a hm hexp]
        refine ⟨rfl, rfl, rfl, rfl, ?_, Or.inr ⟨?_, ?_⟩, fun _ => ?_, ?_⟩
        · intro q hq
          simp only [cached]
          rw [map_find_set_other _ _ _ _ _ hq]
        · simp [cached, map_find_set_self]
        · intro b hb
          simp only [cached, hm, Option.join, Option.bind, id, Option.some.injEq] at hb
          rw [← hb]
          exact hexp.1
        · simp [cached, map_find_set_self]
        · intro b hb
          simp at hb
      · rw [find_eq_hit c now path a hm hexp]
        refine ⟨rfl, rfl, rfl, rfl, fun q _ => rfl, Or.inl rfl, ?_, ?_⟩
        · intro h
          simp at h
        · intro b hb
          simp only [Option.some.injEq] at hb
          simp [cached, hm, hb]

/-- The lookup `find` keeps the invariant. -/
theorem find_inv (c : object_cache) (now : Int) (path : Str) (h : cache_inv c) :
    cache_inv (find c now path).2 := by
  obtain ⟨hheap, hhm, hna, hnh, hother, hself, _, _⟩ := find_effect c now path
  obtain ⟨i1, i2, i3⟩ := h
  have hsub : ∀ q a, cached (find c now path).2 q = some a → cached c q = some a := by
    intro q a hq
    by_cases hqp : q = path
    · subst hqp
      rcases hself with hs | ⟨hs, _⟩
      · rw [← hs]
        exact hq
      · rw [hs] at hq
        simp at hq
    · rw [← hother q hqp]
      exact hq
  refine ⟨?_, ?_, ?_⟩
  · intro q a hq
    rw [hheap, hna]
    exact i1 q a (hsub q a hq)
  · intro q a f hq hf
    rw [hheap] at hf
    rw [hhm]
    exact i2 q a f (hsub q a hq) hf
  · intro h a hh
    rw [hhm] at hh
    obtain ⟨j1, j2, f, j3, j4⟩ := i3 h a hh
    rw [hheap, hnh]
    refine ⟨j1, ?_, f, j3, j4⟩
    by_cases hqp : (c.heap a)._path = path
    · rcases hself with hs | ⟨_, hs⟩
      · rw [hqp, hs, ← hqp]
        exact j2
      · have hno := hs a (hqp ▸ j2)
        rw [hno] at j3
        simp at j3
    · rw [hother _ hqp]
      exact j2

/-- The fetch `__fetch` into a slot that holds no object keeps the invariant, and
the object it returns is cached under the path. -/
theorem fetch_inv (c : object_cache) (path : Str) (fetched : Option object)
    (h : cache_inv c) (hnone : cached c path = none) :
    cache_inv (__fetch c path fetched).2 ∧
    ∀ a, (__fetch c path fetched).1 = some a → cached (__fetch c path fetched).2 path = some a := by
  cases fetched with
  | none =>
    refine ⟨h, ?_⟩
    intro a ha
    simp [__fetch] at ha
  | some o =>
    obtain ⟨i1, i2, i3⟩ := h
    have hc : ∀ q, cached (__fetch c path (some o)).2 q =
        if q = path then some c.next_address else cached c q := by
      intro q
      simp only [__fetch, cached]
      exact join_find_set _ _ _ _
    have hheap_new : (__fetch c path (some o)).2.heap c.next_address =
        { o with _path := path, _open_file := none } := by
      simp [__fetch]
    have hheap_old : ∀ a, a < c.next_address →
        (__fetch c path (some o)).2.heap a = c.heap a := by
      intro a ha
      simp only [__fetch]
      exact Function.update_noteq (by omega) _ _
    have hhm : (__fetch c path (some o)).2._handle_map = c._handle_map := rfl
    have hna : (__fetch c path (some o)).2.next_address = c.next_address + 1 := rfl
    have hnh : (__fetch c path (some o)).2._next_handle = c._next_handle := rfl
    refine ⟨⟨?_, ?_, ?_⟩, ?_⟩
    · intro q a hq
      rw [hc] at hq
      by_cases hqp : q = path
      · rw [if_pos hqp] at hq
        simp only [Option.some.injEq] at hq
        subst hq
        rw [hheap_new, hna]
        exact ⟨hqp.symm, by omega⟩
      · rw [if_neg hqp] at hq
        obtain ⟨j1, j2⟩ := i1 q a hq
        rw [hheap_old a j2, hna]
        exact ⟨j1, by omega⟩
    · intro q a f hq hf
      rw [hc] at hq
      by_cases hqp : q = path
      · rw [if_pos hqp] at hq
        simp only [Option.some.injEq] at hq
        subst hq
        rw [hheap_new] at hf
        simp at hf
      · rw [if_neg hqp] at hq
        obtain ⟨_, j2⟩ := i1 q a hq
        rw [hheap_old a j2] at hf
        rw [hhm]
        exact i2 q a f hq hf
    · intro h a hh
      rw [hhm] at hh
      obtain ⟨j1, j2, f, j3, j4⟩ := i3 h a hh
      have ha := (i1 _ a j2).2
      rw [hheap_old a ha, hnh, hc]
      have hne : (c.heap a)._path ≠ path := by
        intro e
        rw [e, hnone] at j2
        simp at j2
      rw [if_neg hne]
      exact ⟨j1, j2, f, j3, j4⟩
    · intro a ha
      rw [hc, if_pos rfl]
      exact ha

/-- The call `get` keeps the invariant, and the object it returns is cached
under the path. -/
theorem get_inv (c : object_cache) (now : Int) (path : Str) (fetched : Option object)
    (h : cache_inv c) :
    cache_inv (get c now path fetched).2 ∧
    ∀ a, (get c now path fetched).1 = some a → cached (get c now path fetched).2 path = some a := by
  have hfi := find_inv c now path h
  obtain ⟨_, _, _, _, _, _, hmiss, hhit⟩ := find_effect c now path
  cases hf : find c now path with
  | mk r c1 =>
    rw [hf] at hfi hmiss hhit
    cases r with
    | none =>
      simp only [get, hf]
      exact fetch_inv c1 path fetched hfi (hmiss rfl)
    | some a =>
      simp only [get, hf]
      exact ⟨hfi, hhit⟩

/-- Taking the object at `a` out of `cache_map` (and its handle, if it has one,
out of `handle_map`) keeps the invariant, whatever happens to the object. -/
theorem evict_inv (c c1 : object_cache) (a : Nat) (path : Str) (h : cache_inv c)
    (hca : cached c path = some a)
    (hheap : ∀ b, b ≠ a → c1.heap b = c.heap b)
    (hna : c1.next_address = c.next_address)
    (hnh : c1._next_handle = c._next_handle)
    (hc : ∀ q, cached c1 q = if q = path then none else cached c q)
    (hsub : ∀ k b, map_find k c1._handle_map = some b →
      map_find k c._handle_map = some b ∧ b ≠ a)
    (hkeep : ∀ k b, map_find k c._handle_map = some b → b ≠ a →
      map_find k c1._handle_map = some b) :
    cache_inv c1 := by
  obtain ⟨i1, i2, i3⟩ := h
  have hold : ∀ q b, cached c1 q = some b → q ≠ path ∧ cached c q = some b ∧ b ≠ a := by
    intro q b hq
    rw [hc] at hq
    by_cases hqp : q = path
    · rw [if_pos hqp] at hq
      simp at hq
    · rw [if_neg hqp] at hq
      refine ⟨hqp, hq, ?_⟩
      intro e
      subst e
      exact hqp ((i1 q b hq).1.symm.trans (i1 path b hca).1)
  refine ⟨?_, ?_, ?_⟩
  · intro q b hq
    obtain ⟨_, j2, j3⟩ := hold q b hq
    rw [hheap b j3, hna]
    exact i1 q b j2
  · intro q b f hq hf
    obtain ⟨_, j2, j3⟩ := hold q b hq
    rw [hheap b j3] at hf
    exact hkeep _ b (i2 q b f j2 hf) j3
  · intro k b hk
    obtain ⟨j1, j2⟩ := hsub k b hk
    obtain ⟨l1, l2, f, l3, l4⟩ := i3 k b j1
    rw [hheap b j2, hnh, hc]
    have hne : (c.heap b)._path ≠ path := by
      intro e
      rw [e, hca] at l2
      simp only [Option.some.injEq] at l2
      exact j2 l2.symm
    rw [if_neg hne]
    exact ⟨l1, l2, f, l3, l4⟩

/-- Replacing the open file of the object at `a` by one with the same handle
keeps the invariant. -/
theorem set_open_file_inv (c : object_cache) (a : Nat) (f g : open_file) (h : cache_inv c)
    (hf : (c.heap a)._open_file = some f) (hg : g.handle = f.handle) :
    cache_inv (heap_set_open_file c a (some g)) := by
  obtain ⟨i1, i2, i3⟩ := h
  have hpath : ∀ b, ((heap_set_open_file c a (some g)).heap b)._path = (c.heap b)._path := by
    intro b
    by_cases hb : b = a
    · subst hb
      simp [heap_set_open_file]
    · simp [heap_set_open_file, Function.update_noteq hb]
  have hsame : ((heap_set_open_file c a (some g)).heap a)._open_file = some g := by
    simp [heap_set_open_file]
  have hother : ∀ b, b ≠ a → (heap_set_open_file c a (some g)).heap b = c.heap b := by
    intro b hb
    simp [heap_set_open_file, Function.update_noteq hb]
  refine ⟨?_, ?_, ?_⟩
  · intro q b hq
    rw [hpath]
    exact i1 q b hq
  · intro q b f1 hq hf1
    by_cases hb : b = a
    · subst hb
      rw [hsame] at hf1
      simp only [Option.some.injEq] at hf1
      subst hf1
      rw [hg]
      exact i2 q b f hq hf
    · rw [hother b hb] at hf1
      exact i2 q b f1 hq hf1
  · intro k b hk
    obtain ⟨l1, l2, f1, l3, l4⟩ := i3 k b hk
    rw [hpath]
    refine ⟨l1, l2, ?_⟩
    by_cases hb : b = a
    · subst hb
      rw [hf] at l3
      simp only [Option.some.injEq] at l3
      subst l3
      exact ⟨g, hsame, hg.trans l4⟩
    · rw [hother b hb]
      exact ⟨f1, l3, l4⟩

/-- Giving the cached object at `a`, which has no open file, a file with the next
handle and entering it in `handle_map` keeps the invariant. -/
theorem install_inv (c : object_cache) (a : Nat) (path : Str) (g : open_file)
    (h : cache_inv c) (hca : cached c path = some a)
    (hf : (c.heap a)._open_file = none) (hg : g.handle = c._next_handle) :
    cache_inv
      { heap_set_open_file { c with _next_handle := c._next_handle + 1 } a (some g) with
        _handle_map := map_set nat_lt c._next_handle a c._handle_map } := by
  obtain ⟨i1, i2, i3⟩ := h
  have hpath : ∀ b, (Function.update c.heap a { c.heap a with _open_file := some g } b)._path =
      (c.heap b)._path := by
    intro b
    by_cases hb : b = a
    · subst hb
      simp
    · simp [Function.update_noteq hb]
  refine ⟨?_, ?_, ?_⟩
  · intro q b hq
    simp only [heap_set_open_file]
    rw [hpath]
    exact i1 q b hq
  · intro q b f1 hq hf1
    simp only [heap_set_open_file] at hf1 ⊢
    by_cases hb : b = a
    · subst hb
      simp only [Function.update_same, Option.some.injEq] at hf1
      subst hf1
      rw [hg]
      exact map_find_set_self _ _ _ _
    · rw [Function.update_noteq hb] at hf1
      have hm := i2 q b f1 hq hf1
      have hlt := (i3 _ b hm).1
      rw [map_find_set_other _ _ _ _ _ (show f1.handle ≠ c._next_handle by omega)]
      exact hm
  · intro k b hk
    simp only [heap_set_open_file] at hk ⊢
    rw [hpath]
    by_cases hkn : k = c._next_handle
    · subst hkn
      rw [map_find_set_self] at hk
      simp only [Option.some.injEq] at hk
      subst hk
      refine ⟨by omega, ?_, g, by simp, hg⟩
      have hp := (i1 path _ hca).1
      rw [hp]
      exact hca
    · rw [map_find_set_other _ _ _ _ _ hkn] at hk
      obtain ⟨l1, l2, f1, l3, l4⟩ := i3 k b hk
      have hb : b ≠ a := by
        intro e
        subst e
        rw [hf] at l3
        simp at l3
      rw [Function.update_noteq hb]
      exact ⟨by omega, l2, f1, l3, l4⟩

/-- Taking the open file off the object at `a` and its handle out of
`handle_map` keeps the invariant. -/
theorem uninstall_inv (c : object_cache) (a : Nat) (f : open_file) (h : cache_inv c)
    (hf : (c.heap a)._open_file = some f) (hm : map_find f.handle c._handle_map = some a) :
    cache_inv
      { heap_set_open_file c a none with
        _handle_map := map_erase f.handle (heap_set_open_file c a none)._handle_map } := by
  obtain ⟨i1, i2, i3⟩ := h
  have hpath : ∀ b, (Function.update c.heap a { c.heap a with _open_file := none } b)._path =
      (c.heap b)._path := by
    intro b
    by_cases hb : b = a
    · subst hb
      simp
    · simp [Function.update_noteq hb]
  refine ⟨?_, ?_, ?_⟩
  · intro q b hq
    simp only [heap_set_open_file]
    rw [hpath]
    exact i1 q b hq
  · intro q b f1 hq hf1
    simp only [heap_set_open_file] at hf1 ⊢
    by_cases hb : b = a
    · subst hb
      simp at hf1
    · rw [Function.update_noteq hb] at hf1
      have hm1 := i2 q b f1 hq hf1
      have hne : f1.handle ≠ f.handle := by
        intro e
        rw [e, hm] at hm1
        simp only [Option.some.injEq] at hm1
        exact hb hm1.symm
      rw [map_find_erase_other _ _ _ hne]
      exact hm1
  · intro k b hk
    simp only [heap_set_open_file] at hk ⊢
    rw [hpath]
    have hkn : k ≠ f.handle := by
      intro e
      rw [e, map_find_erase_self] at hk
      simp at hk
    rw [map_find_erase_other _ _ _ hkn] at hk
    obtain ⟨l1, l2, f1, l3, l4⟩ := i3 k b hk
    have hb : b ≠ a := by
      intro e
      subst e
      rw [hf] at l3
      simp only [Option.some.injEq] at l3
      subst l3
      exact hkn l4.symm
    rw [Function.update_noteq hb]
    exact ⟨l1, l2, f1, l3, l4⟩

/-- A completed `remove` keeps the invariant. -/
theorem remove_inv (c c1 : object_cache) (path : Str) (h : cache_inv c)
    (hr : remove c path = some c1) : cache_inv c1 := by
  cases hm : map_find path c._cache_map with
  | none =>
    simp only [remove, hm, Option.some.injEq] at hr
    rw [← hr]
    exact h
  | some slot =>
    cases slot with
    | none => simp [remove, hm] at hr
    | some a =>
      have hca : cached c path = some a := by simp [cached, hm]
      obtain ⟨i1, i2, i3⟩ := h
      cases hof : (c.heap a)._open_file with
      | none =>
        simp only [remove, hm, hof, Option.some.injEq] at hr
        subst hr
        refine evict_inv c _ a path ⟨i1, i2, i3⟩ hca (fun _ _ => rfl) rfl rfl ?_ ?_ ?_
        · intro q
          exact join_find_erase _ _ _
        · intro k b hk
          refine ⟨hk, ?_⟩
          intro e
          subst e
          obtain ⟨_, _, f, l3, _⟩ := i3 k b hk
          rw [hof] at l3
          simp at l3
        · intro k b hk _
          exact hk
      | some f =>
        simp only [remove, hm, hof, Option.some.injEq] at hr
        subst hr
        have hfa := i2 path a f hca hof
        refine evict_inv c _ a path ⟨i1, i2, i3⟩ hca (fun _ _ => rfl) rfl rfl ?_ ?_ ?_
        · intro q
          exact join_find_erase _ _ _
        · intro k b hk
          have hk1 : map_find k (map_erase f.handle c._handle_map) = some b := hk
          have hkn : k ≠ f.handle := by
            intro e
            rw [e, map_find_erase_self] at hk1
            simp at hk1
          rw [map_find_erase_other _ _ _ hkn] at hk1
          refine ⟨hk1, ?_⟩
          intro e
          subst e
          obtain ⟨_, _, f1, l3, l4⟩ := i3 k b hk1
          rw [hof] at l3
          simp only [Option.some.injEq] at l3
          subst l3
          exact hkn l4.symm
        · intro k b hk hb
          have hkn : k ≠ f.handle := by
            intro e
            rw [e, hfa] at hk
            simp only [Option.some.injEq] at hk
            exact hb hk.symm
          exact (map_find_erase_other _ _ _ hkn).trans hk

/-- A completed `open_handle` keeps the invariant, whether `open_file::init`
succeeds or fails. -/
theorem open_handle_inv (c : object_cache) (now : Int) (path : Str) (fetched : Option object)
    (init_result : Int) (h : cache_inv c) :
    cache_inv (open_handle c now path fetched init_result).2.2 := by
  obtain ⟨hgi, hgr⟩ := get_inv c now path fetched h
  cases hg : get c now path fetched with
  | mk r c1 =>
    rw [hg] at hgi hgr
    cases r with
    | none =>
      simp only [open_handle, hg]
      exact hgi
    | some a =>
      have hca : cached c1 path = some a := hgr a rfl
      cases hof : (c1.heap a)._open_file with
      | some file =>
        simp only [open_handle, hg, hof]
        exact set_open_file_inv c1 a file _ hgi hof rfl
      | none =>
        have hinst := install_inv c1 a path
          { handle := c1._next_handle, ref_count := 0, cleanups := 0 } hgi hca hof rfl
        by_cases hinit : init_result ≠ 0
        · simp only [open_handle, hg, hof, if_pos hinit]
          refine uninstall_inv _ a
            { handle := c1._next_handle, ref_count := 0, cleanups := 0 } hinst ?_ ?_
          · simp [heap_set_open_file]
          · exact map_find_set_self _ _ _ _
        · simp only [open_handle, hg, hof, if_neg hinit]
          refine set_open_file_inv _ a
            { handle := c1._next_handle, ref_count := 0, cleanups := 0 } _ hinst ?_ rfl
          simp [heap_set_open_file]

/-- A completed `release_handle` keeps the invariant. -/
theorem release_handle_inv (c c1 : object_cache) (handle : Nat) (ret : Int) (h : cache_inv c)
    (hr : release_handle c handle = some (ret, c1)) : cache_inv c1 := by
  cases hm : map_find handle c._handle_map with
  | none =>
    simp only [release_handle, hm, Option.some.injEq, Prod.mk.injEq] at hr
    rw [← hr.2]
    exact h
  | some a =>
    cases hof : (c.heap a)._open_file with
    | none => simp [release_handle, hm, hof] at hr
    | some file =>
      by_cases hz : (release file).2 = true
      · simp only [release_handle, hm, hof, hz, if_true, Option.some.injEq,
          Prod.mk.injEq] at hr
        obtain ⟨_, hr⟩ := hr
        subst hr
        obtain ⟨i1, i2, i3⟩ := h
        obtain ⟨_, l2, f1, l3, l4⟩ := i3 handle a hm
        rw [hof] at l3
        simp only [Option.some.injEq] at l3
        subst l3
        have hp : ∀ g1 g2 : Option open_file,
            ((heap_set_open_file
              { heap_set_open_file c a g1 with
                _handle_map := map_erase handle (heap_set_open_file c a g1)._handle_map }
              a g2).heap a)._path = (c.heap a)._path := by
          intro g1 g2
          simp [heap_set_open_file]
        refine evict_inv c _ a (c.heap a)._path ⟨i1, i2, i3⟩ l2 ?_ rfl rfl ?_ ?_ ?_
        · intro b hb
          simp [heap_set_open_file, Function.update_noteq hb]
        · intro q
          simp only [cached]
          rw [hp]
          exact join_find_erase _ _ _
        · intro k b hk
          have hk1 : map_find k (map_erase handle c._handle_map) = some b := hk
          have hkn : k ≠ handle := by
            intro e
            rw [e, map_find_erase_self] at hk1
            simp at hk1
          rw [map_find_erase_other _ _ _ hkn] at hk1
          refine ⟨hk1, ?_⟩
          intro e
          subst e
          obtain ⟨_, _, f2, m3, m4⟩ := i3 k b hk1
          rw [hof] at m3
          simp only [Option.some.injEq] at m3
          subst m3
          exact hkn (m4.symm.trans l4)
        · intro k b hk hb
          have hkn : k ≠ handle := by
            intro e
            rw [e, hm] at hk
            simp only [Option.some.injEq] at hk
            exact hb hk.symm
          exact (map_find_erase_other _ _ _ hkn).trans hk
      · have hz1 : (release file).2 = false := by simpa using hz
        simp only [release_handle, hm, hof, hz1, Bool.false_eq_true, if_false,
          Option.some.injEq, Prod.mk.injEq] at hr
        rw [← hr.2]
        exact set_open_file_inv c a file _ h hof rfl

/-- Every cache state of the sequential model satisfies the invariant. -/
theorem cache_reach_inv (c : object_cache) (h : cache_reach c) : cache_inv c := by
  induction h with
  | start c hc hh =>
    refine ⟨?_, ?_, ?_⟩
    · intro q a hq
      simp [cached, hc, map_find] at hq
    · intro q a f hq
      simp [cached, hc, map_find] at hq
    · intro k a hk
      simp [hh, map_find] at hk
  | find now path _ ih => exact find_inv _ now path ih
  | get now path fetched _ ih => exact (get_inv _ now path fetched ih).1
  | remove path c1 _ hr ih => exact remove_inv _ c1 path ih hr
  | open_handle now path fetched init_result _ ih =>
    exact open_handle_inv _ now path fetched init_result ih
  | release_handle handle ret c1 _ hr ih => exact release_handle_inv _ c1 handle ret ih hr

/-- C22: in the sequential model, after every completed cache operation (`find`,
`get`, `remove`, `open_handle` with `init` succeeding or failing,
`release_handle`), started from a cache with empty maps, the two maps agree:
every object in `cache_map` whose `open_file` is set with handle `h` is
`handle_map[h]`, and every entry `handle_map[h] = o` has `o` in `cache_map` under
its own path, with `o`'s `open_file` set and carrying `h`. A new handle is
fresh because `_next_handle` only grows: the counter is the monotonic one of the
cache model and does not wrap. -/
theorem map_consistency (c : object_cache) (h : cache_reach c) : maps_consistent c :=
  ⟨(cache_reach_inv c h).2.1,
   fun k a hk => ((cache_reach_inv c h).2.2 k a hk).2⟩

/-- C22 at the cache after one successful `open_handle("x")`: the state is
reached, handle 0 names the object at address 0, and the maps agree. -/
theorem map_consistency_witness :
    cache_reach opened_cache ∧
    map_find 0 opened_cache._handle_map = some 0 ∧
    cached opened_cache "x".toList = some 0 ∧
    maps_consistent opened_cache :=
  ⟨cache_reach.open_handle _ _ _ _ (cache_reach.start empty_cache rfl rfl),
   by decide, by decide,
   map_consistency opened_cache
     (cache_reach.open_handle _ _ _ _ (cache_reach.start empty_cache rfl rfl))⟩
end s3
